import Mathlib

/-!
Verification of the bidirectional task-sync engine: a shallow embedding of
the conflict resolver, the remote sync client's request/batch helpers, the
document reconciler, the hierarchical creation protocol and the task-line
codec, with theorems settling the specification claims.

Timestamps are modelled as integers (milliseconds), the conflict window as an
integer (seconds); the timestamp comparison divides by 1000 exactly as the
source does, using rationals for the exact quotient.
-/

namespace TodoistSync

/-- Origin of a pending change: the remote API or a local document edit.
(`local` is a Lean keyword, so the local origin is named `loc`.) -/
inductive Source where
  | api
  | loc
deriving DecidableEq, Repr

/-- A partial changeset: any subset of the mutable task fields, plus the
optional `deleted` flag and an optional parent change.  Mirrors the
`changes` object of a pending change in the store's task type. -/
structure Changes where
  deleted : Option Bool
  completed : Option Bool
  content : Option String
  dueDate : Option String
  dueTime : Option String
  dueDatetime : Option String
  priority : Option Nat
  duration : Option Nat
  labels : Option (List String)
  parent_tid : Option (Option String)
deriving DecidableEq, Repr

/-- The all-absent changeset. -/
def emptyChanges : Changes :=
  ⟨none, none, none, none, none, none, none, none, none, none⟩

/-- One pending change awaiting conflict resolution. -/
structure PendingChange where
  source : Source
  timestamp : Int
  changes : Changes
deriving DecidableEq, Repr

/-- One task record of the store, keyed by its remote id (`tid`). -/
structure TaskInDB where
  tid : String
  filepath : String
  content : String
  completed : Bool
  dueDate : Option String
  dueTime : Option String
  dueDatetime : Option String
  priority : Option Nat
  duration : Option Nat
  labels : List String
  parent_tid : Option String
  lastSyncedAt : Int
  pending_changes : List PendingChange
deriving DecidableEq, Repr

/-- The settings fields consumed by the embedded functions (the remaining
plugin settings are irrelevant to the verified algorithms). -/
structure SyncSettings where
  conflictResolutionWindow : Int
deriving DecidableEq, Repr

/-- `compareTimestamps` from the conflict resolver: milliseconds difference
divided by 1000, compared against the absolute window (seconds).  Within the
window a positive window lets the API win and a non-positive window lets the
local side win; outside the window the newer timestamp wins, the API on
exact equality. -/
def compareTimestamps (localTime apiTime : Int) (window : Int) : Source :=
  let diffSeconds : Rat := ((|localTime - apiTime| : Int) : Rat) / 1000
  let windowSeconds : Rat := |(window : Rat)|
  if diffSeconds ≤ windowSeconds then
    if window > 0 then Source.api else Source.loc
  else
    if localTime > apiTime then Source.loc else Source.api

/-- The JavaScript `reduce((a, b) => a.timestamp > b.timestamp ? a : b)`:
none on the empty list, else the left fold of the pairwise choice over the
tail starting from the head. -/
def latestOf : List PendingChange → Option PendingChange
  | [] => none
  | c :: cs => some (cs.foldl (fun x y => if x.timestamp > y.timestamp then x else y) c)

/-- The decision returned by the conflict resolver: winning origin and its
changeset, verbatim. -/
structure ResolvedChange where
  source : Source
  changes : Changes
deriving DecidableEq, Repr

/-- `resolveConflicts`: no pending changes → none; a single pending change
wins unconditionally; several changes of a single origin → the latest one;
both origins present → each origin's latest is selected and
`compareTimestamps` decides.  (The source binds the two filtered lists to
local constants; they are written inline here.)  The final wildcard arm is
unreachable for a nonempty change list (the source would throw on reducing
an empty array). -/
def resolveConflicts (task : TaskInDB) (settings : SyncSettings) : Option ResolvedChange :=
  if task.pending_changes.length = 0 then
    none
  else if task.pending_changes.length = 1 then
    match task.pending_changes with
    | c :: _ => some ⟨c.source, c.changes⟩
    | [] => none
  else
    if (task.pending_changes.filter (fun c => c.source == Source.api)).length = 0 ∧
        (task.pending_changes.filter (fun c => c.source == Source.loc)).length > 0 then
      match latestOf (task.pending_changes.filter (fun c => c.source == Source.loc)) with
      | some latest => some ⟨Source.loc, latest.changes⟩
      | none => none
    else if (task.pending_changes.filter (fun c => c.source == Source.loc)).length = 0 ∧
        (task.pending_changes.filter (fun c => c.source == Source.api)).length > 0 then
      match latestOf (task.pending_changes.filter (fun c => c.source == Source.api)) with
      | some latest => some ⟨Source.api, latest.changes⟩
      | none => none
    else
      match latestOf (task.pending_changes.filter (fun c => c.source == Source.api)),
          latestOf (task.pending_changes.filter (fun c => c.source == Source.loc)) with
      | some latestApi, some latestLocal =>
        match compareTimestamps latestLocal.timestamp latestApi.timestamp
            settings.conflictResolutionWindow with
        | Source.api => some ⟨Source.api, latestApi.changes⟩
        | Source.loc => some ⟨Source.loc, latestLocal.changes⟩
      | _, _ => none

/-! Fold lemmas for the `reduce` used by the resolver. -/

/-- The reduce result is one of the list's elements. -/
theorem foldl_latest_mem (l : List PendingChange) (a : PendingChange) :
    l.foldl (fun x y => if x.timestamp > y.timestamp then x else y) a ∈ a :: l := by
  induction l generalizing a with
  | nil => simp
  | cons b t ih =>
    have h := ih (if a.timestamp > b.timestamp then a else b)
    simp only [List.foldl_cons]
    rcases List.mem_cons.mp h with h1 | h2
    · rw [h1]
      by_cases hc : a.timestamp > b.timestamp
      · simp [hc]
      · simp [hc]
    · exact List.mem_cons.mpr (Or.inr (List.mem_cons.mpr (Or.inr h2)))

/-- The reduce result's timestamp dominates the seed and every element. -/
theorem foldl_latest_ts (l : List PendingChange) (a : PendingChange) :
    a.timestamp ≤
      (l.foldl (fun x y => if x.timestamp > y.timestamp then x else y) a).timestamp ∧
    ∀ d ∈ l, d.timestamp ≤
      (l.foldl (fun x y => if x.timestamp > y.timestamp then x else y) a).timestamp := by
  induction l generalizing a with
  | nil => simp
  | cons b t ih =>
    have h := ih (if a.timestamp > b.timestamp then a else b)
    have hab : a.timestamp ≤ (if a.timestamp > b.timestamp then a else b).timestamp ∧
        b.timestamp ≤ (if a.timestamp > b.timestamp then a else b).timestamp := by
      by_cases hc : a.timestamp > b.timestamp
      · rw [if_pos hc]
        exact ⟨le_refl _, le_of_lt hc⟩
      · rw [if_neg hc]
        exact ⟨not_lt.mp hc, le_refl _⟩
    simp only [List.foldl_cons]
    refine ⟨le_trans hab.1 h.1, ?_⟩
    intro d hd
    rcases List.mem_cons.mp hd with h1 | h2
    · rw [h1]
      exact le_trans hab.2 h.1
    · exact h.2 d h2

theorem latestOf_mem {l : List PendingChange} {c : PendingChange}
    (h : latestOf l = some c) : c ∈ l := by
  match l with
  | [] => simp [latestOf] at h
  | a :: t =>
    simp only [latestOf, Option.some.injEq] at h
    rw [← h]
    exact foldl_latest_mem t a

theorem latestOf_ts_max {l : List PendingChange} {c : PendingChange}
    (h : latestOf l = some c) : ∀ d ∈ l, d.timestamp ≤ c.timestamp := by
  match l with
  | [] => simp [latestOf] at h
  | a :: t =>
    simp only [latestOf, Option.some.injEq] at h
    rw [← h]
    intro d hd
    rcases List.mem_cons.mp hd with h1 | h2
    · rw [h1]
      exact (foldl_latest_ts t a).1
    · exact (foldl_latest_ts t a).2 d h2

theorem latestOf_isSome_of_ne_nil {l : List PendingChange} (h : l ≠ []) :
    ∃ c, latestOf l = some c := by
  match l with
  | [] => exact absurd rfl h
  | a :: t => exact ⟨_, rfl⟩

theorem mem_filter_source {l : List PendingChange} {c : PendingChange} {s : Source} :
    c ∈ l.filter (fun x => x.source == s) ↔ c ∈ l ∧ c.source = s := by
  rw [List.mem_filter]
  constructor
  · rintro ⟨h1, h2⟩
    exact ⟨h1, by simpa using h2⟩
  · rintro ⟨h1, h2⟩
    exact ⟨h1, by simpa using h2⟩

/-- Core case analysis of the resolver: for a nonempty change list, the
result is the verbatim source/changeset pair of one of the pending
changes. -/
theorem resolveConflicts_exists_pending (task : TaskInDB) (settings : SyncSettings)
    (hne : task.pending_changes ≠ []) :
    ∃ c ∈ task.pending_changes,
      resolveConflicts task settings = some ⟨c.source, c.changes⟩ := by
  match hl : task.pending_changes with
  | [] => exact absurd hl hne
  | [c] =>
    refine ⟨c, by simp [hl], ?_⟩
    rw [resolveConflicts, hl]
    simp
  | a :: b :: t =>
    rw [resolveConflicts, hl]
    rw [if_neg (by simp : ¬((a :: b :: t).length = 0)),
      if_neg (by simp [Nat.succ_ne_zero] : ¬((a :: b :: t).length = 1))]
    by_cases hc1 : ((a :: b :: t).filter (fun c => c.source == Source.api)).length = 0 ∧
        ((a :: b :: t).filter (fun c => c.source == Source.loc)).length > 0
    · rw [if_pos hc1]
      have hne2 : (a :: b :: t).filter (fun c => c.source == Source.loc) ≠ [] := by
        intro hx
        rw [hx] at hc1
        simp at hc1
      obtain ⟨cl, hcl⟩ := latestOf_isSome_of_ne_nil hne2
      rw [hcl]
      have hm := mem_filter_source.mp (latestOf_mem hcl)
      exact ⟨cl, hl ▸ hm.1, by rw [hm.2]⟩
    · rw [if_neg hc1]
      by_cases hc2 : ((a :: b :: t).filter (fun c => c.source == Source.loc)).length = 0 ∧
          ((a :: b :: t).filter (fun c => c.source == Source.api)).length > 0
      · rw [if_pos hc2]
        have hne2 : (a :: b :: t).filter (fun c => c.source == Source.api) ≠ [] := by
          intro hx
          rw [hx] at hc2
          simp at hc2
        obtain ⟨ca, hca⟩ := latestOf_isSome_of_ne_nil hne2
        rw [hca]
        have hm := mem_filter_source.mp (latestOf_mem hca)
        exact ⟨ca, hl ▸ hm.1, by rw [hm.2]⟩
      · rw [if_neg hc2]
        -- both filtered lists are nonempty in the remaining branch
        have hsplit : ∀ d : PendingChange, d.source = Source.api ∨ d.source = Source.loc := by
          intro d
          cases d.source
          · exact Or.inl rfl
          · exact Or.inr rfl
        have hapiNe : (a :: b :: t).filter (fun c => c.source == Source.api) ≠ [] := by
          intro hx
          rcases hsplit a with hs | hs
          · have : a ∈ (a :: b :: t).filter (fun c => c.source == Source.api) :=
              mem_filter_source.mpr ⟨List.mem_cons_self a _, hs⟩
            rw [hx] at this
            simp at this
          · have hmem : a ∈ (a :: b :: t).filter (fun c => c.source == Source.loc) :=
              mem_filter_source.mpr ⟨List.mem_cons_self a _, hs⟩
            apply hc1
            refine ⟨by rw [hx]; rfl, ?_⟩
            exact List.length_pos.mpr (fun hy => by rw [hy] at hmem; simp at hmem)
        have hlocNe : (a :: b :: t).filter (fun c => c.source == Source.loc) ≠ [] := by
          intro hx
          rcases hsplit a with hs | hs
          · have hmem : a ∈ (a :: b :: t).filter (fun c => c.source == Source.api) :=
              mem_filter_source.mpr ⟨List.mem_cons_self a _, hs⟩
            apply hc2
            refine ⟨by rw [hx]; rfl, ?_⟩
            exact List.length_pos.mpr (fun hy => by rw [hy] at hmem; simp at hmem)
          · have : a ∈ (a :: b :: t).filter (fun c => c.source == Source.loc) :=
              mem_filter_source.mpr ⟨List.mem_cons_self a _, hs⟩
            rw [hx] at this
            simp at this
        obtain ⟨ca, hca⟩ := latestOf_isSome_of_ne_nil hapiNe
        obtain ⟨cl, hcl⟩ := latestOf_isSome_of_ne_nil hlocNe
        rw [hca, hcl]
        have hma := mem_filter_source.mp (latestOf_mem hca)
        have hml := mem_filter_source.mp (latestOf_mem hcl)
        cases hcmp : compareTimestamps cl.timestamp ca.timestamp
            settings.conflictResolutionWindow
        · exact ⟨ca, hl ▸ hma.1, by simp [hcmp, hma.2]⟩
        · exact ⟨cl, hl ▸ hml.1, by simp [hcmp, hml.2]⟩

/-- C8: for a record with pending changes, the resolver's result is the
unmodified changeset of one of the record's pending changes (never a
field-by-field merge), and a `deleted` flag inside the winning changeset is
carried verbatim like every other field. -/
theorem C8_resolve_changeset_verbatim (task : TaskInDB) (settings : SyncSettings)
    (hne : task.pending_changes ≠ []) :
    ∃ c ∈ task.pending_changes,
      resolveConflicts task settings = some ⟨c.source, c.changes⟩ ∧
      (resolveConflicts task settings).map (fun r => r.changes.deleted) =
        some c.changes.deleted := by
  obtain ⟨c, hc, hr⟩ := resolveConflicts_exists_pending task settings hne
  exact ⟨c, hc, hr, by rw [hr]; rfl⟩

/-- C8 witness: a record with a local deletion change and a remote edit. -/
theorem C8_resolve_changeset_verbatim_witness :
    ∃ c ∈ [PendingChange.mk Source.loc 2000
          ⟨some true, none, none, none, none, none, none, none, none, none⟩,
        PendingChange.mk Source.api 1000 emptyChanges],
      resolveConflicts
        ⟨"t2", "a.md", "x", false, none, none, none, none, none, [], none, 0,
          [⟨Source.loc, 2000,
            ⟨some true, none, none, none, none, none, none, none, none, none⟩⟩,
           ⟨Source.api, 1000, emptyChanges⟩]⟩ ⟨0⟩ = some ⟨c.source, c.changes⟩ ∧
      (resolveConflicts
        ⟨"t2", "a.md", "x", false, none, none, none, none, none, [], none, 0,
          [⟨Source.loc, 2000,
            ⟨some true, none, none, none, none, none, none, none, none, none⟩⟩,
           ⟨Source.api, 1000, emptyChanges⟩]⟩ ⟨0⟩).map (fun r => r.changes.deleted) =
        some c.changes.deleted :=
  C8_resolve_changeset_verbatim
    ⟨"t2", "a.md", "x", false, none, none, none, none, none, [], none, 0,
      [⟨Source.loc, 2000,
        ⟨some true, none, none, none, none, none, none, none, none, none⟩⟩,
       ⟨Source.api, 1000, emptyChanges⟩]⟩ ⟨0⟩ (by simp)

/-- C7: `resolveConflicts` returns none exactly when the record has zero
pending changes, and a record with exactly one pending change yields that
exact change (same origin, same changeset) for every window value. -/
theorem C7_resolve_zero_one (task : TaskInDB) (settings : SyncSettings) :
    (resolveConflicts task settings = none ↔ task.pending_changes = []) ∧
    (∀ c, task.pending_changes = [c] →
      resolveConflicts task settings = some ⟨c.source, c.changes⟩) := by
  constructor
  · constructor
    · intro h
      by_contra hne
      obtain ⟨c, _, hr⟩ := resolveConflicts_exists_pending task settings hne
      rw [h] at hr
      exact Option.noConfusion hr
    · intro h
      rw [resolveConflicts, h]
      simp
  · intro c h
    rw [resolveConflicts, h]
    simp

/-- The rational window comparison of `compareTimestamps` is equivalent to an
integer comparison, which makes concrete evaluation kernel-friendly. -/
theorem compareTimestamps_eq_int (l a w : Int) :
    compareTimestamps l a w =
      if (l - a).natAbs ≤ 1000 * w.natAbs then
        (if w > 0 then Source.api else Source.loc)
      else if l > a then Source.loc else Source.api := by
  have hcond : (((|l - a| : Int) : Rat) / 1000 ≤ |(w : Rat)|) ↔
      ((l - a).natAbs ≤ 1000 * w.natAbs) := by
    rw [div_le_iff₀ (by norm_num : (0 : Rat) < 1000), ← Int.cast_abs,
      show ((1000 : Rat) = ((1000 : Int) : Rat)) from by norm_num,
      ← Int.cast_mul, Int.cast_le, Int.abs_eq_natAbs, Int.abs_eq_natAbs]
    constructor
    · intro h
      have := Int.ofNat_le.mp (by exact_mod_cast h)
      omega
    · intro h
      exact_mod_cast Int.ofNat_le.mpr (by omega)
  simp only [compareTimestamps]
  by_cases h : ((|l - a| : Int) : Rat) / 1000 ≤ |(w : Rat)|
  · rw [if_pos h, if_pos (hcond.mp h)]
  · rw [if_neg h, if_neg (fun hx => h (hcond.mpr hx))]

/-- C1: with pending changes from both origins, the resolver selects each
origin's latest change by timestamp and decides between the two with
`compareTimestamps`: within the window (millisecond difference over 1000 at
most the absolute window) the API wins for a positive window and the local
side wins otherwise; outside the window the strictly greater raw timestamp
wins, the API on exact equality. -/
theorem C1_resolve_window (task : TaskInDB) (settings : SyncSettings) (la ll : PendingChange)
    (hca : latestOf (task.pending_changes.filter (fun c => c.source == Source.api)) = some la)
    (hcl : latestOf (task.pending_changes.filter (fun c => c.source == Source.loc)) = some ll) :
    la ∈ task.pending_changes ∧ la.source = Source.api ∧
    ll ∈ task.pending_changes ∧ ll.source = Source.loc ∧
    (∀ d ∈ task.pending_changes, d.source = Source.api → d.timestamp ≤ la.timestamp) ∧
    (∀ d ∈ task.pending_changes, d.source = Source.loc → d.timestamp ≤ ll.timestamp) ∧
    resolveConflicts task settings =
      (match compareTimestamps ll.timestamp la.timestamp
          settings.conflictResolutionWindow with
       | Source.api => some ⟨Source.api, la.changes⟩
       | Source.loc => some ⟨Source.loc, ll.changes⟩) ∧
    (((|ll.timestamp - la.timestamp| : Int) : Rat) / 1000 ≤
        |(settings.conflictResolutionWindow : Rat)| →
      compareTimestamps ll.timestamp la.timestamp settings.conflictResolutionWindow =
        if settings.conflictResolutionWindow > 0 then Source.api else Source.loc) ∧
    (¬ (((|ll.timestamp - la.timestamp| : Int) : Rat) / 1000 ≤
        |(settings.conflictResolutionWindow : Rat)|) →
      compareTimestamps ll.timestamp la.timestamp settings.conflictResolutionWindow =
        if ll.timestamp > la.timestamp then Source.loc else Source.api) := by
  have hma := mem_filter_source.mp (latestOf_mem hca)
  have hml := mem_filter_source.mp (latestOf_mem hcl)
  have hnel : la ≠ ll := by
    intro h
    rw [h] at hma
    rw [hma.2] at hml
    exact Source.noConfusion hml.2
  refine ⟨hma.1, hma.2, hml.1, hml.2, ?_, ?_, ?_, ?_, ?_⟩
  · intro d hd hs
    exact latestOf_ts_max hca d (mem_filter_source.mpr ⟨hd, hs⟩)
  · intro d hd hs
    exact latestOf_ts_max hcl d (mem_filter_source.mpr ⟨hd, hs⟩)
  · have hlen0 : ¬ (task.pending_changes.length = 0) := by
      intro h
      rw [List.length_eq_zero] at h
      rw [h] at hma
      simp at hma
    have hlen1 : ¬ (task.pending_changes.length = 1) := by
      intro h
      obtain ⟨c, hc⟩ := List.length_eq_one.mp h
      rw [hc] at hma hml
      have h1 : la = c := by simpa using hma.1
      have h2 : ll = c := by simpa using hml.1
      exact hnel (h1.trans h2.symm)
    have hapiNe : ¬ ((task.pending_changes.filter
        (fun c => c.source == Source.api)).length = 0) := by
      intro h
      rw [List.length_eq_zero] at h
      have := mem_filter_source.mpr ⟨hma.1, hma.2⟩
      rw [h] at this
      simp at this
    have hlocNe : ¬ ((task.pending_changes.filter
        (fun c => c.source == Source.loc)).length = 0) := by
      intro h
      rw [List.length_eq_zero] at h
      have := mem_filter_source.mpr ⟨hml.1, hml.2⟩
      rw [h] at this
      simp at this
    rw [resolveConflicts, if_neg hlen0, if_neg hlen1,
      if_neg (fun h => hapiNe h.1), if_neg (fun h => hlocNe h.1), hca, hcl]
  · intro h
    simp only [compareTimestamps]
    rw [if_pos h]
  · intro h
    simp only [compareTimestamps]
    rw [if_neg h]

/-- C1 witness: local latest 1000000, API latest 1030000, window +60
(difference 30 s inside the window, API wins). -/
theorem C1_resolve_window_witness :
    resolveConflicts
      ⟨"t3", "a.md", "x", false, none, none, none, none, none, [], none, 0,
        [⟨Source.api, 1030000, emptyChanges⟩, ⟨Source.loc, 1000000, emptyChanges⟩]⟩
      ⟨60⟩ = some ⟨Source.api, emptyChanges⟩ :=
  ((C1_resolve_window
    ⟨"t3", "a.md", "x", false, none, none, none, none, none, [], none, 0,
      [⟨Source.api, 1030000, emptyChanges⟩, ⟨Source.loc, 1000000, emptyChanges⟩]⟩
    ⟨60⟩ ⟨Source.api, 1030000, emptyChanges⟩ ⟨Source.loc, 1000000, emptyChanges⟩
    (by decide) (by decide)).2.2.2.2.2.2.1).trans
    (by rw [compareTimestamps_eq_int]; decide)

/-- C7 witness: a record with exactly one pending change returns that change. -/
theorem C7_resolve_zero_one_witness :
    resolveConflicts
      ⟨"t1", "a.md", "x", false, none, none, none, none, none, [], none, 0,
        [⟨Source.loc, 42, emptyChanges⟩]⟩ ⟨60⟩ =
      some ⟨Source.loc, emptyChanges⟩ :=
  (C7_resolve_zero_one
    ⟨"t1", "a.md", "x", false, none, none, none, none, none, [], none, 0,
      [⟨Source.loc, 42, emptyChanges⟩]⟩ ⟨60⟩).2
    ⟨Source.loc, 42, emptyChanges⟩ rfl

/-! ## Remote sync client (`todoistSyncRequest` and the batch helpers)

The HTTP transport is modelled as an environment function from attempt
number to fetch outcome; JSON bodies are modelled by the response fields the
client reads.  The random command `uuid`s are irrelevant to behaviour and
are omitted from the command model. -/

/-- The response fields the sync client reads from a parsed JSON body. -/
structure SyncRespData where
  sync_token : String
  full_sync : Bool
  items : List String
  temp_id_mapping : List (String × String)
  sync_status : List (String × String)
  error : Option String
deriving DecidableEq, Repr

/-- Outcome of one `fetch` call: an HTTP response (status, text body,
parsed JSON fields) or a network error (rejected promise). -/
inductive FetchResult where
  | http (status : Nat) (body : String) (data : SyncRespData)
  | netError (msg : String)
deriving DecidableEq, Repr

/-- The non-429 part of one attempt's body: non-2xx statuses and
application-level `data.error` fields are thrown as errors, otherwise the
parsed data is returned. -/
def requestAttempt : FetchResult → Except String SyncRespData
  | .netError msg => .error msg
  | .http status body data =>
    if ¬ (200 ≤ status ∧ status ≤ 299) then
      .error ("Todoist API error (" ++ toString status ++ "): " ++ body)
    else
      match data.error with
      | some e => .error ("Todoist API error: " ++ e)
      | none => .ok data

/-- Rate-limit detection: HTTP status 429. -/
def is429 : FetchResult → Bool
  | .http 429 _ _ => true
  | _ => false

/-- The retry loop of `todoistSyncRequest`.  `fuel` counts the remaining
loop iterations (the source's `for` loop runs while `attempt < maxRetries`,
so fuel starts at `maxRetries` and equals `maxRetries - attempt`
throughout); the second component collects the backoff delays slept.  A 429
on a non-final attempt and any thrown error caught on a non-final attempt
both sleep `retryDelay` and continue with the delay doubled and capped at
60000 ms; on the final attempt a 429 yields the rate-limit error and any
other error propagates. -/
def todoistSyncRequestGo (responses : Nat → FetchResult) (maxRetries : Nat) :
    Nat → Nat → Nat → Except String SyncRespData × List Nat
  | 0, _, _ => (.error "Unexpected error in todoistSyncRequest", [])
  | fuel + 1, attempt, retryDelay =>
    if is429 (responses attempt) then
      if attempt < maxRetries - 1 then
        let sub := todoistSyncRequestGo responses maxRetries fuel (attempt + 1)
          (min (retryDelay * 2) 60000)
        (sub.1, retryDelay :: sub.2)
      else
        (.error "Rate limit exceeded, max retries reached", [])
    else
      match requestAttempt (responses attempt) with
      | .ok d => (.ok d, [])
      | .error msg =>
        if attempt < maxRetries - 1 then
          let sub := todoistSyncRequestGo responses maxRetries fuel (attempt + 1)
            (min (retryDelay * 2) 60000)
          (sub.1, retryDelay :: sub.2)
        else
          (.error msg, [])

/-- `todoistSyncRequest`: `maxRetries = 3`, initial `retryDelay = 5000` ms. -/
def todoistSyncRequest (responses : Nat → FetchResult) :
    Except String SyncRespData × List Nat :=
  todoistSyncRequestGo responses 3 3 0 5000

/-- Outcome of a single attempt as the amended claim describes it (a 429
counts as a failed attempt carrying the rate-limit message). -/
def attemptOutcome (r : FetchResult) : Except String SyncRespData :=
  if is429 r then .error "Rate limit exceeded, max retries reached"
  else requestAttempt r

/-- Modelled from the amended claim's words: every failed attempt — 429,
other HTTP errors, application-level errors and network errors alike — is
retried with backoff delays 5000 ms then 10000 ms (doubling, capped at
60000 ms), at most three attempts in total; the result is the first
successful attempt's data, or the third attempt's error. -/
def retrySpec (responses : Nat → FetchResult) :
    Except String SyncRespData × List Nat :=
  match attemptOutcome (responses 0) with
  | .ok d => (.ok d, [])
  | .error _ =>
    match attemptOutcome (responses 1) with
    | .ok d => (.ok d, [5000])
    | .error _ => (attemptOutcome (responses 2), [5000, 10000])

/-- C4 counterexample: an HTTP 500 on the first attempt is retried (one
5000 ms backoff) and the request then succeeds, so a non-429 error does not
make the batch fail immediately without retry. -/
theorem C4_counterexample_non429_retried :
    todoistSyncRequest
        (fun i => if i = 0 then FetchResult.http 500 "boom" ⟨"", false, [], [], [], none⟩
          else FetchResult.http 200 "" ⟨"tok", false, [], [], [], none⟩) =
      (Except.ok ⟨"tok", false, [], [], [], none⟩, [5000]) ∧
    (todoistSyncRequest
        (fun i => if i = 0 then FetchResult.http 500 "boom" ⟨"", false, [], [], [], none⟩
          else FetchResult.http 200 "" ⟨"tok", false, [], [], [], none⟩)).2 ≠ [] := by
  constructor
  · rfl
  · intro h
    simp [todoistSyncRequest, todoistSyncRequestGo, is429, requestAttempt] at h

/-- C4 (amended): the request helper retries every failed attempt — 429s,
other HTTP errors, application-level errors and network errors alike — with
exponential backoff 5000 ms then 10000 ms (doubling capped at 60000 ms) and
at most three attempts; only after the third failed attempt does the batch
fail, with the third attempt's error. -/
theorem C4_retry_behaviour (responses : Nat → FetchResult) :
    todoistSyncRequest responses = retrySpec responses := by
  rw [todoistSyncRequest, retrySpec]
  simp only [todoistSyncRequestGo]
  by_cases h0 : is429 (responses 0) = true
  · simp only [h0, if_true, attemptOutcome, if_pos h0]
    norm_num
    by_cases h1 : is429 (responses 1) = true
    · simp only [h1, if_true, if_pos h1]
      norm_num
      by_cases h2 : is429 (responses 2) = true
      · simp [h2]
      · simp only [Bool.not_eq_true] at h2
        simp only [h2, Bool.false_eq_true, if_false]
        cases hA2 : requestAttempt (responses 2) <;> simp [hA2]
    · simp only [Bool.not_eq_true] at h1
      simp only [h1, Bool.false_eq_true, if_false]
      cases hA1 : requestAttempt (responses 1) with
      | error m1 =>
        simp only [hA1]
        norm_num
        by_cases h2 : is429 (responses 2) = true
        · simp [h2]
        · simp only [Bool.not_eq_true] at h2
          simp only [h2, Bool.false_eq_true, if_false]
          cases hA2 : requestAttempt (responses 2) <;> simp [hA2]
      | ok d1 => simp [hA1]
  · simp only [Bool.not_eq_true] at h0
    simp only [attemptOutcome, h0, Bool.false_eq_true, if_false]
    cases hA0 : requestAttempt (responses 0) with
    | error m0 =>
      simp only [hA0]
      norm_num
      by_cases h1 : is429 (responses 1) = true
      · simp only [h1, if_true, if_pos h1]
        norm_num
        by_cases h2 : is429 (responses 2) = true
        · simp [h2]
        · simp only [Bool.not_eq_true] at h2
          simp only [h2, Bool.false_eq_true, if_false]
          cases hA2 : requestAttempt (responses 2) <;> simp [hA2]
      · simp only [Bool.not_eq_true] at h1
        simp only [h1, Bool.false_eq_true, if_false]
        cases hA1 : requestAttempt (responses 1) with
        | error m1 =>
          simp only [hA1]
          norm_num
          by_cases h2 : is429 (responses 2) = true
          · simp [h2]
          · simp only [Bool.not_eq_true] at h2
            simp only [h2, Bool.false_eq_true, if_false]
            cases hA2 : requestAttempt (responses 2) <;> simp [hA2]
        | ok d1 => simp [hA1]
    | ok d0 => simp [hA0]

/-- Todoist `duration` argument. -/
structure DurationArg where
  amount : Nat
  unit : String
deriving DecidableEq, Repr

/-- Todoist `due` argument: a date or a datetime. -/
structure DueArg where
  date : Option String
  datetime : Option String
deriving DecidableEq, Repr

/-- The argument object of one batched command. -/
structure CommandArgs where
  id : Option String
  content : Option String
  is_completed : Option Bool
  labels : Option (List String)
  project_id : Option String
  due : Option DueArg
  priority : Option Nat
  duration : Option DurationArg
deriving DecidableEq, Repr

/-- One batched sync command (the random `uuid` is omitted). -/
structure ApiCommand where
  type : String
  temp_id : Option String
  args : CommandArgs
deriving DecidableEq, Repr

/-- One task passed to `syncBatchCreate`. -/
structure CreateTaskReq where
  temp_id : String
  content : String
  labels : List String
  project_id : Option String
  due_date : Option String
  due_datetime : Option String
  priority : Option Nat
  duration : Option Nat
deriving DecidableEq, Repr

/-- One update passed to `syncBatchUpdate`. -/
structure UpdateTaskReq where
  id : String
  content : Option String
  is_completed : Option Bool
  labels : Option (List String)
  due_date : Option String
  due_datetime : Option String
  priority : Option Nat
  duration : Option Nat
deriving DecidableEq, Repr

/-- JavaScript truthiness of an optional string: present and nonempty. -/
def truthyStr : Option String → Bool
  | some s => s ≠ ""
  | none => false

/-- JavaScript truthiness of an optional number: present and nonzero. -/
def truthyNat : Option Nat → Bool
  | some n => n ≠ 0
  | none => false

/-- The `item_add` command built for one created task (truthiness guards as
in the source: `project_id`, due fields, `priority` and `duration` are only
attached when truthy; `due_datetime` takes precedence over `due_date`). -/
def buildCreateCommand (t : CreateTaskReq) : ApiCommand :=
  { type := "item_add"
    temp_id := some t.temp_id
    args :=
      { id := none
        content := some t.content
        is_completed := none
        labels := some t.labels
        project_id := if truthyStr t.project_id then t.project_id else none
        due :=
          if truthyStr t.due_datetime then some ⟨none, t.due_datetime⟩
          else if truthyStr t.due_date then some ⟨t.due_date, none⟩
          else none
        priority := if truthyNat t.priority then t.priority else none
        duration :=
          match t.duration with
          | some n => if n ≠ 0 then some ⟨n, "minute"⟩ else none
          | none => none } }

/-- The `item_update` command built for one update (defined fields are
attached; due fields keep the truthiness guards of the source). -/
def buildUpdateCommand (u : UpdateTaskReq) : ApiCommand :=
  { type := "item_update"
    temp_id := none
    args :=
      { id := some u.id
        content := u.content
        is_completed := u.is_completed
        labels := u.labels
        project_id := none
        due :=
          if truthyStr u.due_datetime then some ⟨none, u.due_datetime⟩
          else if truthyStr u.due_date then some ⟨u.due_date, none⟩
          else none
        priority := u.priority
        duration :=
          match u.duration with
          | some n => some ⟨n, "minute"⟩
          | none => none } }

/-- `syncBatchCreate`: an empty batch throws, an over-100 batch throws,
otherwise the command list is posted and the response's token, temp-id
mapping and status are returned.  The transport environment may observe the
posted commands. -/
def syncBatchCreate (tasks : List CreateTaskReq)
    (responses : List ApiCommand → Nat → FetchResult) :
    Except String (String × List (String × String) × List (String × String)) :=
  if tasks.length = 0 then .error "No tasks to create"
  else if tasks.length > 100 then
    .error "Cannot create more than 100 tasks in single batch"
  else
    match (todoistSyncRequest (responses (tasks.map buildCreateCommand))).1 with
    | .error e => .error e
    | .ok data => .ok (data.sync_token, data.temp_id_mapping, data.sync_status)

/-- `syncBatchUpdate`: empty/oversized batches throw; otherwise returns the
response as a `(sync_token, full_sync, items)` triple with `full_sync`
false. -/
def syncBatchUpdate (updates : List UpdateTaskReq)
    (responses : List ApiCommand → Nat → FetchResult) :
    Except String (String × Bool × List String) :=
  if updates.length = 0 then .error "No tasks to update"
  else if updates.length > 100 then
    .error "Cannot update more than 100 tasks in single batch"
  else
    match (todoistSyncRequest (responses (updates.map buildUpdateCommand))).1 with
    | .error e => .error e
    | .ok data => .ok (data.sync_token, false, data.items)

/-- `syncBatchDelete`: empty/oversized batches throw; otherwise posts one
`item_delete` command per id and returns the new token with empty items. -/
def syncBatchDelete (taskIds : List String)
    (responses : List ApiCommand → Nat → FetchResult) :
    Except String (String × Bool × List String) :=
  if taskIds.length = 0 then .error "No tasks to delete"
  else if taskIds.length > 100 then
    .error "Cannot delete more than 100 tasks in single batch"
  else
    match (todoistSyncRequest (responses (taskIds.map (fun id =>
        ⟨"item_delete", none,
          ⟨some id, none, none, none, none, none, none, none⟩⟩)))).1 with
    | .error e => .error e
    | .ok data => .ok (data.sync_token, false, [])

/-- C10: each batch helper throws on an empty list — for every transport
environment the call returns the corresponding error instead of performing a
no-op request, so callers must guard batch calls with a non-empty check. -/
theorem C10_empty_batches_throw :
    (∀ responses, syncBatchCreate [] responses = .error "No tasks to create") ∧
    (∀ responses, syncBatchUpdate [] responses = .error "No tasks to update") ∧
    (∀ responses, syncBatchDelete [] responses = .error "No tasks to delete") :=
  ⟨fun _ => rfl, fun _ => rfl, fun _ => rfl⟩

/-! ## Task-line codec

The parsing functions are embedded over `List Char`; each regular
expression of the source is translated into the deterministic matcher it
denotes (the patterns involved have no observable backtracking: every
starred class is disjoint from the literal that follows it).  Replacement
with a `$`-anchored pattern removes the longest matching suffix (the
leftmost match); global replacement scans left to right resuming after each
match, exactly as the JavaScript engine does. -/

/-- JavaScript `\s`: whitespace including the Unicode space separators. -/
def isWsChar (c : Char) : Bool :=
  c = ' ' || c = '\t' || c = '\n' || c = '\r' || c = Char.ofNat 0x0b ||
  c = Char.ofNat 0x0c || c = Char.ofNat 0xa0 || c = Char.ofNat 0x1680 ||
  (0x2000 ≤ c.toNat && c.toNat ≤ 0x200a) || c = Char.ofNat 0x2028 ||
  c = Char.ofNat 0x2029 || c = Char.ofNat 0x202f || c = Char.ofNat 0x205f ||
  c = Char.ofNat 0x3000 || c = Char.ofNat 0xfeff

/-- JavaScript `\d`. -/
def isDigitChar (c : Char) : Bool := '0' ≤ c && c ≤ '9'

/-- JavaScript `\w`. -/
def isWordChar (c : Char) : Bool :=
  ('a' ≤ c && c ≤ 'z') || ('A' ≤ c && c ≤ 'Z') || isDigitChar c || c = '_'

/-- The label class `[\w-]`. -/
def isLabelChar (c : Char) : Bool := isWordChar c || c = '-'

/-- The id class `[A-Za-z0-9]`. -/
def isAlnumChar (c : Char) : Bool :=
  ('a' ≤ c && c ≤ 'z') || ('A' ≤ c && c ≤ 'Z') || isDigitChar c

/-- U+1F5D3, the first code point of the spiral-calendar emoji. -/
def calChar : Char := Char.ofNat 0x1F5D3

/-- U+FE0F, the variation selector completing the spiral-calendar emoji. -/
def vs16Char : Char := Char.ofNat 0xFE0F

/-- U+1F4C5, the plain calendar emoji. -/
def cal2Char : Char := Char.ofNat 0x1F4C5

/-- U+23F0, the alarm-clock emoji marking due times. -/
def clockChar : Char := Char.ofNat 0x23F0

/-- U+23F3, the hourglass emoji marking durations. -/
def hourglassChar : Char := Char.ofNat 0x23F3

/-- U+23EB, the high-priority emoji. -/
def upChar : Char := Char.ofNat 0x23EB

/-- U+23EC, the emoji stripped alongside the priority emojis. -/
def downChar : Char := Char.ofNat 0x23EC

/-- U+1F53C, the medium-priority emoji. -/
def medUpChar : Char := Char.ofNat 0x1F53C

/-- U+1F53D, the low-priority emoji. -/
def medDownChar : Char := Char.ofNat 0x1F53D

/-- Expect a literal character sequence; return the rest on success. -/
def dropLit : List Char → List Char → Option (List Char)
  | [], cs => some cs
  | l :: ls, c :: cs => if c = l then dropLit ls cs else none
  | _ :: _, [] => none

/-- Literal helper. -/
def litOf (s : String) : List Char := s.data

/-- Take exactly `n` digits. -/
def digitsN : Nat → List Char → Option (List Char × List Char)
  | 0, cs => some ([], cs)
  | n + 1, c :: cs =>
    if isDigitChar c then
      match digitsN n cs with
      | some (ds, rest) => some (c :: ds, rest)
      | none => none
    else none
  | _ + 1, [] => none

/-- Decimal value of a digit run (`parseInt(-, 10)` on a matched group). -/
def digitsVal (ds : List Char) : Nat :=
  ds.foldl (fun a c => a * 10 + (c.toNat - '0'.toNat)) 0

/-- The common prefix `^\s*-\s+\[([x ])\]` of the task-line patterns:
returns the checkbox character and the remainder after the bracket. -/
def matchCheckboxPrefix (cs : List Char) : Option (Char × List Char) :=
  let t := cs.dropWhile isWsChar
  match t with
  | '-' :: t1 =>
    let t2 := t1.dropWhile isWsChar
    if t2.length = t1.length then none
    else
      match t2 with
      | '[' :: c :: ']' :: rest =>
        if c = 'x' ∨ c = ' ' then some (c, rest) else none
      | _ => none
  | _ => none

/-- `isMarkdownTask`: `/^\s*-\s+\[([x ])\]/` (case-sensitive). -/
def isMarkdownTask (cs : List Char) : Bool := (matchCheckboxPrefix cs).isSome

/-- `isTaskCompleted`: `/^\s*-\s+\[x\]/i`. -/
def isTaskCompleted (cs : List Char) : Bool :=
  match cs.dropWhile isWsChar with
  | '-' :: t1 =>
    let t2 := t1.dropWhile isWsChar
    if t2.length = t1.length then false
    else
      match t2 with
      | '[' :: c :: ']' :: _ => c = 'x' ∨ c = 'X'
      | _ => false
  | _ => false

/-- One-position matcher of `/%%\[tid:: \[([A-Za-z0-9]+)\]/`. -/
def extractTIDAt (cs : List Char) : Option (List Char) :=
  match dropLit (litOf "%%[tid:: [") cs with
  | none => none
  | some rest =>
    let run := rest.takeWhile isAlnumChar
    if run.isEmpty then none
    else
      match rest.drop run.length with
      | ']' :: _ => some run
      | _ => none

/-- First match of a position matcher over the string, scanning left to
right (the JavaScript unanchored-`match` semantics). -/
def firstSome (f : List Char → Option α) : List Char → Option α
  | [] => f []
  | c :: cs =>
    match f (c :: cs) with
    | some r => some r
    | none => firstSome f cs

/-- `extractTID`. -/
def extractTID (cs : List Char) : Option (List Char) := firstSome extractTIDAt cs

/-- The due-date emoji alternation `(?:🗓️|📅)`. -/
def dropDateEmoji : List Char → Option (List Char)
  | c1 :: c2 :: rest =>
    if c1 = calChar ∧ c2 = vs16Char then some rest
    else if c1 = cal2Char then some (c2 :: rest) else none
  | c1 :: rest => if c1 = cal2Char then some rest else none
  | [] => none

/-- One-position matcher of `/(?:🗓️|📅)\s*(\d{4}-\d{2}-\d{2})/`. -/
def dueDateAt (cs : List Char) : Option (List Char) :=
  match dropDateEmoji cs with
  | none => none
  | some r =>
    let r2 := r.dropWhile isWsChar
    match digitsN 4 r2 with
    | none => none
    | some (d4, r3) =>
      match r3 with
      | '-' :: r4 =>
        match digitsN 2 r4 with
        | none => none
        | some (d2a, r5) =>
          match r5 with
          | '-' :: r6 =>
            match digitsN 2 r6 with
            | none => none
            | some (d2b, _) => some (d4 ++ '-' :: d2a ++ '-' :: d2b)
          | _ => none
      | _ => none

/-- `parseDueDate`. -/
def parseDueDate (cs : List Char) : Option (List Char) := firstSome dueDateAt cs

/-- One-position matcher of `/⏰\s*(\d{1,2}:\d{2})/` (the two-digit hour is
tried first, as the greedy `{1,2}` does). -/
def dueTimeAt (cs : List Char) : Option (List Char) :=
  match cs with
  | c :: rest =>
    if c = clockChar then
      let r := rest.dropWhile isWsChar
      match r with
      | a :: b :: rest2 =>
        if isDigitChar a ∧ isDigitChar b then
          match rest2 with
          | ':' :: d1 :: d2 :: _ =>
            if isDigitChar d1 ∧ isDigitChar d2 then some [a, b, ':', d1, d2]
            else none
          | _ => none
        else if isDigitChar a ∧ b = ':' then
          match rest2 with
          | d1 :: d2 :: _ =>
            if isDigitChar d1 ∧ isDigitChar d2 then some [a, ':', d1, d2]
            else none
          | _ => none
        else none
      | _ => none
    else none
  | [] => none

/-- `parseDueTime`. -/
def parseDueTime (cs : List Char) : Option (List Char) := firstSome dueTimeAt cs

/-- `parseDueDatetime`: combine date and time into `date T time :00`. -/
def parseDueDatetime (cs : List Char) : Option (List Char) :=
  match parseDueDate cs, parseDueTime cs with
  | some d, some t => some (d ++ 'T' :: t ++ litOf ":00")
  | _, _ => none

/-- One-position matcher of `/!![1-4]/`. -/
def prioExplAt (cs : List Char) : Option Nat :=
  match cs with
  | c1 :: c2 :: c :: _ =>
    if c1 = '!' ∧ c2 = '!' ∧ '1' ≤ c ∧ c ≤ '4' then some (c.toNat - '0'.toNat)
    else none
  | _ => none

/-- `parsePriority`: the explicit `!!N` form first, then the emoji
shortcuts via `includes` (the source maps ⏫ to 2, 🔼 to 3, 🔽 to 4). -/
def parsePriority (cs : List Char) : Option Nat :=
  match firstSome prioExplAt cs with
  | some p => some p
  | none =>
    if cs.contains upChar then some 2
    else if cs.contains medUpChar then some 3
    else if cs.contains medDownChar then some 4
    else none

/-- One-position matcher of `/⏳\s*(\d+)h\s*(\d+)m/`. -/
def durCombinedAt (cs : List Char) : Option Nat :=
  match cs with
  | c :: rest =>
    if c = hourglassChar then
      let r := rest.dropWhile isWsChar
      let hs := r.takeWhile isDigitChar
      if hs.isEmpty then none
      else
        match r.drop hs.length with
        | 'h' :: r2 =>
          let r3 := r2.dropWhile isWsChar
          let ms := r3.takeWhile isDigitChar
          if ms.isEmpty then none
          else
            match r3.drop ms.length with
            | 'm' :: _ => some (digitsVal hs * 60 + digitsVal ms)
            | _ => none
        | _ => none
    else none
  | [] => none

/-- One-position matcher of `/⏳\s*(\d+)h\b/`. -/
def durHoursAt (cs : List Char) : Option Nat :=
  match cs with
  | c :: rest =>
    if c = hourglassChar then
      let r := rest.dropWhile isWsChar
      let hs := r.takeWhile isDigitChar
      if hs.isEmpty then none
      else
        match r.drop hs.length with
        | 'h' :: r2 =>
          match r2 with
          | [] => some (digitsVal hs * 60)
          | c2 :: _ => if isWordChar c2 then none else some (digitsVal hs * 60)
        | _ => none
    else none
  | [] => none

/-- Word-boundary check after a match ending in a word character. -/
def boundaryAfter : List Char → Bool
  | [] => true
  | c :: _ => ¬ isWordChar c

/-- One-position matcher of `/⏳\s*(\d+)(?:min|m)\b/` (`min` tried before
`m`, as the alternation order dictates). -/
def durMinutesAt (cs : List Char) : Option Nat :=
  match cs with
  | c :: rest =>
    if c = hourglassChar then
      let r := rest.dropWhile isWsChar
      let ds := r.takeWhile isDigitChar
      if ds.isEmpty then none
      else
        let r2 := r.drop ds.length
        match dropLit (litOf "min") r2 with
        | some r3 => if boundaryAfter r3 then some (digitsVal ds) else none
        | none =>
          match r2 with
          | 'm' :: r3 => if boundaryAfter r3 then some (digitsVal ds) else none
          | _ => none
    else none
  | [] => none

/-- `parseDuration`: combined `XhYm` first, then hours, then minutes. -/
def parseDuration (cs : List Char) : Option Nat :=
  match firstSome durCombinedAt cs with
  | some n => some n
  | none =>
    match firstSome durHoursAt cs with
    | some n => some n
    | none => firstSome durMinutesAt cs

/-- `parseLabels` worker; the fuel dominates the string length, so the
zero-fuel arm is never taken from the entry point. -/
def parseLabelsGo : Nat → List Char → List (List Char)
  | 0, _ => []
  | _ + 1, [] => []
  | fuel + 1, c :: cs =>
    if c = '#' then
      let run := cs.takeWhile isLabelChar
      if run.isEmpty then parseLabelsGo fuel cs
      else run :: parseLabelsGo fuel (cs.drop run.length)
    else parseLabelsGo fuel cs

/-- `parseLabels`: every global match of `/#([\w-]+)/g`, in order. -/
def parseLabels (cs : List Char) : List (List Char) := parseLabelsGo cs.length cs

theorem parseLabelsGo_irrel : ∀ (n : Nat) (cs : List Char) (f1 f2 : Nat),
    cs.length ≤ n → cs.length ≤ f1 → cs.length ≤ f2 →
    parseLabelsGo f1 cs = parseLabelsGo f2 cs := by
  intro n
  induction n with
  | zero =>
    intro cs f1 f2 h _ _
    match cs with
    | [] => cases f1 <;> cases f2 <;> rfl
    | c :: cs => simp at h
  | succ n ih =>
    intro cs f1 f2 h h1 h2
    match cs with
    | [] => cases f1 <;> cases f2 <;> rfl
    | c :: cs =>
      simp only [List.length_cons] at h h1 h2
      match f1, f2 with
      | g1 + 1, g2 + 1 =>
        simp only [parseLabelsGo]
        by_cases hc : c = '#'
        · simp only [if_pos hc]
          by_cases hr : (cs.takeWhile isLabelChar).isEmpty
          · rw [if_pos hr, if_pos hr, ih cs g1 g2 (by omega) (by omega) (by omega)]
          · rw [if_neg hr, if_neg hr,
              ih (cs.drop (cs.takeWhile isLabelChar).length) g1 g2
                (by simp; omega) (by simp; omega) (by simp; omega)]
        · rw [if_neg hc, if_neg hc, ih cs g1 g2 (by omega) (by omega) (by omega)]

/-- The recurrence of `parseLabels` as written in the source. -/
theorem parseLabels_cons (c : Char) (cs : List Char) :
    parseLabels (c :: cs) =
      if c = '#' then
        if (cs.takeWhile isLabelChar).isEmpty then parseLabels cs
        else cs.takeWhile isLabelChar :: parseLabels (cs.drop (cs.takeWhile isLabelChar).length)
      else parseLabels cs := by
  show parseLabelsGo (cs.length + 1) (c :: cs) = _
  simp only [parseLabelsGo]
  by_cases hc : c = '#'
  · simp only [if_pos hc]
    by_cases hr : (cs.takeWhile isLabelChar).isEmpty
    · rw [if_pos hr, if_pos hr]
      rfl
    · rw [if_neg hr, if_neg hr,
        parseLabelsGo_irrel (cs.drop (cs.takeWhile isLabelChar).length).length
          (cs.drop (cs.takeWhile isLabelChar).length) cs.length
          (cs.drop (cs.takeWhile isLabelChar).length).length (le_refl _)
          (by simp only [List.length_drop]; omega) (le_refl _)]
      rfl
  · rw [if_neg hc, if_neg hc]
    rfl

/-- Remove the leftmost (= longest) suffix accepted by the end-anchored
matcher `m`; the string is unchanged when no suffix matches. -/
def dropFirstMatchingSuffix (m : List Char → Bool) : List Char → List Char
  | [] => []
  | c :: cs => if m (c :: cs) then [] else c :: dropFirstMatchingSuffix m cs

/-- End-anchored matcher of `/\s*%%\[tid::[^\]]*\][^\]]*\]%%\s*$/`. -/
def mTid (cs : List Char) : Bool :=
  match dropLit (litOf "%%[tid::") (cs.dropWhile isWsChar) with
  | none => false
  | some r1 =>
    match r1.dropWhile (fun c => ¬ c = ']') with
    | ']' :: r3 =>
      match r3.dropWhile (fun c => ¬ c = ']') with
      | ']' :: '%' :: '%' :: r5 => (r5.dropWhile isWsChar).isEmpty
      | _ => false
    | _ => false

/-- End-anchored matcher of `/\s*#tdsync\s*$/`. -/
def mTdsync (cs : List Char) : Bool :=
  match dropLit (litOf "#tdsync") (cs.dropWhile isWsChar) with
  | some r => (r.dropWhile isWsChar).isEmpty
  | none => false

/-- End-anchored matcher of `/\s*⏳\s*\d+(?:min|h|m)\s*$/`. -/
def mDur1 (cs : List Char) : Bool :=
  match cs.dropWhile isWsChar with
  | c :: r1 =>
    if c = hourglassChar then
      let r2 := r1.dropWhile isWsChar
      let ds := r2.takeWhile isDigitChar
      if ds.isEmpty then false
      else
        let r3 := r2.drop ds.length
        (match dropLit (litOf "min") r3 with
         | some r4 => (r4.dropWhile isWsChar).isEmpty
         | none => false) ||
        (match r3 with
         | 'h' :: r4 => (r4.dropWhile isWsChar).isEmpty
         | _ => false) ||
        (match r3 with
         | 'm' :: r4 => (r4.dropWhile isWsChar).isEmpty
         | _ => false)
    else false
  | [] => false

/-- End-anchored matcher of `/\s*⏳\s*\d+h\d+m\s*$/`. -/
def mDur2 (cs : List Char) : Bool :=
  match cs.dropWhile isWsChar with
  | c :: r1 =>
    if c = hourglassChar then
      let r2 := r1.dropWhile isWsChar
      let hs := r2.takeWhile isDigitChar
      if hs.isEmpty then false
      else
        match r2.drop hs.length with
        | 'h' :: r3 =>
          let ms := r3.takeWhile isDigitChar
          if ms.isEmpty then false
          else
            match r3.drop ms.length with
            | 'm' :: r4 => (r4.dropWhile isWsChar).isEmpty
            | _ => false
        | _ => false
    else false
  | [] => false

/-- End-anchored matcher of `/\s*⏰\s*\d{1,2}:\d{2}\s*$/`. -/
def mTime (cs : List Char) : Bool :=
  match cs.dropWhile isWsChar with
  | c :: r1 =>
    if c = clockChar then
      let r := r1.dropWhile isWsChar
      match r with
      | a :: b :: rest2 =>
        if isDigitChar a ∧ isDigitChar b then
          match rest2 with
          | ':' :: d1 :: d2 :: r5 =>
            if isDigitChar d1 ∧ isDigitChar d2 then (r5.dropWhile isWsChar).isEmpty
            else false
          | _ => false
        else if isDigitChar a ∧ b = ':' then
          match rest2 with
          | d1 :: d2 :: r5 =>
            if isDigitChar d1 ∧ isDigitChar d2 then (r5.dropWhile isWsChar).isEmpty
            else false
          | _ => false
        else false
      | _ => false
    else false
  | [] => false

/-- End-anchored matcher of
`/\s*(?:🗓️|📅)\s*\d{4}-\d{2}-\d{2}(?:T\d{2}:\d{2}:\d{2})?\s*$/`. -/
def mDate (cs : List Char) : Bool :=
  match dropDateEmoji (cs.dropWhile isWsChar) with
  | none => false
  | some r =>
    let r2 := r.dropWhile isWsChar
    match digitsN 4 r2 with
    | none => false
    | some (_, r3) =>
      match r3 with
      | '-' :: r4 =>
        match digitsN 2 r4 with
        | none => false
        | some (_, r5) =>
          match r5 with
          | '-' :: r6 =>
            match digitsN 2 r6 with
            | none => false
            | some (_, r7) =>
              (match r7 with
               | 'T' :: r8 =>
                 match digitsN 2 r8 with
                 | some (_, ':' :: r9) =>
                   match digitsN 2 r9 with
                   | some (_, ':' :: r10) =>
                     match digitsN 2 r10 with
                     | some (_, r11) => (r11.dropWhile isWsChar).isEmpty
                     | none => false
                   | _ => false
                 | _ => false
               | _ => false) ||
              (r7.dropWhile isWsChar).isEmpty
          | _ => false
      | _ => false

/-- End-anchored matcher of `/\s*!![1-4]\s*$/`. -/
def mPrioExpl (cs : List Char) : Bool :=
  match cs.dropWhile isWsChar with
  | c1 :: c2 :: c :: r =>
    if c1 = '!' ∧ c2 = '!' ∧ '1' ≤ c ∧ c ≤ '4' then (r.dropWhile isWsChar).isEmpty
    else false
  | _ => false

/-- End-anchored matcher of `/\s*(?:⏫|⏬|🔼|🔽)\s*$/`. -/
def mPrioEmoji (cs : List Char) : Bool :=
  match cs.dropWhile isWsChar with
  | c :: r =>
    if c = upChar ∨ c = downChar ∨ c = medUpChar ∨ c = medDownChar then
      (r.dropWhile isWsChar).isEmpty
    else false
  | [] => false

/-- Length of a match of `/\s*#[\w-]+/` at this position, if any. -/
def hashMatchLen (cs : List Char) : Option Nat :=
  let w := cs.takeWhile isWsChar
  match cs.drop w.length with
  | c :: r =>
    if c = '#' then
      let run := r.takeWhile isLabelChar
      if run.isEmpty then none else some (w.length + 1 + run.length)
    else none
  | [] => none

theorem hashMatchLen_pos {cs : List Char} {k : Nat} (h : hashMatchLen cs = some k) :
    1 ≤ k := by
  simp only [hashMatchLen] at h
  split at h
  · split at h
    · split at h
      · exact Option.noConfusion h
      · have := Option.some.inj h
        omega
    · exact Option.noConfusion h
  · exact Option.noConfusion h

/-- `stripHashtags` worker; fuel dominates the string length. -/
def stripHashtagsGo : Nat → List Char → List Char
  | 0, cs => cs
  | _ + 1, [] => []
  | fuel + 1, c :: cs =>
    match hashMatchLen (c :: cs) with
    | some k => stripHashtagsGo fuel ((c :: cs).drop k)
    | none => c :: stripHashtagsGo fuel cs

/-- Global replacement of `/\s*#[\w-]+/g` by the empty string: scan left to
right, resuming after each removed match. -/
def stripHashtags (cs : List Char) : List Char := stripHashtagsGo cs.length cs

theorem stripHashtagsGo_irrel : ∀ (n : Nat) (cs : List Char) (f1 f2 : Nat),
    cs.length ≤ n → cs.length ≤ f1 → cs.length ≤ f2 →
    stripHashtagsGo f1 cs = stripHashtagsGo f2 cs := by
  intro n
  induction n with
  | zero =>
    intro cs f1 f2 h _ _
    match cs with
    | [] => cases f1 <;> cases f2 <;> rfl
    | c :: cs => simp at h
  | succ n ih =>
    intro cs f1 f2 h h1 h2
    match cs with
    | [] => cases f1 <;> cases f2 <;> rfl
    | c :: cs =>
      simp only [List.length_cons] at h h1 h2
      match f1, f2 with
      | g1 + 1, g2 + 1 =>
        show (match hashMatchLen (c :: cs) with
          | some k => stripHashtagsGo g1 ((c :: cs).drop k)
          | none => c :: stripHashtagsGo g1 cs) =
          (match hashMatchLen (c :: cs) with
          | some k => stripHashtagsGo g2 ((c :: cs).drop k)
          | none => c :: stripHashtagsGo g2 cs)
        cases hm : hashMatchLen (c :: cs) with
        | some k =>
          have hk := hashMatchLen_pos hm
          show stripHashtagsGo g1 ((c :: cs).drop k) =
            stripHashtagsGo g2 ((c :: cs).drop k)
          exact ih ((c :: cs).drop k) g1 g2
            (by simp only [List.length_drop, List.length_cons]; omega)
            (by simp only [List.length_drop, List.length_cons]; omega)
            (by simp only [List.length_drop, List.length_cons]; omega)
        | none =>
          show c :: stripHashtagsGo g1 cs = c :: stripHashtagsGo g2 cs
          rw [ih cs g1 g2 (by omega) (by omega) (by omega)]

/-- The recurrence of `stripHashtags` as the scan performs it. -/
theorem stripHashtags_cons (c : Char) (cs : List Char) :
    stripHashtags (c :: cs) =
      match hashMatchLen (c :: cs) with
      | some k => stripHashtags ((c :: cs).drop k)
      | none => c :: stripHashtags cs := by
  show (match hashMatchLen (c :: cs) with
    | some k => stripHashtagsGo cs.length ((c :: cs).drop k)
    | none => c :: stripHashtagsGo cs.length cs) = _
  cases hm : hashMatchLen (c :: cs) with
  | some k =>
    have hk := hashMatchLen_pos hm
    show stripHashtagsGo cs.length ((c :: cs).drop k) = stripHashtags ((c :: cs).drop k)
    exact stripHashtagsGo_irrel ((c :: cs).drop k).length ((c :: cs).drop k)
      cs.length ((c :: cs).drop k).length (le_refl _)
      (by simp only [List.length_drop, List.length_cons]; omega) (le_refl _)
  | none =>
    show c :: stripHashtagsGo cs.length cs = c :: stripHashtags cs
    rfl

/-- `String.prototype.trim`: whitespace removed from both ends. -/
def trimChars (cs : List Char) : List Char :=
  ((cs.dropWhile isWsChar).reverse.dropWhile isWsChar).reverse

/-- Remove the checkbox prefix `/^\s*-\s+\[([x ])\]\s*/` if present. -/
def stripCheckbox (cs : List Char) : List Char :=
  match matchCheckboxPrefix cs with
  | some (_, rest) => rest.dropWhile isWsChar
  | none => cs

/-- `parseTaskContent`: checkbox prefix off, then the metadata suffixes
stripped end-to-front in the source's order, then every hashtag removed and
the result trimmed. -/
def parseTaskContent (cs : List Char) : List Char :=
  trimChars (stripHashtags
    (dropFirstMatchingSuffix mPrioEmoji
      (dropFirstMatchingSuffix mPrioExpl
        (dropFirstMatchingSuffix mDate
          (dropFirstMatchingSuffix mTime
            (dropFirstMatchingSuffix mDur2
              (dropFirstMatchingSuffix mDur1
                (dropFirstMatchingSuffix mTdsync
                  (dropFirstMatchingSuffix mTid (stripCheckbox cs))))))))))

/-- The parsed task-fields value (the codec's `TaskData`). -/
structure TaskData where
  content : String
  completed : Bool
  labels : List String
  dueDate : Option String
  dueTime : Option String
  dueDatetime : Option String
  priority : Option Nat
  duration : Option Nat
  tid : Option String
deriving DecidableEq, Repr

/-- `parseTaskLine`: null unless the line is a markdown task with nonempty
parsed content. -/
def parseTaskLine (line : String) : Option TaskData :=
  if ¬ isMarkdownTask line.data then none
  else
    let content := parseTaskContent line.data
    if content.isEmpty then none
    else
      some
        { content := String.mk content
          completed := isTaskCompleted line.data
          labels := (parseLabels line.data).map String.mk
          dueDate := (parseDueDate line.data).map String.mk
          dueTime := (parseDueTime line.data).map String.mk
          dueDatetime := (parseDueDatetime line.data).map String.mk
          priority := parsePriority line.data
          duration := parseDuration line.data
          tid := (extractTID line.data).map String.mk }

/-- ASCII lowering, the effect of `toLowerCase` on label characters. -/
def toLowerChars (l : List Char) : List Char := l.map Char.toLower

/-- `mergeLabelLists`: concatenate and deduplicate case-insensitively,
keeping first occurrences. -/
def mergeLabelGo : List (List Char) → List (List Char) → List (List Char)
  | [], _ => []
  | l :: ls, seen =>
    let low := toLowerChars l
    if seen.contains low then mergeLabelGo ls seen
    else l :: mergeLabelGo ls (low :: seen)

/-- `mergeLabelLists` entry point. -/
def mergeLabelLists (l1 l2 : List (List Char)) : List (List Char) :=
  mergeLabelGo (l1 ++ l2) []

/-- Decimal-rendering worker; fuel dominates the number. -/
def natToCharsGo : Nat → Nat → List Char
  | 0, _ => []
  | fuel + 1, n =>
    if n < 10 then [Char.ofNat ('0'.toNat + n)]
    else natToCharsGo fuel (n / 10) ++ [Char.ofNat ('0'.toNat + n % 10)]

/-- Decimal rendering of a number (template-literal interpolation). -/
def natToChars (n : Nat) : List Char := natToCharsGo (n + 1) n

theorem natToCharsGo_irrel : ∀ (m n f1 f2 : Nat), n ≤ m → n < f1 → n < f2 →
    natToCharsGo f1 n = natToCharsGo f2 n := by
  intro m
  induction m with
  | zero =>
    intro n f1 f2 h h1 h2
    match f1, f2 with
    | g1 + 1, g2 + 1 =>
      have : n = 0 := by omega
      subst this
      rfl
  | succ m ih =>
    intro n f1 f2 h h1 h2
    match f1, f2 with
    | g1 + 1, g2 + 1 =>
      simp only [natToCharsGo]
      by_cases hn : n < 10
      · rw [if_pos hn, if_pos hn]
      · rw [if_neg hn, if_neg hn,
          ih (n / 10) g1 g2 (by omega) (by omega) (by omega)]

/-- The recurrence of decimal rendering. -/
theorem natToChars_eq (n : Nat) :
    natToChars n =
      if n < 10 then [Char.ofNat ('0'.toNat + n)]
      else natToChars (n / 10) ++ [Char.ofNat ('0'.toNat + n % 10)] := by
  show natToCharsGo (n + 1) n = _
  simp only [natToCharsGo]
  by_cases hn : n < 10
  · rw [if_pos hn, if_pos hn]
  · rw [if_neg hn, if_neg hn,
      natToCharsGo_irrel n (n / 10) n (n / 10 + 1) (by omega) (by omega) (by omega)]
    rfl

/-- `formatDuration`: minutes under an hour as `⏳Nmin`, whole hours as
`⏳Nh`, otherwise `⏳XhYm`. -/
def formatDuration (minutes : Nat) : List Char :=
  if minutes < 60 then hourglassChar :: (natToChars minutes ++ litOf "min")
  else
    if minutes % 60 = 0 then hourglassChar :: (natToChars (minutes / 60) ++ litOf "h")
    else
      hourglassChar :: (natToChars (minutes / 60) ++ 'h' ::
        (natToChars (minutes % 60) ++ ['m']))

/-- The `%%[tid:: [id](https://app.todoist.com/app/task/id)]%%` comment. -/
def tidComment (tid : List Char) : List Char :=
  litOf "%%[tid:: [" ++ tid ++ litOf "](https://app.todoist.com/app/task/" ++
    tid ++ litOf ")]%%"

/-- `buildTaskLine`: checkbox, content, user labels (merged with the
frontmatter labels, deduplicated, `tdsync` filtered out), non-default
priority, due date, due time, duration, the `#tdsync` tag, then the id
comment — joined by single spaces.  Truthiness guards follow the source:
priority 0 or 1, duration 0 and empty strings are omitted. -/
def buildTaskLine (data : TaskData) (frontmatterLabels : List String) : String :=
  let allLabels := (mergeLabelLists (data.labels.map String.data)
    (frontmatterLabels.map String.data)).filter
      (fun l => ¬ toLowerChars l = litOf "tdsync")
  let parts : List (List Char) :=
    [if data.completed then litOf "- [x]" else litOf "- [ ]", data.content.data] ++
    (if ¬ allLabels.isEmpty then
      [List.intercalate [' '] (allLabels.map (fun l => '#' :: l))] else []) ++
    (match data.priority with
     | some p => if p ≠ 0 ∧ p ≠ 1 then [litOf "!!" ++ natToChars p] else []
     | none => []) ++
    (match data.dueDate with
     | some d => if d ≠ "" then [calChar :: vs16Char :: d.data] else []
     | none => []) ++
    (match data.dueTime with
     | some t => if t ≠ "" then [clockChar :: t.data] else []
     | none => []) ++
    (match data.duration with
     | some n => if n ≠ 0 then [formatDuration n] else []
     | none => []) ++
    [litOf "#tdsync"] ++
    (match data.tid with
     | some tid => if tid ≠ "" then [tidComment tid.data] else []
     | none => [])
  String.mk (List.intercalate [' '] parts)

/-! ## Hierarchical creation protocol: level computation (Phase 2)

A scanned task line as `processFile` collects it: line number, raw text,
embedded id if any, and the parent linkage from the structural outline
(either a resolved parent id or the parent's content placeholder). -/

structure ScannedTask where
  lineNum : Nat
  line : String
  tid : Option String
  parent_tid : Option String
  parent_content : Option String
deriving DecidableEq, Repr

/-- The parent lookup `newTasks.find(t => parseTaskContent(t.line) ===
content && t.lineNum < lineNum)`. -/
def findParentFor (tasks : List ScannedTask) (content : String) (ln : Nat) :
    Option ScannedTask :=
  tasks.find? (fun t => String.mk (parseTaskContent t.line.data) == content &&
    t.lineNum < ln)

/-- The `calculateTaskLevel` while-loop.  The source loop terminates because
every resolved parent lies on a strictly earlier line; the fuel (strictly
greater than the current line number) can therefore never run out from the
entry point, and the zero-fuel arm is unreachable. -/
def calculateTaskLevelGo : Nat → List ScannedTask → ScannedTask → List Nat → Nat → Nat
  | 0, _, _, _, level => level
  | fuel + 1, tasks, current, visited, level =>
    match current.parent_content with
    | none => if current.parent_tid.isSome then level + 1 else level
    | some pc =>
      if visited.contains current.lineNum then 0
      else
        match findParentFor tasks pc current.lineNum with
        | none => if current.parent_tid.isSome then level + 1 else level
        | some parent =>
          calculateTaskLevelGo fuel tasks parent (current.lineNum :: visited) (level + 1)

/-- `calculateTaskLevel(targetTask, allNewTasks)`. -/
def calculateTaskLevel (targetTask : ScannedTask) (allNewTasks : List ScannedTask) : Nat :=
  calculateTaskLevelGo (targetTask.lineNum + 1) allNewTasks targetTask [] 0

/-- The per-task level computation of the main Phase-2 loop: an existing
parent (`parent_tid`) pins the level to 1, a placeholder parent resolves
through `calculateTaskLevel`, a missing parent degrades to level 0. -/
def taskLevel (newTasks : List ScannedTask) (task : ScannedTask) : Nat :=
  match task.parent_tid with
  | some _ => 1
  | none =>
    match task.parent_content with
    | none => 0
    | some pc =>
      match findParentFor newTasks pc task.lineNum with
      | some parentTask => calculateTaskLevel parentTask newTasks + 1
      | none => 0

/-- Modelled from the claim's words: a new task's depth is 0 with no
parent; `1 + depth(parent)` when the parent is an existing task with a
known id (an existing task needs no creation pass, so its depth counts as
0 in the batch and the child's depth is 1); and `1 + depth(parent)`
resolved transitively through the placeholder parent content when the
parent is another new task of the batch, a missing parent degrading the
task to depth 0.  The fuel argument mirrors the strictly-decreasing line
numbers of the parent chain. -/
def specDepthGo : Nat → List ScannedTask → ScannedTask → Nat
  | 0, _, _ => 0
  | fuel + 1, tasks, t =>
    if t.parent_tid.isSome then 1
    else
      match t.parent_content with
      | none => 0
      | some pc =>
        match findParentFor tasks pc t.lineNum with
        | none => 0
        | some p => specDepthGo fuel tasks p + 1

/-- Entry point of the claim's depth function. -/
def specDepth (tasks : List ScannedTask) (t : ScannedTask) : Nat :=
  specDepthGo (t.lineNum + 1) tasks t

theorem findParentFor_lt {tasks : List ScannedTask} {pc : String} {ln : Nat}
    {p : ScannedTask} (h : findParentFor tasks pc ln = some p) :
    p.lineNum < ln ∧ p ∈ tasks := by
  have h1 := List.find?_some h
  have h2 := List.mem_of_find?_eq_some h
  simp only [Bool.and_eq_true, decide_eq_true_eq] at h1
  exact ⟨h1.2, h2⟩

/-! Per-case unfolding lemmas for the two level computations. -/

theorem specDepthGo_pt {fuel : Nat} {tasks : List ScannedTask} {t : ScannedTask}
    (h : t.parent_tid.isSome = true) : specDepthGo (fuel + 1) tasks t = 1 := by
  simp only [specDepthGo, h, if_true]

theorem specDepthGo_none {fuel : Nat} {tasks : List ScannedTask} {t : ScannedTask}
    (h1 : t.parent_tid.isSome = false) (h2 : t.parent_content = none) :
    specDepthGo (fuel + 1) tasks t = 0 := by
  simp only [specDepthGo, h1, h2, Bool.false_eq_true, if_false]

theorem specDepthGo_pc_none {fuel : Nat} {tasks : List ScannedTask} {t : ScannedTask}
    {pc : String} (h1 : t.parent_tid.isSome = false) (h2 : t.parent_content = some pc)
    (hf : findParentFor tasks pc t.lineNum = none) :
    specDepthGo (fuel + 1) tasks t = 0 := by
  simp only [specDepthGo, h1, h2, Bool.false_eq_true, if_false, hf]

theorem specDepthGo_pc_some {fuel : Nat} {tasks : List ScannedTask} {t : ScannedTask}
    {pc : String} {p : ScannedTask} (h1 : t.parent_tid.isSome = false)
    (h2 : t.parent_content = some pc)
    (hf : findParentFor tasks pc t.lineNum = some p) :
    specDepthGo (fuel + 1) tasks t = specDepthGo fuel tasks p + 1 := by
  simp only [specDepthGo, h1, h2, Bool.false_eq_true, if_false, hf]

theorem calcGo_none {fuel : Nat} {tasks : List ScannedTask} {current : ScannedTask}
    {visited : List Nat} {level : Nat} (h2 : current.parent_content = none) :
    calculateTaskLevelGo (fuel + 1) tasks current visited level =
      if current.parent_tid.isSome then level + 1 else level := by
  simp only [calculateTaskLevelGo, h2]

theorem calcGo_pc_none {fuel : Nat} {tasks : List ScannedTask} {current : ScannedTask}
    {visited : List Nat} {level : Nat} {pc : String}
    (h2 : current.parent_content = some pc)
    (hv : visited.contains current.lineNum = false)
    (hf : findParentFor tasks pc current.lineNum = none) :
    calculateTaskLevelGo (fuel + 1) tasks current visited level =
      if current.parent_tid.isSome then level + 1 else level := by
  simp only [calculateTaskLevelGo, h2, hv, Bool.false_eq_true, if_false, hf]

theorem calcGo_pc_some {fuel : Nat} {tasks : List ScannedTask} {current : ScannedTask}
    {visited : List Nat} {level : Nat} {pc : String} {parent : ScannedTask}
    (h2 : current.parent_content = some pc)
    (hv : visited.contains current.lineNum = false)
    (hf : findParentFor tasks pc current.lineNum = some parent) :
    calculateTaskLevelGo (fuel + 1) tasks current visited level =
      calculateTaskLevelGo fuel tasks parent (current.lineNum :: visited) (level + 1) := by
  simp only [calculateTaskLevelGo, h2, hv, Bool.false_eq_true, if_false, hf]

theorem specDepthGo_irrel : ∀ (n : Nat) (tasks : List ScannedTask) (t : ScannedTask)
    (f1 f2 : Nat), t.lineNum ≤ n → t.lineNum < f1 → t.lineNum < f2 →
    specDepthGo f1 tasks t = specDepthGo f2 tasks t := by
  intro n
  induction n with
  | zero =>
    intro tasks t f1 f2 h h1 h2
    match f1, f2 with
    | g1 + 1, g2 + 1 =>
      cases hp : t.parent_tid.isSome with
      | true => rw [specDepthGo_pt hp, specDepthGo_pt hp]
      | false =>
        cases hpc : t.parent_content with
        | none => rw [specDepthGo_none hp hpc, specDepthGo_none hp hpc]
        | some pc =>
          cases hf : findParentFor tasks pc t.lineNum with
          | none => rw [specDepthGo_pc_none hp hpc hf, specDepthGo_pc_none hp hpc hf]
          | some p =>
            have := (findParentFor_lt hf).1
            omega
  | succ n ih =>
    intro tasks t f1 f2 h h1 h2
    match f1, f2 with
    | g1 + 1, g2 + 1 =>
      cases hp : t.parent_tid.isSome with
      | true => rw [specDepthGo_pt hp, specDepthGo_pt hp]
      | false =>
        cases hpc : t.parent_content with
        | none => rw [specDepthGo_none hp hpc, specDepthGo_none hp hpc]
        | some pc =>
          cases hf : findParentFor tasks pc t.lineNum with
          | none => rw [specDepthGo_pc_none hp hpc hf, specDepthGo_pc_none hp hpc hf]
          | some p =>
            have hlt := (findParentFor_lt hf).1
            rw [specDepthGo_pc_some hp hpc hf, specDepthGo_pc_some hp hpc hf,
              ih tasks p g1 g2 (by omega) (by omega) (by omega)]

theorem specDepth_eq_go {tasks : List ScannedTask} {t : ScannedTask} {fuel : Nat}
    (h : t.lineNum < fuel) : specDepthGo fuel tasks t = specDepth tasks t :=
  specDepthGo_irrel t.lineNum tasks t fuel (t.lineNum + 1) (le_refl _) h (by omega)

/-- The iterative chain walk computes `level + specDepth current`, provided
the batch is well-formed (no task carries both parent forms, as Phase 1
guarantees), the walked task belongs to the batch and every visited line
number lies strictly above the current line (so the cycle check never
fires — parents always sit on earlier lines). -/
theorem calculateTaskLevelGo_eq : ∀ (n : Nat) (tasks : List ScannedTask)
    (current : ScannedTask) (visited : List Nat) (level fuel : Nat),
    current.lineNum ≤ n → current.lineNum < fuel →
    (∀ t ∈ tasks, ¬(t.parent_tid.isSome ∧ t.parent_content.isSome)) →
    current ∈ tasks →
    (∀ v ∈ visited, current.lineNum < v) →
    calculateTaskLevelGo fuel tasks current visited level =
      level + specDepth tasks current := by
  intro n
  induction n with
  | zero =>
    intro tasks current visited level fuel h hfuel hok hmem hvis
    match fuel with
    | g + 1 =>
      rw [← @specDepth_eq_go _ _ (g + 1) (by omega)]
      cases hpc : current.parent_content with
      | none =>
        rw [calcGo_none hpc]
        cases hp : current.parent_tid.isSome with
        | true =>
          rw [specDepthGo_pt hp]
          simp
        | false =>
          rw [specDepthGo_none hp hpc]
          simp [hp]
      | some pc =>
        have hp : current.parent_tid.isSome = false := by
          cases hq : current.parent_tid.isSome with
          | false => rfl
          | true => exact absurd ⟨hq, by rw [hpc]; rfl⟩ (hok current hmem)
        have hnv : visited.contains current.lineNum = false := by
          cases hc : visited.contains current.lineNum with
          | false => rfl
          | true =>
            have := hvis current.lineNum (by simpa using hc)
            omega
        cases hf : findParentFor tasks pc current.lineNum with
        | none =>
          rw [calcGo_pc_none hpc hnv hf, specDepthGo_pc_none hp hpc hf]
          simp [hp]
        | some p =>
          have := (findParentFor_lt hf).1
          omega
  | succ n ih =>
    intro tasks current visited level fuel h hfuel hok hmem hvis
    match fuel with
    | g + 1 =>
      rw [← @specDepth_eq_go _ _ (g + 1) (by omega)]
      cases hpc : current.parent_content with
      | none =>
        rw [calcGo_none hpc]
        cases hp : current.parent_tid.isSome with
        | true =>
          rw [specDepthGo_pt hp]
          simp
        | false =>
          rw [specDepthGo_none hp hpc]
          simp [hp]
      | some pc =>
        have hp : current.parent_tid.isSome = false := by
          cases hq : current.parent_tid.isSome with
          | false => rfl
          | true => exact absurd ⟨hq, by rw [hpc]; rfl⟩ (hok current hmem)
        have hnv : visited.contains current.lineNum = false := by
          cases hc : visited.contains current.lineNum with
          | false => rfl
          | true =>
            have := hvis current.lineNum (by simpa using hc)
            omega
        cases hf : findParentFor tasks pc current.lineNum with
        | none =>
          rw [calcGo_pc_none hpc hnv hf, specDepthGo_pc_none hp hpc hf]
          simp [hp]
        | some p =>
          obtain ⟨hlt, hpmem⟩ := findParentFor_lt hf
          rw [calcGo_pc_some hpc hnv hf, specDepthGo_pc_some hp hpc hf,
            ih tasks p (current.lineNum :: visited) (level + 1) g (by omega)
              (by omega) hok hpmem ?_,
            specDepth_eq_go (by omega : p.lineNum < g)]
          · omega
          · intro v hv
            rcases List.mem_cons.mp hv with h1 | h2
            · omega
            · have := hvis v h2
              omega

/-- C2: for a well-formed batch (no scanned task carries both an existing
parent id and a placeholder parent, as Phase 1 guarantees), the level the
creation protocol computes for every new task equals the claim's recursive
depth: 0 with no parent, 1 over an existing parent with a known id, and
1 + depth(parent) resolved transitively through the placeholder content,
a missing parent degrading to 0; no cycle can ever be detected because
resolved parents always sit on strictly earlier lines. -/
theorem C2_taskLevel_eq_specDepth (newTasks : List ScannedTask) (task : ScannedTask)
    (hok : ∀ t ∈ newTasks, ¬(t.parent_tid.isSome ∧ t.parent_content.isSome)) :
    taskLevel newTasks task = specDepth newTasks task := by
  rw [← @specDepth_eq_go newTasks task (task.lineNum + 1) (by omega)]
  cases hpt : task.parent_tid with
  | some p =>
    have hp : task.parent_tid.isSome = true := by rw [hpt]; rfl
    rw [specDepthGo_pt hp]
    simp [taskLevel, hpt]
  | none =>
    have hp : task.parent_tid.isSome = false := by rw [hpt]; rfl
    cases hpc : task.parent_content with
    | none =>
      rw [specDepthGo_none hp hpc]
      simp [taskLevel, hpt, hpc]
    | some pc =>
      cases hf : findParentFor newTasks pc task.lineNum with
      | none =>
        rw [specDepthGo_pc_none hp hpc hf]
        simp [taskLevel, hpt, hpc, hf]
      | some parentTask =>
        obtain ⟨hlt, hpmem⟩ := findParentFor_lt hf
        rw [specDepthGo_pc_some hp hpc hf,
          specDepth_eq_go (by omega : parentTask.lineNum < task.lineNum)]
        simp only [taskLevel, hpt, hpc, hf]
        rw [calculateTaskLevel, calculateTaskLevelGo_eq parentTask.lineNum newTasks
          parentTask [] 0 (parentTask.lineNum + 1) (le_refl _) (by omega) hok hpmem
          (by intro v hv; simp at hv)]
        omega

/-- C2 witness: a three-task chain `A ← B ← C` resolved through the
placeholder contents gives C the level 2 demanded by the claim's depth. -/
theorem C2_taskLevel_eq_specDepth_witness :
    taskLevel
      [⟨0, "- [ ] A", none, none, none⟩,
       ⟨1, "- [ ] B", none, none, some "A"⟩,
       ⟨2, "- [ ] C", none, none, some "B"⟩]
      ⟨2, "- [ ] C", none, none, some "B"⟩ =
    specDepth
      [⟨0, "- [ ] A", none, none, none⟩,
       ⟨1, "- [ ] B", none, none, some "A"⟩,
       ⟨2, "- [ ] C", none, none, some "B"⟩]
      ⟨2, "- [ ] C", none, none, some "B"⟩ ∧
    specDepth
      [⟨0, "- [ ] A", none, none, none⟩,
       ⟨1, "- [ ] B", none, none, some "A"⟩,
       ⟨2, "- [ ] C", none, none, some "B"⟩]
      ⟨2, "- [ ] C", none, none, some "B"⟩ = 2 :=
  ⟨C2_taskLevel_eq_specDepth
    [⟨0, "- [ ] A", none, none, none⟩,
     ⟨1, "- [ ] B", none, none, some "A"⟩,
     ⟨2, "- [ ] C", none, none, some "B"⟩]
    ⟨2, "- [ ] C", none, none, some "B"⟩ (by decide), by decide⟩

/-! ## Document reconciler (`reconcileFileTasks`)

The store (`settings.tasks`, an object keyed by tid) is modelled as an
association list with distinct keys; object mutation becomes a keyed
update.  The vault is a list of files with path, sync-enabled frontmatter
flag and content. -/

/-- `db.getTask(tid)`. -/
def dbGet (db : List (String × TaskInDB)) (tid : String) : Option TaskInDB :=
  (db.find? (fun p => p.1 == tid)).map (·.2)

/-- In-place mutation of the record stored under a key. -/
def dbUpdate (db : List (String × TaskInDB)) (tid : String)
    (f : TaskInDB → TaskInDB) : List (String × TaskInDB) :=
  db.map (fun p => if p.1 == tid then (p.1, f p.2) else p)

/-- `Map.get`. -/
def mapGet (m : List (String × String)) (k : String) : Option String :=
  (m.find? (fun p => p.1 == k)).map (·.2)

/-- `Map.set`: overwrite in place, else append. -/
def mapSet (m : List (String × String)) (k v : String) : List (String × String) :=
  if m.any (fun p => p.1 == k) then m.map (fun p => if p.1 == k then (k, v) else p)
  else m ++ [(k, v)]

/-- Phase-3 parent resolution: the scanned `parent_tid` if present, else a
placeholder looked up in the creation map (`|| null` on a miss). -/
def resolvedParentTidOf (task : ScannedTask) (contentToTid : List (String × String)) :
    Option String :=
  match task.parent_tid with
  | some p => some p
  | none =>
    match task.parent_content with
    | some pc => mapGet contentToTid pc
    | none => none

/-- The changeset pushed for a detected local edit: every compared field's
current value (the due time is not among the compared or pushed fields)
plus the resolved parent. -/
def localChangesetOf (cur : TaskData) (rp : Option String) : Changes :=
  ⟨none, some cur.completed, some cur.content, cur.dueDate, none, cur.dueDatetime,
   cur.priority, cur.duration, some cur.labels, some rp⟩

/-- The disjunction of the eight field comparisons of Part 1 (content,
completed, due date, combined datetime, priority, duration, labels,
resolved parent). -/
def fieldsChanged (cur : TaskData) (dbTask : TaskInDB) (rp : Option String) : Prop :=
  cur.content ≠ dbTask.content ∨ cur.completed ≠ dbTask.completed ∨
  cur.dueDate ≠ dbTask.dueDate ∨ cur.dueDatetime ≠ dbTask.dueDatetime ∨
  cur.priority ≠ dbTask.priority ∨ cur.duration ≠ dbTask.duration ∨
  cur.labels ≠ dbTask.labels ∨ rp ≠ dbTask.parent_tid

instance (cur : TaskData) (dbTask : TaskInDB) (rp : Option String) :
    Decidable (fieldsChanged cur dbTask rp) := by
  rw [fieldsChanged]
  infer_instance

/-- Part 1 of `reconcileFileTasks` for one scanned existing task: unknown
ids are skipped (orphan anomaly), a differing stored path is updated
immediately (moved in), the parent placeholder is resolved, and a field
difference appends a local pending change with timestamp the document's
mtime — unless the record was synced within 5000 ms of the mtime and has a
truthy (nonzero) `lastSyncedAt`, the self-write suppression. -/
def part1Step (filePath : String) (fileMtime : Int) (contentToTid : List (String × String))
    (db : List (String × TaskInDB)) (task : ScannedTask) : List (String × TaskInDB) :=
  match task.tid with
  | none => db
  | some tid =>
    match dbGet db tid with
    | none => db
    | some dbTask0 =>
      let db1 := if dbTask0.filepath ≠ filePath then
          dbUpdate db tid (fun t => { t with filepath := filePath }) else db
      let dbTask := if dbTask0.filepath ≠ filePath then
          { dbTask0 with filepath := filePath } else dbTask0
      let rp := resolvedParentTidOf task contentToTid
      match parseTaskLine task.line with
      | none => db1
      | some cur =>
        if fieldsChanged cur dbTask rp then
          if dbTask.lastSyncedAt ≠ 0 ∧ |fileMtime - dbTask.lastSyncedAt| < 5000 then db1
          else
            dbUpdate db1 tid (fun t =>
              { t with pending_changes := t.pending_changes ++
                  [⟨Source.loc, fileMtime, localChangesetOf cur rp⟩] })
        else db1

/-- Part 1 over all scanned existing tasks. -/
def part1 (filePath : String) (fileMtime : Int) (contentToTid : List (String × String))
    (db : List (String × TaskInDB)) (existingTasks : List ScannedTask) :
    List (String × TaskInDB) :=
  existingTasks.foldl (part1Step filePath fileMtime contentToTid) db

/-- C5 counterexample: a record whose `lastSyncedAt` is 0 and whose
document was modified at time 1000 satisfies
`|mtime − lastSyncedAt| < 5000`, yet a local pending change is appended
(the code's truthiness guard treats 0 as "never synced"). -/
theorem C5_counterexample_zero_lastSynced :
    |(1000 : Int) - (0 : Int)| < 5000 ∧
    part1Step "a.md" 1000 []
      [("T1", ⟨"T1", "a.md", "A", false, none, none, none, none, none,
        ["tdsync"], none, 0, []⟩)]
      ⟨0, "- [ ] B #tdsync %%[tid:: [T1](https://app.todoist.com/app/task/T1)]%%",
        some "T1", none, none⟩ ≠
      [("T1", ⟨"T1", "a.md", "A", false, none, none, none, none, none,
        ["tdsync"], none, 0, []⟩)] := by
  constructor
  · decide
  · decide

/-- C5 (amended): for an existing task whose parsed line differs from its
stored record in a compared field (content, completed, due date, combined
datetime, priority, duration, labels, or resolved parent; the due time
alone is not compared), no local pending change is appended when the
record's `lastSyncedAt` is nonzero and within 5000 ms of the document's
modification time; otherwise a local-origin change timestamped with the
modification time and carrying all current compared values is appended. -/
theorem C5_self_write_suppression (filePath : String) (fileMtime : Int)
    (contentToTid : List (String × String)) (db : List (String × TaskInDB))
    (task : ScannedTask) (tid : String) (dbTask : TaskInDB) (cur : TaskData)
    (htid : task.tid = some tid)
    (hget : dbGet db tid = some dbTask)
    (hpath : dbTask.filepath = filePath)
    (hparse : parseTaskLine task.line = some cur)
    (hdiff : fieldsChanged cur dbTask (resolvedParentTidOf task contentToTid)) :
    (dbTask.lastSyncedAt ≠ 0 ∧ |fileMtime - dbTask.lastSyncedAt| < 5000 →
      part1Step filePath fileMtime contentToTid db task = db) ∧
    (¬ (dbTask.lastSyncedAt ≠ 0 ∧ |fileMtime - dbTask.lastSyncedAt| < 5000) →
      part1Step filePath fileMtime contentToTid db task =
        dbUpdate db tid (fun t =>
          { t with pending_changes := t.pending_changes ++
              [⟨Source.loc, fileMtime,
                localChangesetOf cur (resolvedParentTidOf task contentToTid)⟩] })) := by
  have hnp : ¬ (dbTask.filepath ≠ filePath) := by rw [hpath]; simp
  constructor
  · intro hsup
    simp only [part1Step, htid, hget, hparse, hnp, if_false, if_pos hdiff, if_pos hsup]
  · intro hsup
    simp only [part1Step, htid, hget, hparse, hnp, if_false, if_pos hdiff, if_neg hsup]

/-- C5 witness: a record synced 1000 ms before the document's modification
time is suppressed (no pending change appended). -/
theorem C5_self_write_suppression_witness :
    part1Step "a.md" 11000 []
      [("T1", ⟨"T1", "a.md", "A", false, none, none, none, none, none,
        ["tdsync"], none, 10000, []⟩)]
      ⟨0, "- [ ] B #tdsync %%[tid:: [T1](https://app.todoist.com/app/task/T1)]%%",
        some "T1", none, none⟩ =
      [("T1", ⟨"T1", "a.md", "A", false, none, none, none, none, none,
        ["tdsync"], none, 10000, []⟩)] :=
  (C5_self_write_suppression "a.md" 11000 []
    [("T1", ⟨"T1", "a.md", "A", false, none, none, none, none, none,
      ["tdsync"], none, 10000, []⟩)]
    ⟨0, "- [ ] B #tdsync %%[tid:: [T1](https://app.todoist.com/app/task/T1)]%%",
      some "T1", none, none⟩ "T1"
    ⟨"T1", "a.md", "A", false, none, none, none, none, none,
      ["tdsync"], none, 10000, []⟩
    ⟨"B", false, ["tdsync"], none, none, none, none, none, some "T1"⟩
    rfl (by decide) rfl (by decide) (by decide)).1 (by decide)

/-- A vault file: path, `todoist-sync: true` frontmatter flag, content. -/
structure VFile where
  path : String
  syncEnabled : Bool
  content : String
deriving DecidableEq, Repr

/-- Substring presence over character lists. -/
def isSubstringChars (pat : List Char) : List Char → Bool
  | [] => decide (pat = [])
  | c :: cs => pat.isPrefixOf (c :: cs) || isSubstringChars pat cs

/-- The test of the pattern `%%\[tid:: \[<tid>\]` on a file's content:
substring presence (ids are alphanumeric, so no regex metacharacters). -/
def containsTid (content : String) (tid : String) : Bool :=
  isSubstringChars ("%%[tid:: [" ++ tid ++ "]").data content.data

/-- `searchVaultForTID`: among the sync-enabled files other than the
current one (in vault order), the first whose content contains the id
marker.  The chunked scanning with periodic yields affects scheduling
only, not the result. -/
def searchVaultForTID (tid : String) (allFiles : List VFile) (excludePath : String) :
    Option VFile :=
  (allFiles.filter (fun f => f.path ≠ excludePath ∧ f.syncEnabled)).find?
    (fun f => containsTid f.content tid)

/-- The local-origin deletion changeset `{ deleted: true }`. -/
def deletedChangeset : Changes :=
  ⟨some true, none, none, none, none, none, none, none, none, none⟩

/-- Part 2 of `reconcileFileTasks` for one record the store assigns to the
current document: ids present in the document (or newly created this pass)
are skipped; otherwise the vault is searched — found elsewhere updates the
stored path and enqueues the destination unless its path is already queued,
found nowhere appends a local `deleted: true` pending change stamped with
the current time. -/
def part2Step (filePath : String) (now : Int) (allFiles : List VFile)
    (tidsInFile : List String)
    (state : List (String × TaskInDB) × List VFile × List String)
    (entry : String × TaskInDB) :
    List (String × TaskInDB) × List VFile × List String :=
  if tidsInFile.contains entry.1 then state
  else
    match searchVaultForTID entry.1 allFiles filePath with
    | some newLocation =>
      let db := dbUpdate state.1 entry.1 (fun t => { t with filepath := newLocation.path })
      if ¬ state.2.2.contains newLocation.path then
        (db, state.2.1 ++ [newLocation], state.2.2 ++ [newLocation.path])
      else
        (db, state.2.1, state.2.2)
    | none =>
      (dbUpdate state.1 entry.1 (fun t =>
        { t with pending_changes := t.pending_changes ++
            [⟨Source.loc, now, deletedChangeset⟩] }), state.2.1, state.2.2)

/-- Part 2 over the snapshot of records the store assigns to the document. -/
def part2 (filePath : String) (now : Int) (allFiles : List VFile)
    (tidsInFile : List String) (db : List (String × TaskInDB))
    (files : List VFile) (queuedPaths : List String) :
    List (String × TaskInDB) × List VFile × List String :=
  (db.filter (fun p => p.2.filepath == filePath)).foldl
    (part2Step filePath now allFiles tidsInFile) (db, files, queuedPaths)

/-! Store-access lemmas. -/

theorem dbGet_of_mem_nodup {db : List (String × TaskInDB)} {tid : String}
    {rec : TaskInDB} (hnodup : (db.map Prod.fst).Nodup) (hmem : (tid, rec) ∈ db) :
    dbGet db tid = some rec := by
  induction db with
  | nil => simp at hmem
  | cons e rest ih =>
    simp only [List.map_cons, List.nodup_cons] at hnodup
    rcases List.mem_cons.mp hmem with h1 | h2
    · rw [← h1]
      simp [dbGet]
    · have hne : (e.1 == tid) = false := by
        simp only [beq_eq_false_iff_ne, ne_eq]
        intro he
        exact hnodup.1 (he ▸ (List.mem_map.mpr ⟨(tid, rec), h2, rfl⟩))
      simp only [dbGet, List.find?_cons, hne]
      exact ih hnodup.2 h2

theorem dbGet_dbUpdate_ne {db : List (String × TaskInDB)} {k tid : String}
    {f : TaskInDB → TaskInDB} (h : k ≠ tid) :
    dbGet (dbUpdate db k f) tid = dbGet db tid := by
  induction db with
  | nil => rfl
  | cons e rest ih =>
    simp only [dbUpdate, List.map_cons]
    by_cases he : (e.1 == k) = true
    · have hnt : (e.1 == tid) = false := by
        simp only [beq_iff_eq] at he
        simp [he, h]
      rw [if_pos he]
      simp only [dbGet, List.find?_cons, hnt]
      exact ih
    · rw [if_neg he]
      by_cases ht : (e.1 == tid) = true
      · simp only [dbGet, List.find?_cons, ht]
      · simp only [Bool.not_eq_true] at ht
        simp only [dbGet, List.find?_cons, ht]
        exact ih

theorem dbGet_dbUpdate_eq {db : List (String × TaskInDB)} {tid : String}
    {f : TaskInDB → TaskInDB} :
    dbGet (dbUpdate db tid f) tid = (dbGet db tid).map f := by
  induction db with
  | nil => rfl
  | cons e rest ih =>
    simp only [dbUpdate, List.map_cons]
    by_cases he : (e.1 == tid) = true
    · rw [if_pos he]
      simp only [dbGet, List.find?_cons, he]
      rfl
    · rw [if_neg he]
      simp only [Bool.not_eq_true] at he
      simp only [dbGet, List.find?_cons, he]
      exact ih

theorem searchVaultForTID_some {tid excludePath : String} {allFiles : List VFile}
    {f : VFile} (h : searchVaultForTID tid allFiles excludePath = some f) :
    f ∈ allFiles ∧ f.path ≠ excludePath ∧ f.syncEnabled = true ∧
    containsTid f.content tid = true := by
  have h1 := List.find?_some h
  have h2 := List.mem_of_find?_eq_some h
  rw [List.mem_filter] at h2
  have h3 := h2.2
  simp only [decide_eq_true_eq, Bool.and_eq_true] at h3
  exact ⟨h2.1, h3.1, h3.2, h1⟩

/-! Per-case unfolding lemmas for the Part-2 step. -/

theorem part2Step_skip {filePath : String} {now : Int} {allFiles : List VFile}
    {tidsInFile : List String}
    {s : List (String × TaskInDB) × List VFile × List String}
    {entry : String × TaskInDB} (h : tidsInFile.contains entry.1 = true) :
    part2Step filePath now allFiles tidsInFile s entry = s := by
  have h' : entry.1 ∈ tidsInFile := by simpa using h
  simp [part2Step, h']

theorem part2Step_found_new {filePath : String} {now : Int} {allFiles : List VFile}
    {tidsInFile : List String}
    {s : List (String × TaskInDB) × List VFile × List String}
    {entry : String × TaskInDB} {newLocation : VFile}
    (hskip : tidsInFile.contains entry.1 = false)
    (hs : searchVaultForTID entry.1 allFiles filePath = some newLocation)
    (hq : s.2.2.contains newLocation.path = false) :
    part2Step filePath now allFiles tidsInFile s entry =
      (dbUpdate s.1 entry.1 (fun t => { t with filepath := newLocation.path }),
       s.2.1 ++ [newLocation], s.2.2 ++ [newLocation.path]) := by
  have h1 : entry.1 ∉ tidsInFile := by simpa using hskip
  have h2 : newLocation.path ∉ s.2.2 := by simpa using hq
  simp [part2Step, h1, h2, hs]

theorem part2Step_found_queued {filePath : String} {now : Int} {allFiles : List VFile}
    {tidsInFile : List String}
    {s : List (String × TaskInDB) × List VFile × List String}
    {entry : String × TaskInDB} {newLocation : VFile}
    (hskip : tidsInFile.contains entry.1 = false)
    (hs : searchVaultForTID entry.1 allFiles filePath = some newLocation)
    (hq : s.2.2.contains newLocation.path = true) :
    part2Step filePath now allFiles tidsInFile s entry =
      (dbUpdate s.1 entry.1 (fun t => { t with filepath := newLocation.path }),
       s.2.1, s.2.2) := by
  have h1 : entry.1 ∉ tidsInFile := by simpa using hskip
  have h2 : newLocation.path ∈ s.2.2 := by simpa using hq
  simp [part2Step, h1, h2, hs]

theorem part2Step_missing {filePath : String} {now : Int} {allFiles : List VFile}
    {tidsInFile : List String}
    {s : List (String × TaskInDB) × List VFile × List String}
    {entry : String × TaskInDB}
    (hskip : tidsInFile.contains entry.1 = false)
    (hs : searchVaultForTID entry.1 allFiles filePath = none) :
    part2Step filePath now allFiles tidsInFile s entry =
      (dbUpdate s.1 entry.1 (fun t =>
        { t with pending_changes := t.pending_changes ++
            [⟨Source.loc, now, deletedChangeset⟩] }), s.2.1, s.2.2) := by
  have h1 : entry.1 ∉ tidsInFile := by simpa using hskip
  simp [part2Step, h1, hs]

/-- The state invariant of Part 2: the queued-path set mirrors the
processing queue's paths, which are distinct. -/
def QueueInv (s : List (String × TaskInDB) × List VFile × List String) : Prop :=
  s.2.2 = s.2.1.map VFile.path ∧ (s.2.1.map VFile.path).Nodup

theorem part2Step_preserves {filePath : String} {now : Int} {allFiles : List VFile}
    {tidsInFile : List String}
    (s : List (String × TaskInDB) × List VFile × List String)
    (e : String × TaskInDB) (tid₀ : String) (hne : e.1 ≠ tid₀) :
    dbGet (part2Step filePath now allFiles tidsInFile s e).1 tid₀ = dbGet s.1 tid₀ ∧
    (QueueInv s → QueueInv (part2Step filePath now allFiles tidsInFile s e)) ∧
    (∀ p, p ∈ s.2.1.map VFile.path →
      p ∈ (part2Step filePath now allFiles tidsInFile s e).2.1.map VFile.path) := by
  cases hskip : tidsInFile.contains e.1 with
  | true =>
    rw [part2Step_skip hskip]
    exact ⟨rfl, fun h => h, fun p hp => hp⟩
  | false =>
    cases hs : searchVaultForTID e.1 allFiles filePath with
    | some newLocation =>
      cases hq : s.2.2.contains newLocation.path with
      | true =>
        rw [part2Step_found_queued hskip hs hq]
        refine ⟨?_, ?_, ?_⟩
        · show dbGet (dbUpdate s.1 e.1 (fun t => { t with filepath := newLocation.path }))
            tid₀ = dbGet s.1 tid₀
          exact dbGet_dbUpdate_ne hne
        · intro h
          exact h
        · intro p hp
          exact hp
      | false =>
        rw [part2Step_found_new hskip hs hq]
        refine ⟨?_, ?_, ?_⟩
        · show dbGet (dbUpdate s.1 e.1 (fun t => { t with filepath := newLocation.path }))
            tid₀ = dbGet s.1 tid₀
          exact dbGet_dbUpdate_ne hne
        · rintro ⟨hinv1, hinv2⟩
          constructor
          · show s.2.2 ++ [newLocation.path] = (s.2.1 ++ [newLocation]).map VFile.path
            simp only [List.map_append, List.map_cons, List.map_nil]
            rw [hinv1]
          · show ((s.2.1 ++ [newLocation]).map VFile.path).Nodup
            simp only [List.map_append, List.map_cons, List.map_nil]
            rw [List.nodup_append]
            refine ⟨hinv2, List.nodup_singleton _, ?_⟩
            intro a ha hb
            simp only [List.mem_singleton] at hb
            subst hb
            rw [← hinv1] at ha
            have hq' : newLocation.path ∉ s.2.2 := by simpa using hq
            exact hq' ha
        · intro p hp
          show p ∈ (s.2.1 ++ [newLocation]).map VFile.path
          simp only [List.map_append, List.mem_append]
          exact Or.inl hp
    | none =>
      rw [part2Step_missing hskip hs]
      refine ⟨?_, ?_, ?_⟩
      · show dbGet (dbUpdate s.1 e.1 (fun t =>
          { t with pending_changes := t.pending_changes ++
              [⟨Source.loc, now, deletedChangeset⟩] })) tid₀ = dbGet s.1 tid₀
        exact dbGet_dbUpdate_ne hne
      · intro h
        exact h
      · intro p hp
        exact hp

theorem part2_fold_preserves {filePath : String} {now : Int} {allFiles : List VFile}
    {tidsInFile : List String} (tid₀ : String) :
    ∀ (l : List (String × TaskInDB))
      (s : List (String × TaskInDB) × List VFile × List String),
    (∀ e ∈ l, e.1 ≠ tid₀) →
    dbGet (l.foldl (part2Step filePath now allFiles tidsInFile) s).1 tid₀ =
      dbGet s.1 tid₀ ∧
    (QueueInv s → QueueInv (l.foldl (part2Step filePath now allFiles tidsInFile) s)) ∧
    (∀ p, p ∈ s.2.1.map VFile.path →
      p ∈ (l.foldl (part2Step filePath now allFiles tidsInFile) s).2.1.map VFile.path) := by
  intro l
  induction l with
  | nil => exact fun s _ => ⟨rfl, fun h => h, fun p hp => hp⟩
  | cons e rest ih =>
    intro s hall
    have hstep := @part2Step_preserves filePath now allFiles tidsInFile s e tid₀
      (hall e (List.mem_cons_self e rest))
    have hrest := ih (part2Step filePath now allFiles tidsInFile s e)
      (fun x hx => hall x (List.mem_cons.mpr (Or.inr hx)))
    simp only [List.foldl_cons]
    exact ⟨hrest.1.trans hstep.1, fun h => hrest.2.1 (hstep.2.1 h),
      fun p hp => hrest.2.2 p (hstep.2.2 p hp)⟩

/-- C6: for a record the store assigns to the document whose id is neither
among the document's task lines nor among the ids created in this pass, the
bidirectional check searches the other sync-enabled documents.  If the id
is found in another document, the record's stored path becomes that
document's path and the document is enqueued for its own reconciliation
pass unless already queued (the queue stays duplicate-free); if it is found
nowhere, a local-origin pending change with `deleted: true` is appended. -/
theorem C6_bidirectional_check (filePath : String) (now : Int) (allFiles : List VFile)
    (tidsInFile : List String) (db : List (String × TaskInDB)) (files : List VFile)
    (queuedPaths : List String) (tid₀ : String) (rec₀ : TaskInDB)
    (hkeys : (db.map Prod.fst).Nodup)
    (hmem : (tid₀, rec₀) ∈ db)
    (hpath : rec₀.filepath = filePath)
    (hnot : tidsInFile.contains tid₀ = false)
    (hq : queuedPaths = files.map VFile.path)
    (hfnodup : (files.map VFile.path).Nodup) :
    (∀ f, searchVaultForTID tid₀ allFiles filePath = some f →
      dbGet (part2 filePath now allFiles tidsInFile db files queuedPaths).1 tid₀ =
        some { rec₀ with filepath := f.path } ∧
      f ∈ allFiles ∧ f.syncEnabled = true ∧ f.path ≠ filePath ∧
      containsTid f.content tid₀ = true ∧
      f.path ∈ (part2 filePath now allFiles tidsInFile db files
        queuedPaths).2.1.map VFile.path ∧
      ((part2 filePath now allFiles tidsInFile db files
        queuedPaths).2.1.map VFile.path).Nodup) ∧
    (searchVaultForTID tid₀ allFiles filePath = none →
      dbGet (part2 filePath now allFiles tidsInFile db files queuedPaths).1 tid₀ =
        some { rec₀ with pending_changes := rec₀.pending_changes ++
          [⟨Source.loc, now, deletedChangeset⟩] }) := by
  have hLmem : (tid₀, rec₀) ∈ db.filter (fun p => p.2.filepath == filePath) :=
    List.mem_filter.mpr ⟨hmem, by simp [hpath]⟩
  obtain ⟨l₁, l₂, hsplit⟩ := List.append_of_mem hLmem
  have hLkeys : ((db.filter (fun p => p.2.filepath == filePath)).map Prod.fst).Nodup :=
    hkeys.sublist (List.Sublist.map Prod.fst (List.filter_sublist db))
  rw [hsplit] at hLkeys
  simp only [List.map_append, List.map_cons] at hLkeys
  rw [List.nodup_append] at hLkeys
  have hd1 : ∀ e ∈ l₁, e.1 ≠ tid₀ := by
    intro e he heq
    exact hLkeys.2.2 (List.mem_map.mpr ⟨e, he, rfl⟩)
      (by rw [heq]; exact List.mem_cons_self _ _)
  have hd2 : ∀ e ∈ l₂, e.1 ≠ tid₀ := by
    intro e he heq
    have := (List.nodup_cons.mp hLkeys.2.1).1
    exact this (heq ▸ List.mem_map.mpr ⟨e, he, rfl⟩)
  have hinit : dbGet db tid₀ = some rec₀ := dbGet_of_mem_nodup hkeys hmem
  have hinv0 : QueueInv (db, files, queuedPaths) := ⟨hq, hfnodup⟩
  have hA := @part2_fold_preserves filePath now allFiles tidsInFile tid₀ l₁
    (db, files, queuedPaths) hd1
  set s₁ := l₁.foldl (part2Step filePath now allFiles tidsInFile)
    (db, files, queuedPaths) with hs₁
  have hA1 : dbGet s₁.1 tid₀ = some rec₀ := hA.1.trans hinit
  have hA2 : QueueInv s₁ := hA.2.1 hinv0
  have hpart2 : part2 filePath now allFiles tidsInFile db files queuedPaths =
      l₂.foldl (part2Step filePath now allFiles tidsInFile)
        (part2Step filePath now allFiles tidsInFile s₁ (tid₀, rec₀)) := by
    rw [part2, hsplit, List.foldl_append, List.foldl_cons]
  constructor
  · intro f hs
    obtain ⟨hfa, hfp, hfe, hfc⟩ := searchVaultForTID_some hs
    have hstep : ∃ s₂ : List (String × TaskInDB) × List VFile × List String,
        part2Step filePath now allFiles tidsInFile s₁ (tid₀, rec₀) = s₂ ∧
        dbGet s₂.1 tid₀ = some { rec₀ with filepath := f.path } ∧
        QueueInv s₂ ∧ f.path ∈ s₂.2.1.map VFile.path := by
      cases hq2 : s₁.2.2.contains f.path with
      | true =>
        refine ⟨_, part2Step_found_queued hnot hs hq2, ?_, hA2, ?_⟩
        · show dbGet (dbUpdate s₁.1 tid₀ (fun t => { t with filepath := f.path }))
            tid₀ = _
          rw [dbGet_dbUpdate_eq, hA1]
          rfl
        · show f.path ∈ s₁.2.1.map VFile.path
          rw [← hA2.1]
          simpa using hq2
      | false =>
        refine ⟨_, part2Step_found_new hnot hs hq2, ?_, ?_, ?_⟩
        · show dbGet (dbUpdate s₁.1 tid₀ (fun t => { t with filepath := f.path }))
            tid₀ = _
          rw [dbGet_dbUpdate_eq, hA1]
          rfl
        · constructor
          · show s₁.2.2 ++ [f.path] = (s₁.2.1 ++ [f]).map VFile.path
            simp only [List.map_append, List.map_cons, List.map_nil]
            rw [hA2.1]
          · show ((s₁.2.1 ++ [f]).map VFile.path).Nodup
            simp only [List.map_append, List.map_cons, List.map_nil]
            rw [List.nodup_append]
            refine ⟨hA2.2, List.nodup_singleton _, ?_⟩
            intro a ha hb
            simp only [List.mem_singleton] at hb
            subst hb
            rw [← hA2.1] at ha
            have hq2' : f.path ∉ s₁.2.2 := by simpa using hq2
            exact hq2' ha
        · show f.path ∈ (s₁.2.1 ++ [f]).map VFile.path
          simp
    obtain ⟨s₂, hs₂, hdb₂, hinv₂, hfpath₂⟩ := hstep
    have hC := @part2_fold_preserves filePath now allFiles tidsInFile tid₀ l₂ s₂ hd2
    rw [hpart2, hs₂]
    exact ⟨hC.1.trans hdb₂, hfa, hfe, hfp, hfc, hC.2.2 f.path hfpath₂,
      (hC.2.1 hinv₂).2⟩
  · intro hs
    have hstep := @part2Step_missing filePath now allFiles tidsInFile s₁
      (tid₀, rec₀) hnot hs
    have hC := @part2_fold_preserves filePath now allFiles tidsInFile tid₀ l₂
      (part2Step filePath now allFiles tidsInFile s₁ (tid₀, rec₀)) hd2
    rw [hpart2]
    refine hC.1.trans ?_
    rw [hstep]
    show dbGet (dbUpdate s₁.1 tid₀ (fun t =>
      { t with pending_changes := t.pending_changes ++
          [⟨Source.loc, now, deletedChangeset⟩] })) tid₀ = _
    rw [dbGet_dbUpdate_eq, hA1]
    rfl

/-! ## Hierarchical creation: id write-back and ghost cleanup (C3)

The Phase-2 write-back matches created ids to lines by exact parsed
content; the per-level creation results populate `contentToTid` with
`Map.set`, and every map entry whose id was never written back is deleted
remotely as a ghost. -/

/-- `getIndentLevel`: tabs count one level each, every two remaining
whitespace characters count one more. -/
def getIndentLevel (cs : List Char) : Nat :=
  let whitespace := cs.takeWhile isWsChar
  (whitespace.filter (fun c => c = '\t')).length +
    (whitespace.filter (fun c => ¬ c = '\t')).length / 2

/-- `buildIndent`: the indent unit repeated. -/
def buildIndent (level : Nat) (indentUnit : String) : List Char :=
  (List.replicate level indentUnit.data).flatten

/-- `buildTaskLineWithIndent`: the built line, stripped of leading
whitespace, behind the computed indent. -/
def buildTaskLineWithIndent (taskData : TaskData) (frontmatterLabels : List String)
    (indent : Nat) (indentUnit : String) : String :=
  String.mk (buildIndent indent indentUnit ++
    (buildTaskLine taskData frontmatterLabels).data.dropWhile isWsChar)

/-- One level's `contentToTid` population: each task whose temp id resolved
to a real id overwrites the entry for its parsed content (`Map.set`). -/
def levelContentToTid (levelTasks : List ScannedTask) (tidFor : Nat → Option String)
    (m : List (String × String)) : List (String × String) :=
  levelTasks.enum.foldl (fun acc p =>
    match tidFor p.1 with
    | some realTID => mapSet acc (String.mk (parseTaskContent p.2.line.data)) realTID
    | none => acc) m

/-- The ids the level's batch actually created remotely. -/
def levelCreatedTids (levelTasks : List ScannedTask) (tidFor : Nat → Option String) :
    List String :=
  levelTasks.enum.filterMap (fun p => tidFor p.1)

/-- The id write-back scan: lines already carrying an id, unparsable lines
and unmapped contents stay untouched; the first line whose content maps to
a not-yet-written id is rebuilt with that id; later identical lines are
skipped.  Returns the new lines and the written ids. -/
def writeTidsBack (lines : List String) (contentToTid : List (String × String))
    (frontmatterLabels : List String) (indentUnit : String) :
    List String × List String :=
  lines.foldl (fun acc line =>
    if (extractTID line.data).isSome then (acc.1 ++ [line], acc.2)
    else
      match parseTaskLine line with
      | none => (acc.1 ++ [line], acc.2)
      | some taskData =>
        match mapGet contentToTid (String.mk (parseTaskContent line.data)) with
        | none => (acc.1 ++ [line], acc.2)
        | some realTID =>
          if acc.2.contains realTID then (acc.1 ++ [line], acc.2)
          else
            (acc.1 ++ [buildTaskLineWithIndent { taskData with tid := some realTID }
                frontmatterLabels (getIndentLevel line.data) indentUnit],
             acc.2 ++ [realTID])) ([], [])

/-- The ghost-cleanup pass: every `contentToTid` entry whose id was not
written back is deleted remotely. -/
def ghostDeletes (contentToTid : List (String × String)) (written : List String) :
    List String :=
  (contentToTid.filter (fun p => ¬ written.contains p.2)).map (·.2)

/-- C3 evaluated at the failing input: two byte-identical new task lines.
Both are created remotely (ids A and B), but `Map.set` overwrites the
content's entry, so the map retains only B; the first line receives id B,
the second line receives no id — and the ghost-cleanup pass, which only
sees the map's surviving entry B (already written), deletes nothing: the
remote task A stays orphaned, contradicting the claimed cleanup. -/
theorem C3_duplicate_lines_orphan_not_deleted :
    levelCreatedTids
      [⟨0, "- [ ] Buy milk", none, none, none⟩, ⟨1, "- [ ] Buy milk", none, none, none⟩]
      (fun i => if i = 0 then some "A" else if i = 1 then some "B" else none) =
      ["A", "B"] ∧
    levelContentToTid
      [⟨0, "- [ ] Buy milk", none, none, none⟩, ⟨1, "- [ ] Buy milk", none, none, none⟩]
      (fun i => if i = 0 then some "A" else if i = 1 then some "B" else none) [] =
      [("Buy milk", "B")] ∧
    (writeTidsBack ["- [ ] Buy milk", "- [ ] Buy milk"] [("Buy milk", "B")] [] "\t").2 =
      ["B"] ∧
    (writeTidsBack ["- [ ] Buy milk", "- [ ] Buy milk"]
        [("Buy milk", "B")] [] "\t").1.map (fun l => extractTID l.data) =
      [some (litOf "B"), none] ∧
    ghostDeletes [("Buy milk", "B")] ["B"] = [] := by
  refine ⟨by decide, by decide, by decide, by decide, by decide⟩

/-- C6 witness: a record missing from its document and found in another
sync-enabled document gets its stored path updated there and that document
enqueued. -/
theorem C6_bidirectional_check_witness :
    dbGet (part2 "x.md" 777 [⟨"y.md", true,
        "- [ ] M #tdsync %%[tid:: [T9](https://app.todoist.com/app/task/T9)]%%"⟩]
      [] [("T9", ⟨"T9", "x.md", "M", false, none, none, none, none, none,
        ["tdsync"], none, 5, []⟩)] [] []).1 "T9" =
      some ⟨"T9", "y.md", "M", false, none, none, none, none, none,
        ["tdsync"], none, 5, []⟩ ∧
    "y.md" ∈ (part2 "x.md" 777 [⟨"y.md", true,
        "- [ ] M #tdsync %%[tid:: [T9](https://app.todoist.com/app/task/T9)]%%"⟩]
      [] [("T9", ⟨"T9", "x.md", "M", false, none, none, none, none, none,
        ["tdsync"], none, 5, []⟩)] [] []).2.1.map VFile.path := by
  have h := (C6_bidirectional_check "x.md" 777
    [⟨"y.md", true,
      "- [ ] M #tdsync %%[tid:: [T9](https://app.todoist.com/app/task/T9)]%%"⟩]
    [] [("T9", ⟨"T9", "x.md", "M", false, none, none, none, none, none,
      ["tdsync"], none, 5, []⟩)] [] [] "T9"
    ⟨"T9", "x.md", "M", false, none, none, none, none, none, ["tdsync"], none, 5, []⟩
    (by decide) (by decide) rfl rfl rfl (by decide)).1
    ⟨"y.md", true,
      "- [ ] M #tdsync %%[tid:: [T9](https://app.todoist.com/app/task/T9)]%%"⟩
    (by decide)
  exact ⟨h.1, h.2.2.2.2.2.1⟩

/-! ## Codec round-trip (C9): lemma toolkit

Generic facts about the matcher combinators, used to compute the parse of a
built line symbolically. -/

theorem dropLit_append (lit rest : List Char) : dropLit lit (lit ++ rest) = some rest := by
  induction lit with
  | nil => rfl
  | cons l ls ih =>
    simp only [List.cons_append, dropLit, if_pos rfl]
    exact ih

theorem dropLit_eq_some {lit cs rest : List Char} (h : dropLit lit cs = some rest) :
    cs = lit ++ rest := by
  induction lit generalizing cs with
  | nil =>
    simp only [dropLit, Option.some.injEq] at h
    rw [h]
    rfl
  | cons l ls ih =>
    match cs with
    | [] => exact Option.noConfusion h
    | c :: cs' =>
      simp only [dropLit] at h
      by_cases hc : c = l
      · rw [if_pos hc] at h
        rw [hc, List.cons_append, ih h]
      · rw [if_neg hc] at h
        exact Option.noConfusion h

theorem dropWhile_cons_neg {p : Char → Bool} {c : Char} {cs : List Char}
    (h : p c = false) : (c :: cs).dropWhile p = c :: cs := by
  simp [List.dropWhile_cons, h]

theorem dropWhile_append_left {p : Char → Bool} {xs : List Char} (ys : List Char)
    (h : ∃ c ∈ xs, p c = false) :
    (xs ++ ys).dropWhile p = xs.dropWhile p ++ ys := by
  rw [List.dropWhile_append]
  have hne : ¬ (xs.dropWhile p).isEmpty = true := by
    obtain ⟨c, hc, hpc⟩ := h
    simp only [List.isEmpty_iff]
    rw [List.dropWhile_eq_nil_iff]
    intro hall
    rw [hall c hc] at hpc
    exact Bool.noConfusion hpc
  rw [if_neg hne]

theorem getLast?_mem' : ∀ {xs : List Char} {e : Char}, xs.getLast? = some e → e ∈ xs := by
  intro xs
  induction xs with
  | nil => intro e h; exact Option.noConfusion h
  | cons c cs ih =>
    intro e h
    match cs with
    | [] =>
      simp only [List.getLast?_singleton, Option.some.injEq] at h
      simp [h]
    | d :: ds =>
      rw [List.getLast?_cons_cons] at h
      exact List.mem_cons.mpr (Or.inr (ih h))

theorem exists_not_ws_of_getLast {xs : List Char} {e : Char}
    (h : xs.getLast? = some e) (he : isWsChar e = false) :
    ∃ c ∈ xs, isWsChar c = false :=
  ⟨e, getLast?_mem' h, he⟩

theorem getLast?_of_suffix {zs xs : List Char} (h : zs <:+ xs) (hz : zs ≠ []) :
    xs.getLast? = zs.getLast? := by
  obtain ⟨t, ht⟩ := h
  rw [← ht, List.getLast?_append]
  have := List.getLast?_isSome.mpr hz
  match hg : zs.getLast? with
  | some e => rfl
  | none => rw [hg] at this; exact Bool.noConfusion this

theorem suffix_of_suffix_cons {zs xs : List Char} {c : Char} (h : zs <:+ xs) :
    zs <:+ c :: xs :=
  h.trans (List.suffix_cons c xs)

theorem firstSome_cons_none {α : Type} {f : List Char → Option α} {c : Char}
    {cs : List Char} (h : f (c :: cs) = none) :
    firstSome f (c :: cs) = firstSome f cs := by
  simp [firstSome, h]

theorem firstSome_cons_some {α : Type} {f : List Char → Option α} {c : Char}
    {cs : List Char} {r : α} (h : f (c :: cs) = some r) :
    firstSome f (c :: cs) = some r := by
  simp [firstSome, h]

theorem firstSome_append_skip {α : Type} {f : List Char → Option α} {xs : List Char}
    (ys : List Char) (h : ∀ zs, zs ≠ [] → zs <:+ xs → f (zs ++ ys) = none) :
    firstSome f (xs ++ ys) = firstSome f ys := by
  induction xs with
  | nil => rfl
  | cons c cs ih =>
    have h0 : f (c :: (cs ++ ys)) = none := by
      simpa using h (c :: cs) (by simp) (List.suffix_refl _)
    rw [List.cons_append, firstSome_cons_none h0,
      ih (fun zs hz hs => h zs hz (suffix_of_suffix_cons hs))]

theorem firstSome_eq_none {α : Type} {f : List Char → Option α} {cs : List Char}
    (h : ∀ zs, zs <:+ cs → f zs = none) : firstSome f cs = none := by
  induction cs with
  | nil =>
    show f [] = none
    exact h [] List.nil_suffix
  | cons c cs ih =>
    rw [firstSome_cons_none (h (c :: cs) (List.suffix_refl _))]
    exact ih (fun zs hs => h zs (suffix_of_suffix_cons hs))

theorem dfms_eq_self {m : List Char → Bool} {cs : List Char}
    (h : ∀ zs, zs ≠ [] → zs <:+ cs → m zs = false) :
    dropFirstMatchingSuffix m cs = cs := by
  induction cs with
  | nil => rfl
  | cons c cs ih =>
    rw [dropFirstMatchingSuffix,
      if_neg (by rw [h (c :: cs) (by simp) (List.suffix_refl _)]; simp)]
    rw [ih (fun zs hz hs => h zs hz (suffix_of_suffix_cons hs))]

theorem dfms_append {m : List Char → Bool} {xs ys : List Char} (hys : m ys = true)
    (hxs : ∀ zs, zs ≠ [] → zs <:+ xs → m (zs ++ ys) = false) :
    dropFirstMatchingSuffix m (xs ++ ys) = xs := by
  induction xs with
  | nil =>
    match ys with
    | [] => rfl
    | c :: cs =>
      show dropFirstMatchingSuffix m (c :: cs) = []
      rw [dropFirstMatchingSuffix, if_pos hys]
  | cons x xs ih =>
    have h0 : m (x :: (xs ++ ys)) = false := by
      simpa using hxs (x :: xs) (by simp) (List.suffix_refl _)
    rw [List.cons_append, dropFirstMatchingSuffix, if_neg (by simp [h0])]
    rw [ih (fun zs hz hs => hxs zs hz (suffix_of_suffix_cons hs))]

/-! Character-class arithmetic: each class as a statement about code
points, so that `omega` can separate classes from marker characters. -/

theorem char_eq_iff (c d : Char) : (c = d) ↔ c.toNat = d.toNat := by
  constructor
  · intro h; rw [h]
  · intro h; apply Char.ext; apply UInt32.ext; simpa [Char.toNat] using h

theorem char_ne_of_toNat {c d : Char} (h : c.toNat ≠ d.toNat) : c ≠ d :=
  fun he => h (by rw [he])

theorem isWsChar_iff (c : Char) : isWsChar c = true ↔
    c.toNat = 32 ∨ c.toNat = 9 ∨ c.toNat = 10 ∨ c.toNat = 13 ∨ c.toNat = 11 ∨
    c.toNat = 12 ∨ c.toNat = 0xa0 ∨ c.toNat = 0x1680 ∨
    (0x2000 ≤ c.toNat ∧ c.toNat ≤ 0x200a) ∨ c.toNat = 0x2028 ∨
    c.toNat = 0x2029 ∨ c.toNat = 0x202f ∨ c.toNat = 0x205f ∨
    c.toNat = 0x3000 ∨ c.toNat = 0xfeff := by
  simp only [isWsChar, Bool.or_eq_true, decide_eq_true_eq, Bool.and_eq_true, char_eq_iff,
    show (' ' : Char).toNat = 32 from rfl, show ('\t' : Char).toNat = 9 from rfl,
    show ('\n' : Char).toNat = 10 from rfl, show ('\r' : Char).toNat = 13 from rfl,
    show (Char.ofNat 0x0b).toNat = 11 from rfl, show (Char.ofNat 0x0c).toNat = 12 from rfl,
    show (Char.ofNat 0xa0).toNat = 0xa0 from rfl,
    show (Char.ofNat 0x1680).toNat = 0x1680 from rfl,
    show (Char.ofNat 0x2028).toNat = 0x2028 from rfl,
    show (Char.ofNat 0x2029).toNat = 0x2029 from rfl,
    show (Char.ofNat 0x202f).toNat = 0x202f from rfl,
    show (Char.ofNat 0x205f).toNat = 0x205f from rfl,
    show (Char.ofNat 0x3000).toNat = 0x3000 from rfl,
    show (Char.ofNat 0xfeff).toNat = 0xfeff from rfl]
  tauto

theorem isDigitChar_iff (c : Char) : isDigitChar c = true ↔
    48 ≤ c.toNat ∧ c.toNat ≤ 57 := by
  simp only [isDigitChar, Bool.and_eq_true, decide_eq_true_eq]
  exact Iff.rfl

theorem isWordChar_iff (c : Char) : isWordChar c = true ↔
    (97 ≤ c.toNat ∧ c.toNat ≤ 122) ∨ (65 ≤ c.toNat ∧ c.toNat ≤ 90) ∨
    (48 ≤ c.toNat ∧ c.toNat ≤ 57) ∨ c.toNat = 95 := by
  simp only [isWordChar, Bool.or_eq_true, Bool.and_eq_true, decide_eq_true_eq,
    isDigitChar_iff, char_eq_iff, show ('_' : Char).toNat = 95 from rfl]
  tauto

theorem isLabelChar_iff (c : Char) : isLabelChar c = true ↔
    (97 ≤ c.toNat ∧ c.toNat ≤ 122) ∨ (65 ≤ c.toNat ∧ c.toNat ≤ 90) ∨
    (48 ≤ c.toNat ∧ c.toNat ≤ 57) ∨ c.toNat = 95 ∨ c.toNat = 45 := by
  simp only [isLabelChar, Bool.or_eq_true, decide_eq_true_eq, isWordChar_iff, char_eq_iff,
    show ('-' : Char).toNat = 45 from rfl]
  tauto

theorem isAlnumChar_iff (c : Char) : isAlnumChar c = true ↔
    (97 ≤ c.toNat ∧ c.toNat ≤ 122) ∨ (65 ≤ c.toNat ∧ c.toNat ≤ 90) ∨
    (48 ≤ c.toNat ∧ c.toNat ≤ 57) := by
  simp only [isAlnumChar, Bool.or_eq_true, Bool.and_eq_true, decide_eq_true_eq,
    isDigitChar_iff]
  tauto

theorem labelChar_not_ws {c : Char} (h : isLabelChar c = true) : isWsChar c = false := by
  cases hw : isWsChar c with
  | false => rfl
  | true =>
    rw [isWsChar_iff] at hw
    rw [isLabelChar_iff] at h
    omega

theorem digitChar_not_ws {c : Char} (h : isDigitChar c = true) : isWsChar c = false := by
  cases hw : isWsChar c with
  | false => rfl
  | true =>
    rw [isWsChar_iff] at hw
    rw [isDigitChar_iff] at h
    omega

theorem alnumChar_not_ws {c : Char} (h : isAlnumChar c = true) : isWsChar c = false := by
  cases hw : isWsChar c with
  | false => rfl
  | true =>
    rw [isWsChar_iff] at hw
    rw [isAlnumChar_iff] at h
    omega

def plainChar (c : Char) : Bool :=
  ¬(c = '#' ∨ c = '%' ∨ c = '!' ∨ c = hourglassChar ∨ c = clockChar ∨
    c = calChar ∨ c = cal2Char ∨ c = upChar ∨ c = downChar ∨
    c = medUpChar ∨ c = medDownChar)

theorem plainChar_spec {c : Char} (h : plainChar c = true) :
    c ≠ '#' ∧ c ≠ '%' ∧ c ≠ '!' ∧ c ≠ hourglassChar ∧ c ≠ clockChar ∧
    c ≠ calChar ∧ c ≠ cal2Char ∧ c ≠ upChar ∧ c ≠ downChar ∧
    c ≠ medUpChar ∧ c ≠ medDownChar := by
  simp only [plainChar, decide_eq_true_eq] at h
  tauto


/-! Scanning helpers for the codec proofs. -/

theorem drop_takeWhile_len (p : Char → Bool) (cs : List Char) :
    cs.drop (cs.takeWhile p).length = cs.dropWhile p := by
  induction cs with
  | nil => rfl
  | cons c cs ih =>
    cases hp : p c
    · simp [List.takeWhile_cons, List.dropWhile_cons, hp]
    · simp [List.takeWhile_cons, List.dropWhile_cons, hp, ih]

theorem takeWhile_all {p : Char → Bool} {xs : List Char} (h : ∀ c ∈ xs, p c = true) :
    xs.takeWhile p = xs := by
  induction xs with
  | nil => rfl
  | cons c cs ih =>
    rw [List.takeWhile_cons, h c (List.mem_cons_self c cs)]
    simp [ih (fun x hx => h x (List.mem_cons_of_mem c hx))]

theorem takeWhile_append_all {p : Char → Bool} {xs : List Char} (ys : List Char)
    (h : ∀ c ∈ xs, p c = true) :
    (xs ++ ys).takeWhile p = xs ++ ys.takeWhile p := by
  induction xs with
  | nil => rfl
  | cons c cs ih =>
    rw [List.cons_append, List.takeWhile_cons, h c (List.mem_cons_self c cs)]
    simp [ih (fun x hx => h x (List.mem_cons_of_mem c hx))]

theorem takeWhile_cons_neg {p : Char → Bool} {c : Char} {cs : List Char}
    (h : p c = false) : (c :: cs).takeWhile p = [] := by
  simp [List.takeWhile_cons, h]

theorem dropWhile_all_nil {p : Char → Bool} {xs : List Char}
    (h : ∀ c ∈ xs, p c = true) : xs.dropWhile p = [] := by
  induction xs with
  | nil => rfl
  | cons c cs ih =>
    rw [List.dropWhile_cons, h c (List.mem_cons_self c cs)]
    exact ih (fun x hx => h x (List.mem_cons_of_mem c hx))

theorem dropWhile_append_all {p : Char → Bool} {xs : List Char} (ys : List Char)
    (h : ∀ c ∈ xs, p c = true) :
    (xs ++ ys).dropWhile p = ys.dropWhile p := by
  rw [List.dropWhile_append, if_pos (by rw [dropWhile_all_nil h]; rfl)]

theorem filter_ws_nil {l : List Char} (h : ∀ c ∈ l, isWsChar c = true) :
    l.filter (fun c => !(isWsChar c)) = [] := by
  induction l with
  | nil => rfl
  | cons c cs ih =>
    rw [List.filter_cons, h c (List.mem_cons_self c cs)]
    exact ih (fun x hx => h x (List.mem_cons_of_mem c hx))

theorem dropWhile_ws_shape {zs : List Char} (h : ∃ c ∈ zs, isWsChar c = false) :
    ∃ c0 t, zs.dropWhile isWsChar = c0 :: t ∧ c0 ∈ zs ∧ isWsChar c0 = false := by
  induction zs with
  | nil =>
    obtain ⟨c, hc, _⟩ := h
    cases hc
  | cons c cs ih =>
    cases hp : isWsChar c with
    | true =>
      have h2 : ∃ x ∈ cs, isWsChar x = false := by
        obtain ⟨x, hx, hxf⟩ := h
        cases List.mem_cons.mp hx with
        | inl he =>
          subst he
          rw [hp] at hxf
          exact absurd hxf (by simp)
        | inr hm => exact ⟨x, hm, hxf⟩
      obtain ⟨c0, t, h1, hmem, h3⟩ := ih h2
      refine ⟨c0, t, ?_, List.mem_cons_of_mem c hmem, h3⟩
      rw [List.dropWhile_cons, hp]
      exact h1
    | false =>
      exact ⟨c, cs, by rw [List.dropWhile_cons, hp]; rfl,
        List.mem_cons_self c cs, hp⟩

theorem suffix_append_cases {zs xs ys : List Char} (h : zs <:+ xs ++ ys) :
    zs <:+ ys ∨ ∃ zs2, zs = zs2 ++ ys ∧ zs2 <:+ xs := by
  induction xs with
  | nil => exact Or.inl (by simpa using h)
  | cons x xs ih =>
    rw [List.cons_append] at h
    rcases List.suffix_cons_iff.mp h with he | hs
    · exact Or.inr ⟨x :: xs, by simpa using he, List.suffix_refl _⟩
    · rcases ih hs with h1 | ⟨zs2, h2, h3⟩
      · exact Or.inl h1
      · exact Or.inr ⟨zs2, h2, h3.trans (List.suffix_cons x xs)⟩

theorem lastNonWs_append {xs ys : List Char}
    (hy : ∃ e, ys.getLast? = some e ∧ isWsChar e = false) :
    ∃ e, (xs ++ ys).getLast? = some e ∧ isWsChar e = false := by
  obtain ⟨e, he, hw⟩ := hy
  have hne : ys ≠ [] := by
    intro h
    subst h
    exact Option.noConfusion he
  refine ⟨e, ?_, hw⟩
  rw [getLast?_of_suffix (List.suffix_append xs ys) hne]
  exact he

theorem lastNonWs_append_opt {xs ys : List Char}
    (hx : ∃ e, xs.getLast? = some e ∧ isWsChar e = false)
    (hy : ys = [] ∨ ∃ e, ys.getLast? = some e ∧ isWsChar e = false) :
    ∃ e, (xs ++ ys).getLast? = some e ∧ isWsChar e = false := by
  rcases hy with rfl | hy
  · simpa using hx
  · exact lastNonWs_append hy

theorem head_space_append {S R : List Char}
    (hS : S = [] ∨ ∃ b, S = ' ' :: b) (hR : R.head? = some ' ') :
    (S ++ R).head? = some ' ' := by
  rcases hS with rfl | ⟨b, rfl⟩
  · simpa using hR
  · rfl

theorem mk_data (s : String) : String.mk s.data = s := by
  cases s
  rfl

theorem string_ne_empty {s : String} (h : s.data ≠ []) : s ≠ "" := by
  intro he
  subst he
  exact h rfl


/-! Head-character refutation lemmas: each matcher needs its marker
character at the head of the whitespace-stripped input. -/

theorem dropLit_head_ne {l : Char} {ls : List Char} {c : Char} {t : List Char}
    (hc : c ≠ l) : dropLit (l :: ls) (c :: t) = none := by
  simp [dropLit, hc]

theorem mTid_false {cs : List Char} {c0 : Char} {t : List Char}
    (hd : cs.dropWhile isWsChar = c0 :: t) (hc : c0 ≠ '%') : mTid cs = false := by
  have hn : dropLit (litOf "%%[tid::") (cs.dropWhile isWsChar) = none := by
    rw [hd]
    show dropLit ('%' :: litOf "%[tid::") (c0 :: t) = none
    exact dropLit_head_ne hc
  simp only [mTid, hn]

theorem mDur1_false {cs : List Char} {c0 : Char} {t : List Char}
    (hd : cs.dropWhile isWsChar = c0 :: t) (hc : c0 ≠ hourglassChar) :
    mDur1 cs = false := by
  simp only [mDur1, hd]
  rw [if_neg hc]

theorem mDur2_false {cs : List Char} {c0 : Char} {t : List Char}
    (hd : cs.dropWhile isWsChar = c0 :: t) (hc : c0 ≠ hourglassChar) :
    mDur2 cs = false := by
  simp only [mDur2, hd]
  rw [if_neg hc]

theorem mTime_false {cs : List Char} {c0 : Char} {t : List Char}
    (hd : cs.dropWhile isWsChar = c0 :: t) (hc : c0 ≠ clockChar) :
    mTime cs = false := by
  simp only [mTime, hd]
  rw [if_neg hc]

theorem dropDateEmoji_none {c0 : Char} {t : List Char}
    (h1 : c0 ≠ calChar) (h2 : c0 ≠ cal2Char) : dropDateEmoji (c0 :: t) = none := by
  match t with
  | [] => simp [dropDateEmoji, h2]
  | c2 :: r => simp [dropDateEmoji, h1, h2]

theorem mDate_false {cs : List Char} {c0 : Char} {t : List Char}
    (hd : cs.dropWhile isWsChar = c0 :: t) (h1 : c0 ≠ calChar) (h2 : c0 ≠ cal2Char) :
    mDate cs = false := by
  have hn : dropDateEmoji (cs.dropWhile isWsChar) = none := by
    rw [hd]
    exact dropDateEmoji_none h1 h2
  simp only [mDate, hn]

theorem mPrioExpl_false {cs : List Char} {c0 : Char} {t : List Char}
    (hd : cs.dropWhile isWsChar = c0 :: t) (hc : c0 ≠ '!') : mPrioExpl cs = false := by
  match t with
  | [] => simp [mPrioExpl, hd]
  | [c2] => simp [mPrioExpl, hd]
  | c2 :: c3 :: r =>
    simp only [mPrioExpl, hd]
    rw [if_neg (by simp [hc])]

theorem mPrioEmoji_false {cs : List Char} {c0 : Char} {t : List Char}
    (hd : cs.dropWhile isWsChar = c0 :: t)
    (hc : ¬(c0 = upChar ∨ c0 = downChar ∨ c0 = medUpChar ∨ c0 = medDownChar)) :
    mPrioEmoji cs = false := by
  simp only [mPrioEmoji, hd]
  rw [if_neg hc]

theorem hashMatchLen_none {cs : List Char} {c0 : Char} {t : List Char}
    (hd : cs.dropWhile isWsChar = c0 :: t) (hc : c0 ≠ '#') :
    hashMatchLen cs = none := by
  simp only [hashMatchLen, drop_takeWhile_len, hd]
  rw [if_neg hc]

theorem extractTIDAt_none {c : Char} {t : List Char} (hc : c ≠ '%') :
    extractTIDAt (c :: t) = none := by
  have hn : dropLit (litOf "%%[tid:: [") (c :: t) = none := by
    show dropLit ('%' :: litOf "%[tid:: [") (c :: t) = none
    exact dropLit_head_ne hc
  simp only [extractTIDAt, hn]

theorem dueDateAt_none {c : Char} {t : List Char}
    (h1 : c ≠ calChar) (h2 : c ≠ cal2Char) : dueDateAt (c :: t) = none := by
  have hn := dropDateEmoji_none (t := t) h1 h2
  simp only [dueDateAt, hn]

theorem dueTimeAt_none {c : Char} {t : List Char} (hc : c ≠ clockChar) :
    dueTimeAt (c :: t) = none := by
  simp only [dueTimeAt]
  rw [if_neg hc]

theorem durCombinedAt_none {c : Char} {t : List Char} (hc : c ≠ hourglassChar) :
    durCombinedAt (c :: t) = none := by
  simp only [durCombinedAt]
  rw [if_neg hc]

theorem durHoursAt_none {c : Char} {t : List Char} (hc : c ≠ hourglassChar) :
    durHoursAt (c :: t) = none := by
  simp only [durHoursAt]
  rw [if_neg hc]

theorem durMinutesAt_none {c : Char} {t : List Char} (hc : c ≠ hourglassChar) :
    durMinutesAt (c :: t) = none := by
  simp only [durMinutesAt]
  rw [if_neg hc]

theorem prioExplAt_none {c : Char} {t : List Char} (hc : c ≠ '!') :
    prioExplAt (c :: t) = none := by
  match t with
  | [] => rfl
  | [c2] => rfl
  | c2 :: c3 :: r =>
    simp only [prioExplAt]
    rw [if_neg (by simp [hc])]

/-! Stage lemmas: stripping one end-anchored metadata suffix.  `P` is the
property of every character of the kept prefix that refutes the matcher. -/

theorem dfms_stage {m : List Char → Bool} {P : Char → Prop} {A S : List Char}
    (hF : ∀ cs c0 t, cs.dropWhile isWsChar = c0 :: t → P c0 → m cs = false)
    (hA : ∀ c ∈ A, P c)
    (hlast : ∃ e, A.getLast? = some e ∧ isWsChar e = false)
    (hm : m S = true) :
    dropFirstMatchingSuffix m (A ++ S) = A := by
  apply dfms_append hm
  intro zs hz hs
  obtain ⟨e, he, hw⟩ := hlast
  have hzl : zs.getLast? = some e := by rw [← getLast?_of_suffix hs hz, he]
  obtain ⟨c0, t, hdw, hmem, hc0w⟩ := dropWhile_ws_shape ⟨e, getLast?_mem' hzl, hw⟩
  have hdw2 : (zs ++ S).dropWhile isWsChar = c0 :: (t ++ S) := by
    rw [dropWhile_append_left S ⟨e, getLast?_mem' hzl, hw⟩, hdw]
    rfl
  exact hF (zs ++ S) c0 (t ++ S) hdw2 (hA c0 (hs.sublist.subset hmem))

theorem dfms_stage_none {m : List Char → Bool} {P : Char → Prop} {A : List Char}
    (hF : ∀ cs c0 t, cs.dropWhile isWsChar = c0 :: t → P c0 → m cs = false)
    (hA : ∀ c ∈ A, P c)
    (hlast : ∃ e, A.getLast? = some e ∧ isWsChar e = false) :
    dropFirstMatchingSuffix m A = A := by
  apply dfms_eq_self
  intro zs hz hs
  obtain ⟨e, he, hw⟩ := hlast
  have hzl : zs.getLast? = some e := by rw [← getLast?_of_suffix hs hz, he]
  obtain ⟨c0, t, hdw, hmem, hc0w⟩ := dropWhile_ws_shape ⟨e, getLast?_mem' hzl, hw⟩
  exact hF zs c0 t hdw (hA c0 (hs.sublist.subset hmem))

theorem dfms_stage_skip {m : List Char → Bool} {P : Char → Prop} {A S : List Char}
    (hF : ∀ cs c0 t, cs.dropWhile isWsChar = c0 :: t → P c0 → m cs = false)
    (hA : ∀ c ∈ A, P c)
    (hlast : ∃ e, A.getLast? = some e ∧ isWsChar e = false)
    (hS : ∀ zs, zs ≠ [] → zs <:+ S → m zs = false) :
    dropFirstMatchingSuffix m (A ++ S) = A ++ S := by
  apply dfms_eq_self
  intro zs hz hs
  rcases suffix_append_cases hs with h1 | ⟨zs2, rfl, h3⟩
  · exact hS zs hz h1
  · by_cases h0 : zs2 = []
    · subst h0
      exact hS S (by simpa using hz) (List.suffix_refl S)
    · obtain ⟨e, he, hw⟩ := hlast
      have hzl : zs2.getLast? = some e := by rw [← getLast?_of_suffix h3 h0, he]
      obtain ⟨c0, t, hdw, hmem, hc0w⟩ := dropWhile_ws_shape ⟨e, getLast?_mem' hzl, hw⟩
      have hdw2 : (zs2 ++ S).dropWhile isWsChar = c0 :: (t ++ S) := by
        rw [dropWhile_append_left S ⟨e, getLast?_mem' hzl, hw⟩, hdw]
        rfl
      exact hF (zs2 ++ S) c0 (t ++ S) hdw2 (hA c0 (h3.sublist.subset hmem))

/-! First-match lemmas for the position matchers on the whole line. -/

theorem firstSome_none_of_all {β : Type} {E : List Char → Option β} {P : Char → Prop}
    (hE : ∀ c t, P c → E (c :: t) = none) (hnil : E [] = none)
    {cs : List Char} (h : ∀ c ∈ cs, P c) : firstSome E cs = none := by
  apply firstSome_eq_none
  intro zs hs
  match zs with
  | [] => exact hnil
  | c :: t => exact hE c t (h c (hs.sublist.subset (List.mem_cons_self c t)))

theorem firstSome_only_at {β : Type} {E : List Char → Option β} {P : Char → Prop}
    (hE : ∀ c t, P c → E (c :: t) = none) (hnil : E [] = none)
    {X R : List Char} {mc : Char} (hX : ∀ c ∈ X, P c) (hR : ∀ c ∈ R, P c) :
    firstSome E (X ++ mc :: R) = E (mc :: R) := by
  rw [firstSome_append_skip]
  · cases hr : E (mc :: R) with
    | some v => exact firstSome_cons_some hr
    | none =>
      rw [firstSome_cons_none hr]
      exact firstSome_none_of_all hE hnil hR
  · intro zs hz hs
    match zs with
    | c :: t =>
      have hc : c ∈ X := hs.sublist.subset (List.mem_cons_self c t)
      show E (c :: (t ++ mc :: R)) = none
      exact hE c (t ++ mc :: R) (hX c hc)

/-! The `#tdsync` tag suffix: refuted by counting non-whitespace characters. -/

theorem mTdsync_filter {cs : List Char} (h : mTdsync cs = true) :
    cs.filter (fun c => !(isWsChar c)) = litOf "#tdsync" := by
  rw [mTdsync] at h
  cases hdl : dropLit (litOf "#tdsync") (cs.dropWhile isWsChar) with
  | none =>
    rw [hdl] at h
    exact Bool.noConfusion h
  | some r =>
    rw [hdl] at h
    have hr : ∀ c ∈ r, isWsChar c = true := by
      rw [List.isEmpty_iff, List.dropWhile_eq_nil_iff] at h
      exact h
    have hcs : cs = cs.takeWhile isWsChar ++ (litOf "#tdsync" ++ r) := by
      conv_lhs => rw [← List.takeWhile_append_dropWhile (p := isWsChar) (l := cs)]
      rw [dropLit_eq_some hdl]
    rw [hcs, List.filter_append, List.filter_append,
      filter_ws_nil (fun c hc => List.mem_takeWhile_imp hc), filter_ws_nil hr]
    simp
    decide

theorem mTdsync_extra_nonws {zs : List Char} (he : ∃ c ∈ zs, isWsChar c = false) :
    mTdsync (zs ++ ' ' :: litOf "#tdsync") = false := by
  cases hb : mTdsync (zs ++ ' ' :: litOf "#tdsync") with
  | false => rfl
  | true =>
    have hf := mTdsync_filter hb
    have hcc : List.filter (fun c => !(isWsChar c)) (' ' :: litOf "#tdsync") =
        litOf "#tdsync" := by decide
    rw [List.filter_append, hcc] at hf
    obtain ⟨c, hc, hw⟩ := he
    have hmem : c ∈ List.filter (fun c => !(isWsChar c)) zs :=
      List.mem_filter.mpr ⟨hc, by simp [hw]⟩
    have hlen := congrArg List.length hf
    rw [List.length_append] at hlen
    have h0 : (List.filter (fun c => !(isWsChar c)) zs).length = 0 := by omega
    rw [List.length_eq_zero] at h0
    rw [h0] at hmem
    cases hmem

theorem dfms_tdsync {A : List Char}
    (hlast : ∃ e, A.getLast? = some e ∧ isWsChar e = false) :
    dropFirstMatchingSuffix mTdsync (A ++ ' ' :: litOf "#tdsync") = A := by
  apply dfms_append (by decide)
  intro zs hz hs
  obtain ⟨e, he, hw⟩ := hlast
  have hzl : zs.getLast? = some e := by rw [← getLast?_of_suffix hs hz, he]
  exact mTdsync_extra_nonws ⟨e, getLast?_mem' hzl, hw⟩


/-! Decimal rendering: digits, value, shape. -/

theorem toNat_digit {k : Nat} (h : k < 10) :
    (Char.ofNat ('0'.toNat + k)).toNat = '0'.toNat + k := by
  interval_cases k <;> decide

theorem isDigit_ofNat {k : Nat} (h : k < 10) :
    isDigitChar (Char.ofNat ('0'.toNat + k)) = true := by
  interval_cases k <;> decide

theorem natToChars_digits (n : Nat) : ∀ c ∈ natToChars n, isDigitChar c = true := by
  induction n using Nat.strong_induction_on with
  | _ n ih =>
    rw [natToChars_eq]
    by_cases hn : n < 10
    · rw [if_pos hn]
      intro c hc
      rw [List.mem_singleton] at hc
      subst hc
      exact isDigit_ofNat hn
    · rw [if_neg hn]
      intro c hc
      rcases List.mem_append.mp hc with h1 | h2
      · exact ih (n / 10) (by omega) c h1
      · rw [List.mem_singleton] at h2
        subst h2
        exact isDigit_ofNat (Nat.mod_lt _ (by omega))

theorem natToChars_ne_nil (n : Nat) : natToChars n ≠ [] := by
  rw [natToChars_eq]
  by_cases hn : n < 10
  · rw [if_pos hn]
    simp
  · rw [if_neg hn]
    simp

theorem natToChars_shape (n : Nat) :
    ∃ d ds, natToChars n = d :: ds ∧ isDigitChar d = true := by
  cases h : natToChars n with
  | nil => exact absurd h (natToChars_ne_nil n)
  | cons d ds =>
    refine ⟨d, ds, rfl, natToChars_digits n d ?_⟩
    rw [h]
    exact List.mem_cons_self d ds

theorem digitsVal_append (ds : List Char) (c : Char) :
    digitsVal (ds ++ [c]) = digitsVal ds * 10 + (c.toNat - '0'.toNat) := by
  simp [digitsVal, List.foldl_append]

theorem digitsVal_natToChars (n : Nat) : digitsVal (natToChars n) = n := by
  induction n using Nat.strong_induction_on with
  | _ n ih =>
    rw [natToChars_eq]
    by_cases hn : n < 10
    · rw [if_pos hn]
      show 0 * 10 + ((Char.ofNat ('0'.toNat + n)).toNat - '0'.toNat) = n
      rw [toNat_digit hn]
      omega
    · rw [if_neg hn, digitsVal_append, ih (n / 10) (by omega),
        toNat_digit (Nat.mod_lt _ (by omega))]
      omega

/-! Evaluating the duration matchers on built duration text. -/

theorem takeWhile_digits_nat (n : Nat) {ys : List Char} {y : Char} {t : List Char}
    (hys : ys = y :: t) (hy : isDigitChar y = false) :
    (natToChars n ++ ys).takeWhile isDigitChar = natToChars n := by
  rw [takeWhile_append_all ys (natToChars_digits n), hys, takeWhile_cons_neg hy,
    List.append_nil]

theorem dropWhile_ws_digits (n : Nat) (ys : List Char) :
    (natToChars n ++ ys).dropWhile isWsChar = natToChars n ++ ys := by
  obtain ⟨d, ds, hsh, hd⟩ := natToChars_shape n
  rw [hsh, List.cons_append, dropWhile_cons_neg (digitChar_not_ws hd)]

theorem natToChars_isEmpty (n : Nat) : (natToChars n).isEmpty = false := by
  obtain ⟨d, ds, hsh, _⟩ := natToChars_shape n
  rw [hsh]
  rfl


theorem durCombinedAt_min (n : Nat) (R : List Char) :
    durCombinedAt (hourglassChar :: (natToChars n ++ (litOf "min" ++ R))) = none := by
  have h1 := dropWhile_ws_digits n (litOf "min" ++ R)
  have h2 : (natToChars n ++ (litOf "min" ++ R)).takeWhile isDigitChar = natToChars n :=
    takeWhile_digits_nat n rfl (by decide)
  have h3 : (natToChars n ++ (litOf "min" ++ R)).drop (natToChars n).length =
      litOf "min" ++ R := List.drop_left _ _
  simp only [durCombinedAt, if_pos, h1, h2, h3, natToChars_isEmpty]
  rfl

theorem durHoursAt_min (n : Nat) (R : List Char) :
    durHoursAt (hourglassChar :: (natToChars n ++ (litOf "min" ++ R))) = none := by
  have h1 := dropWhile_ws_digits n (litOf "min" ++ R)
  have h2 : (natToChars n ++ (litOf "min" ++ R)).takeWhile isDigitChar = natToChars n :=
    takeWhile_digits_nat n rfl (by decide)
  have h3 : (natToChars n ++ (litOf "min" ++ R)).drop (natToChars n).length =
      litOf "min" ++ R := List.drop_left _ _
  simp only [durHoursAt, if_pos, h1, h2, h3, natToChars_isEmpty]
  rfl

theorem durMinutesAt_min (n : Nat) {R : List Char} (hb : boundaryAfter R = true) :
    durMinutesAt (hourglassChar :: (natToChars n ++ (litOf "min" ++ R))) = some n := by
  have h1 := dropWhile_ws_digits n (litOf "min" ++ R)
  have h2 : (natToChars n ++ (litOf "min" ++ R)).takeWhile isDigitChar = natToChars n :=
    takeWhile_digits_nat n rfl (by decide)
  have h3 : (natToChars n ++ (litOf "min" ++ R)).drop (natToChars n).length =
      litOf "min" ++ R := List.drop_left _ _
  have h4 : dropLit (litOf "min") (litOf "min" ++ R) = some R := dropLit_append _ _
  simp only [durMinutesAt, if_pos, h1, h2, h3, natToChars_isEmpty, h4, hb, if_true,
    digitsVal_natToChars]
  rfl

theorem durCombinedAt_h (k : Nat) (R2 : List Char) :
    durCombinedAt (hourglassChar :: (natToChars k ++ ('h' :: (' ' :: '#' :: R2)))) =
      none := by
  have h1 := dropWhile_ws_digits k ('h' :: (' ' :: '#' :: R2))
  have h2 : (natToChars k ++ ('h' :: (' ' :: '#' :: R2))).takeWhile isDigitChar =
      natToChars k := takeWhile_digits_nat k rfl (by decide)
  have h3 : (natToChars k ++ ('h' :: (' ' :: '#' :: R2))).drop (natToChars k).length =
      'h' :: (' ' :: '#' :: R2) := List.drop_left _ _
  have h4 : (' ' :: '#' :: R2).dropWhile isWsChar = '#' :: R2 := by
    rw [List.dropWhile_cons]
    simp only [show isWsChar ' ' = true from rfl, if_true]
    exact dropWhile_cons_neg (by decide)
  simp only [durCombinedAt, if_pos, h1, h2, h3, natToChars_isEmpty, h4,
    takeWhile_cons_neg (show isDigitChar '#' = false from rfl)]
  rfl

theorem durHoursAt_h (k : Nat) (R2 : List Char) :
    durHoursAt (hourglassChar :: (natToChars k ++ ('h' :: (' ' :: '#' :: R2)))) =
      some (k * 60) := by
  have h1 := dropWhile_ws_digits k ('h' :: (' ' :: '#' :: R2))
  have h2 : (natToChars k ++ ('h' :: (' ' :: '#' :: R2))).takeWhile isDigitChar =
      natToChars k := takeWhile_digits_nat k rfl (by decide)
  have h3 : (natToChars k ++ ('h' :: (' ' :: '#' :: R2))).drop (natToChars k).length =
      'h' :: (' ' :: '#' :: R2) := List.drop_left _ _
  simp only [durHoursAt, if_pos, h1, h2, h3, natToChars_isEmpty, digitsVal_natToChars]
  rfl

theorem durCombinedAt_comb (a b : Nat) (R : List Char) :
    durCombinedAt
      (hourglassChar :: (natToChars a ++ ('h' :: (natToChars b ++ ('m' :: R))))) =
      some (a * 60 + b) := by
  have h1 := dropWhile_ws_digits a ('h' :: (natToChars b ++ ('m' :: R)))
  have h2 : (natToChars a ++ ('h' :: (natToChars b ++ ('m' :: R)))).takeWhile
      isDigitChar = natToChars a := takeWhile_digits_nat a rfl (by decide)
  have h3 : (natToChars a ++ ('h' :: (natToChars b ++ ('m' :: R)))).drop
      (natToChars a).length = 'h' :: (natToChars b ++ ('m' :: R)) := List.drop_left _ _
  have h5 := dropWhile_ws_digits b ('m' :: R)
  have h6 : (natToChars b ++ ('m' :: R)).takeWhile isDigitChar = natToChars b :=
    takeWhile_digits_nat b rfl (by decide)
  have h7 : (natToChars b ++ ('m' :: R)).drop (natToChars b).length = 'm' :: R :=
    List.drop_left _ _
  simp only [durCombinedAt, if_pos, h1, h2, h3, natToChars_isEmpty, h5, h6, h7,
    digitsVal_natToChars]
  rfl


/-! Evaluating the end-anchored duration matchers on built duration text. -/

theorem dropWhile_ws_space_seg (X : List Char) {c0 : Char} (hc : isWsChar c0 = false)
    {t : List Char} (hX : X = c0 :: t) :
    (' ' :: X).dropWhile isWsChar = c0 :: t := by
  rw [List.dropWhile_cons]
  simp only [show isWsChar ' ' = true from rfl, if_true]
  rw [hX, dropWhile_cons_neg hc]

theorem mDur1_min (n : Nat) :
    mDur1 (' ' :: hourglassChar :: (natToChars n ++ litOf "min")) = true := by
  have hd : (' ' :: hourglassChar :: (natToChars n ++ litOf "min")).dropWhile isWsChar
      = hourglassChar :: (natToChars n ++ litOf "min") :=
    dropWhile_ws_space_seg _ (by decide) rfl
  have h1 : (natToChars n ++ litOf "min").dropWhile isWsChar =
      natToChars n ++ litOf "min" := by
    have := dropWhile_ws_digits n (litOf "min")
    simpa using this
  have h2 : (natToChars n ++ litOf "min").takeWhile isDigitChar = natToChars n :=
    takeWhile_digits_nat n rfl (by decide)
  have h3 : (natToChars n ++ litOf "min").drop (natToChars n).length = litOf "min" :=
    List.drop_left _ _
  have h4 : dropLit (litOf "min") (litOf "min") = some [] := by
    have := dropLit_append (litOf "min") []
    simpa using this
  simp only [mDur1, hd, if_pos, h1, h2, h3, natToChars_isEmpty, h4]
  rfl

theorem mDur1_hours (k : Nat) :
    mDur1 (' ' :: hourglassChar :: (natToChars k ++ litOf "h")) = true := by
  have hd : (' ' :: hourglassChar :: (natToChars k ++ litOf "h")).dropWhile isWsChar
      = hourglassChar :: (natToChars k ++ litOf "h") :=
    dropWhile_ws_space_seg _ (by decide) rfl
  have h1 : (natToChars k ++ litOf "h").dropWhile isWsChar = natToChars k ++ litOf "h" := by
    have := dropWhile_ws_digits k (litOf "h")
    simpa using this
  have h2 : (natToChars k ++ litOf "h").takeWhile isDigitChar = natToChars k :=
    takeWhile_digits_nat k rfl (by decide)
  have h3 : (natToChars k ++ litOf "h").drop (natToChars k).length = litOf "h" :=
    List.drop_left _ _
  have h4 : dropLit (litOf "min") (litOf "h") = none := dropLit_head_ne (by decide)
  simp only [mDur1, hd, if_pos, h1, h2, h3, natToChars_isEmpty, h4]
  rfl

theorem mDur2_comb (a b : Nat) :
    mDur2 (' ' :: hourglassChar :: (natToChars a ++ 'h' :: (natToChars b ++ ['m']))) =
      true := by
  have hd : (' ' :: hourglassChar ::
      (natToChars a ++ 'h' :: (natToChars b ++ ['m']))).dropWhile isWsChar
      = hourglassChar :: (natToChars a ++ 'h' :: (natToChars b ++ ['m'])) :=
    dropWhile_ws_space_seg _ (by decide) rfl
  have h1 : (natToChars a ++ 'h' :: (natToChars b ++ ['m'])).dropWhile isWsChar =
      natToChars a ++ 'h' :: (natToChars b ++ ['m']) := by
    have := dropWhile_ws_digits a ('h' :: (natToChars b ++ ['m']))
    simpa using this
  have h2 : (natToChars a ++ 'h' :: (natToChars b ++ ['m'])).takeWhile isDigitChar =
      natToChars a := takeWhile_digits_nat a rfl (by decide)
  have h3 : (natToChars a ++ 'h' :: (natToChars b ++ ['m'])).drop
      (natToChars a).length = 'h' :: (natToChars b ++ ['m']) := List.drop_left _ _
  have h6 : (natToChars b ++ ['m']).takeWhile isDigitChar = natToChars b :=
    takeWhile_digits_nat b rfl (by decide)
  have h7 : (natToChars b ++ ['m']).drop (natToChars b).length = ['m'] :=
    List.drop_left _ _
  simp only [mDur2, hd, if_pos, h1, h2, h3, natToChars_isEmpty, h6, h7]
  rfl

theorem mDur1_comb_core {a b : Nat} {cs : List Char}
    (hd : cs.dropWhile isWsChar =
      hourglassChar :: (natToChars a ++ 'h' :: (natToChars b ++ ['m']))) :
    mDur1 cs = false := by
  have h1 : (natToChars a ++ 'h' :: (natToChars b ++ ['m'])).dropWhile isWsChar =
      natToChars a ++ 'h' :: (natToChars b ++ ['m']) := by
    have := dropWhile_ws_digits a ('h' :: (natToChars b ++ ['m']))
    simpa using this
  have h2 : (natToChars a ++ 'h' :: (natToChars b ++ ['m'])).takeWhile isDigitChar =
      natToChars a := takeWhile_digits_nat a rfl (by decide)
  have h3 : (natToChars a ++ 'h' :: (natToChars b ++ ['m'])).drop
      (natToChars a).length = 'h' :: (natToChars b ++ ['m']) := List.drop_left _ _
  have h4 : dropLit (litOf "min") ('h' :: (natToChars b ++ ['m'])) = none :=
    dropLit_head_ne (by decide)
  have h5 : (natToChars b ++ ['m']).dropWhile isWsChar = natToChars b ++ ['m'] := by
    have := dropWhile_ws_digits b ['m']
    simpa using this
  have h8 : (natToChars b ++ ['m']) ≠ [] := by
    obtain ⟨d, ds, hsh, _⟩ := natToChars_shape b
    rw [hsh]
    simp
  simp only [mDur1, hd, if_pos, h1, h2, h3, natToChars_isEmpty, h4, h5]
  have h9 : (natToChars b ++ ['m']).isEmpty = false := by
    cases hx : natToChars b ++ ['m'] with
    | nil => exact absurd hx h8
    | cons y ys => rfl
  rw [h9]
  rfl

theorem body_comb_char {a b : Nat} {c : Char}
    (hc : c ∈ natToChars a ++ 'h' :: (natToChars b ++ ['m'])) :
    isWsChar c = false ∧ c ≠ hourglassChar := by
  have hdig : ∀ {x : Char}, isDigitChar x = true →
      isWsChar x = false ∧ x ≠ hourglassChar := by
    intro x hx
    refine ⟨digitChar_not_ws hx, char_ne_of_toNat ?_⟩
    rw [isDigitChar_iff] at hx
    show x.toNat ≠ 9203
    omega
  rcases List.mem_append.mp hc with h1 | h2
  · exact hdig (natToChars_digits a c h1)
  · rcases List.mem_cons.mp h2 with rfl | h3
    · exact ⟨by decide, by decide⟩
    · rcases List.mem_append.mp h3 with h4 | h5
      · exact hdig (natToChars_digits b c h4)
      · rw [List.mem_singleton] at h5
        subst h5
        exact ⟨by decide, by decide⟩

theorem mDur1_skip_comb (a b : Nat) : ∀ zs, zs ≠ [] →
    zs <:+ (' ' :: hourglassChar :: (natToChars a ++ 'h' :: (natToChars b ++ ['m']))) →
    mDur1 zs = false := by
  intro zs hz hs
  rcases List.suffix_cons_iff.mp hs with he | hs2
  · subst he
    exact mDur1_comb_core (dropWhile_ws_space_seg _ (by decide) rfl)
  · rcases List.suffix_cons_iff.mp hs2 with he | hs3
    · subst he
      apply mDur1_comb_core
      exact dropWhile_cons_neg (by decide)
    · match zs, hz with
      | c :: t, _ =>
        have hc : c ∈ natToChars a ++ 'h' :: (natToChars b ++ ['m']) :=
          hs3.sublist.subset (List.mem_cons_self c t)
        obtain ⟨hw, hne⟩ := body_comb_char hc
        exact mDur1_false (dropWhile_cons_neg hw) hne


/-! Evaluating digit-run parsing on digit variables. -/

theorem digitsN_two {c1 c2 : Char} (h1 : isDigitChar c1 = true)
    (h2 : isDigitChar c2 = true) (rest : List Char) :
    digitsN 2 (c1 :: c2 :: rest) = some ([c1, c2], rest) := by
  simp [digitsN, h1, h2]

theorem digitsN_four {c1 c2 c3 c4 : Char} (h1 : isDigitChar c1 = true)
    (h2 : isDigitChar c2 = true) (h3 : isDigitChar c3 = true)
    (h4 : isDigitChar c4 = true) (rest : List Char) :
    digitsN 4 (c1 :: c2 :: c3 :: c4 :: rest) = some ([c1, c2, c3, c4], rest) := by
  simp [digitsN, h1, h2, h3, h4]


/-! Evaluating the date and time matchers on built date and time text. -/

theorem dueDateAt_genuine {a b c d e f g h : Char} (ha : isDigitChar a = true)
    (hb : isDigitChar b = true) (hc : isDigitChar c = true)
    (hd : isDigitChar d = true) (he : isDigitChar e = true)
    (hf : isDigitChar f = true) (hg : isDigitChar g = true)
    (hh : isDigitChar h = true) (R : List Char) :
    dueDateAt (calChar :: vs16Char ::
      (a :: b :: c :: d :: '-' :: e :: f :: '-' :: g :: h :: R)) =
      some [a, b, c, d, '-', e, f, '-', g, h] := by
  have h0 : dropDateEmoji (calChar :: vs16Char ::
      (a :: b :: c :: d :: '-' :: e :: f :: '-' :: g :: h :: R)) =
      some (a :: b :: c :: d :: '-' :: e :: f :: '-' :: g :: h :: R) := by
    simp [dropDateEmoji]
  have h1 : (a :: b :: c :: d :: '-' :: e :: f :: '-' :: g :: h :: R).dropWhile
      isWsChar = a :: b :: c :: d :: '-' :: e :: f :: '-' :: g :: h :: R :=
    dropWhile_cons_neg (digitChar_not_ws ha)
  simp only [dueDateAt, h0, h1, digitsN_four ha hb hc hd, digitsN_two he hf,
    digitsN_two hg hh]
  rfl

theorem mDate_genuine {a b c d e f g h : Char} (ha : isDigitChar a = true)
    (hb : isDigitChar b = true) (hc : isDigitChar c = true)
    (hd : isDigitChar d = true) (he : isDigitChar e = true)
    (hf : isDigitChar f = true) (hg : isDigitChar g = true)
    (hh : isDigitChar h = true) :
    mDate (' ' :: calChar :: vs16Char ::
      (a :: b :: c :: d :: '-' :: e :: f :: '-' :: g :: h :: [])) = true := by
  have hdw : (' ' :: calChar :: vs16Char ::
      (a :: b :: c :: d :: '-' :: e :: f :: '-' :: g :: h :: [])).dropWhile isWsChar =
      calChar :: vs16Char ::
        (a :: b :: c :: d :: '-' :: e :: f :: '-' :: g :: h :: []) :=
    dropWhile_ws_space_seg _ (by decide) rfl
  have h0 : dropDateEmoji (calChar :: vs16Char ::
      (a :: b :: c :: d :: '-' :: e :: f :: '-' :: g :: h :: [])) =
      some (a :: b :: c :: d :: '-' :: e :: f :: '-' :: g :: h :: []) := by
    simp [dropDateEmoji]
  have h1 : (a :: b :: c :: d :: '-' :: e :: f :: '-' :: g :: h ::
      ([] : List Char)).dropWhile isWsChar =
      a :: b :: c :: d :: '-' :: e :: f :: '-' :: g :: h :: [] :=
    dropWhile_cons_neg (digitChar_not_ws ha)
  simp only [mDate, hdw, h0, h1, digitsN_four ha hb hc hd, digitsN_two he hf,
    digitsN_two hg hh]
  rfl

theorem dueTimeAt_genuine2 {a b m1 m2 : Char} (ha : isDigitChar a = true)
    (hb : isDigitChar b = true) (h1 : isDigitChar m1 = true)
    (h2 : isDigitChar m2 = true) (R : List Char) :
    dueTimeAt (clockChar :: a :: b :: ':' :: m1 :: m2 :: R) =
      some [a, b, ':', m1, m2] := by
  have hr : (a :: b :: ':' :: m1 :: m2 :: R).dropWhile isWsChar =
      a :: b :: ':' :: m1 :: m2 :: R := dropWhile_cons_neg (digitChar_not_ws ha)
  simp only [dueTimeAt, if_pos, hr, ha, hb, h1, h2, and_self, if_true]

theorem dueTimeAt_genuine1 {a m1 m2 : Char} (ha : isDigitChar a = true)
    (h1 : isDigitChar m1 = true) (h2 : isDigitChar m2 = true) (R : List Char) :
    dueTimeAt (clockChar :: a :: ':' :: m1 :: m2 :: R) = some [a, ':', m1, m2] := by
  have hr : (a :: ':' :: m1 :: m2 :: R).dropWhile isWsChar =
      a :: ':' :: m1 :: m2 :: R := dropWhile_cons_neg (digitChar_not_ws ha)
  simp only [dueTimeAt, if_pos, hr, ha, h1, h2,
    show isDigitChar ':' = false from rfl]
  rfl

theorem mTime_genuine2 {a b m1 m2 : Char} (ha : isDigitChar a = true)
    (hb : isDigitChar b = true) (h1 : isDigitChar m1 = true)
    (h2 : isDigitChar m2 = true) :
    mTime (' ' :: clockChar :: a :: b :: ':' :: m1 :: m2 :: []) = true := by
  have hdw : (' ' :: clockChar :: a :: b :: ':' :: m1 :: m2 ::
      ([] : List Char)).dropWhile isWsChar =
      clockChar :: a :: b :: ':' :: m1 :: m2 :: [] :=
    dropWhile_ws_space_seg _ (by decide) rfl
  have hr : (a :: b :: ':' :: m1 :: m2 :: ([] : List Char)).dropWhile isWsChar =
      a :: b :: ':' :: m1 :: m2 :: [] := dropWhile_cons_neg (digitChar_not_ws ha)
  simp only [mTime, hdw, if_pos, hr, ha, hb, h1, h2, and_self, if_true]
  rfl

theorem mTime_genuine1 {a m1 m2 : Char} (ha : isDigitChar a = true)
    (h1 : isDigitChar m1 = true) (h2 : isDigitChar m2 = true) :
    mTime (' ' :: clockChar :: a :: ':' :: m1 :: m2 :: []) = true := by
  have hdw : (' ' :: clockChar :: a :: ':' :: m1 :: m2 ::
      ([] : List Char)).dropWhile isWsChar =
      clockChar :: a :: ':' :: m1 :: m2 :: [] :=
    dropWhile_ws_space_seg _ (by decide) rfl
  have hr : (a :: ':' :: m1 :: m2 :: ([] : List Char)).dropWhile isWsChar =
      a :: ':' :: m1 :: m2 :: [] := dropWhile_cons_neg (digitChar_not_ws ha)
  simp only [mTime, hdw, if_pos, hr, ha, h1, h2,
    show isDigitChar ':' = false from rfl]
  rfl

/-! Evaluating the explicit-priority matchers. -/

theorem prioExplAt_two (rest : List Char) :
    prioExplAt ('!' :: '!' :: '2' :: rest) = some 2 := by
  show (if ('!' : Char) = '!' ∧ ('!' : Char) = '!' ∧ '1' ≤ '2' ∧ '2' ≤ '4' then
    some ('2'.toNat - '0'.toNat) else none) = some 2
  rw [if_pos (by decide)]
  decide

theorem prioExplAt_three (rest : List Char) :
    prioExplAt ('!' :: '!' :: '3' :: rest) = some 3 := by
  show (if ('!' : Char) = '!' ∧ ('!' : Char) = '!' ∧ '1' ≤ '3' ∧ '3' ≤ '4' then
    some ('3'.toNat - '0'.toNat) else none) = some 3
  rw [if_pos (by decide)]
  decide

theorem prioExplAt_four (rest : List Char) :
    prioExplAt ('!' :: '!' :: '4' :: rest) = some 4 := by
  show (if ('!' : Char) = '!' ∧ ('!' : Char) = '!' ∧ '1' ≤ '4' ∧ '4' ≤ '4' then
    some ('4'.toNat - '0'.toNat) else none) = some 4
  rw [if_pos (by decide)]
  decide


/-! Evaluating the id-comment matchers on the built id comment. -/

theorem alnum_ne_rbracket {c : Char} (h : isAlnumChar c = true) : c ≠ ']' := by
  apply char_ne_of_toNat
  rw [isAlnumChar_iff] at h
  show c.toNat ≠ 93
  omega

theorem tidComment_shape (id : List Char) :
    tidComment id = litOf "%%[tid::" ++ (' ' :: '[' ::
      (id ++ (']' :: (litOf "(https://app.todoist.com/app/task/" ++
        (id ++ (')' :: ']' :: '%' :: '%' :: [])))))) := by
  simp [tidComment, litOf, List.append_assoc]

theorem extractTIDAt_genuine {id : List Char} (hne : id ≠ [])
    (hall : ∀ c ∈ id, isAlnumChar c = true) :
    extractTIDAt (tidComment id) = some id := by
  have h0 : tidComment id = litOf "%%[tid:: [" ++
      (id ++ (']' :: (litOf "(https://app.todoist.com/app/task/" ++
        (id ++ (')' :: ']' :: '%' :: '%' :: []))))) := by
    simp [tidComment, litOf, List.append_assoc]
  have h1 : dropLit (litOf "%%[tid:: [") (tidComment id) =
      some (id ++ (']' :: (litOf "(https://app.todoist.com/app/task/" ++
        (id ++ (')' :: ']' :: '%' :: '%' :: []))))) := by
    rw [h0]
    exact dropLit_append _ _
  have h2 : (id ++ (']' :: (litOf "(https://app.todoist.com/app/task/" ++
      (id ++ (')' :: ']' :: '%' :: '%' :: []))))).takeWhile isAlnumChar = id := by
    rw [takeWhile_append_all _ hall, takeWhile_cons_neg (by decide), List.append_nil]
  have h3 : (id ++ (']' :: (litOf "(https://app.todoist.com/app/task/" ++
      (id ++ (')' :: ']' :: '%' :: '%' :: []))))).drop id.length =
      ']' :: (litOf "(https://app.todoist.com/app/task/" ++
        (id ++ (')' :: ']' :: '%' :: '%' :: []))) := List.drop_left _ _
  have h4 : id.isEmpty = false := by
    cases hx : id with
    | nil => exact absurd hx hne
    | cons y ys => rfl
  simp only [extractTIDAt, h1, h2, h3, h4]
  rfl

theorem mTid_genuine {id : List Char} (hall : ∀ c ∈ id, isAlnumChar c = true) :
    mTid (' ' :: tidComment id) = true := by
  have hd : (' ' :: tidComment id).dropWhile isWsChar = tidComment id := by
    rw [List.dropWhile_cons]
    simp only [show isWsChar ' ' = true from rfl, if_true]
    rw [tidComment_shape]
    show ('%' :: (litOf "%[tid::" ++ (' ' :: '[' ::
      (id ++ (']' :: (litOf "(https://app.todoist.com/app/task/" ++
        (id ++ (')' :: ']' :: '%' :: '%' :: [])))))))).dropWhile isWsChar = _
    rw [dropWhile_cons_neg (by decide)]
    rfl
  have h1 : dropLit (litOf "%%[tid::") (tidComment id) =
      some (' ' :: '[' :: (id ++ (']' :: (litOf "(https://app.todoist.com/app/task/" ++
        (id ++ (')' :: ']' :: '%' :: '%' :: [])))))) := by
    rw [tidComment_shape]
    exact dropLit_append _ _
  have h2 : (' ' :: '[' :: (id ++ (']' :: (litOf "(https://app.todoist.com/app/task/" ++
      (id ++ (')' :: ']' :: '%' :: '%' :: [])))))).dropWhile (fun c => ¬ c = ']') =
      ']' :: (litOf "(https://app.todoist.com/app/task/" ++
        (id ++ (')' :: ']' :: '%' :: '%' :: []))) := by
    show ((' ' :: '[' :: id) ++ (']' :: (litOf "(https://app.todoist.com/app/task/" ++
      (id ++ (')' :: ']' :: '%' :: '%' :: []))))).dropWhile (fun c => ¬ c = ']') = _
    rw [dropWhile_append_all _ ?_, dropWhile_cons_neg (by decide)]
    intro c hc
    rcases List.mem_cons.mp hc with rfl | hc2
    · decide
    · rcases List.mem_cons.mp hc2 with rfl | hc3
      · decide
      · simp only [decide_eq_true_eq]
        exact alnum_ne_rbracket (hall c hc3)
  have h3 : (litOf "(https://app.todoist.com/app/task/" ++
      (id ++ (')' :: ']' :: '%' :: '%' :: []))).dropWhile (fun c => ¬ c = ']') =
      ']' :: '%' :: '%' :: [] := by
    have hassoc : litOf "(https://app.todoist.com/app/task/" ++
        (id ++ (')' :: ']' :: '%' :: '%' :: [])) =
        (litOf "(https://app.todoist.com/app/task/" ++ (id ++ [')'])) ++
          (']' :: '%' :: '%' :: []) := by
      simp [List.append_assoc]
    have hlit : ∀ x ∈ litOf "(https://app.todoist.com/app/task/",
        (fun c => (¬ c = ']' : Bool)) x = true := by decide
    rw [hassoc, dropWhile_append_all _ ?_, dropWhile_cons_neg (by decide)]
    intro c hc
    rcases List.mem_append.mp hc with hc1 | hc2
    · exact hlit c hc1
    · rcases List.mem_append.mp hc2 with hc3 | hc4
      · simp only [decide_eq_true_eq]
        exact alnum_ne_rbracket (hall c hc3)
      · rw [List.mem_singleton] at hc4
        subst hc4
        decide
  simp only [mTid, hd, h1, h2, h3]
  rfl


/-! Label scanning on the whole line. -/

theorem parseLabels_skip {xs : List Char} (ys : List Char)
    (h : ∀ c ∈ xs, c ≠ '#') :
    parseLabels (xs ++ ys) = parseLabels ys := by
  induction xs with
  | nil => rfl
  | cons c cs ih =>
    rw [List.cons_append, parseLabels_cons,
      if_neg (h c (List.mem_cons_self c cs)),
      ih (fun x hx => h x (List.mem_cons_of_mem c hx))]

theorem parseLabels_tag {u : List Char} {ys : List Char} (hne : u ≠ [])
    (hall : ∀ c ∈ u, isLabelChar c = true)
    (hy : ∀ c, ys.head? = some c → isLabelChar c = false) :
    parseLabels ('#' :: (u ++ ys)) = u :: parseLabels ys := by
  rw [parseLabels_cons, if_pos rfl]
  have hrun : (u ++ ys).takeWhile isLabelChar = u := by
    rw [takeWhile_append_all ys hall]
    cases hys : ys with
    | nil => simp
    | cons c t =>
      rw [takeWhile_cons_neg (hy c (by rw [hys]; rfl)), List.append_nil]
  rw [hrun]
  have h4 : u.isEmpty = false := by
    cases hx : u with
    | nil => exact absurd hx hne
    | cons y t => rfl
  rw [h4]
  simp only [Bool.false_eq_true, if_false, List.drop_left]

/-! Hashtag removal on the kept content. -/

theorem stripHashtags_skip {xs : List Char} (ys : List Char)
    (h : ∀ zs, zs ≠ [] → zs <:+ xs → hashMatchLen (zs ++ ys) = none) :
    stripHashtags (xs ++ ys) = xs ++ stripHashtags ys := by
  induction xs with
  | nil => rfl
  | cons c cs ih =>
    rw [List.cons_append, stripHashtags_cons]
    have hnone : hashMatchLen (c :: (cs ++ ys)) = none := by
      have := h (c :: cs) (by simp) (List.suffix_refl _)
      simpa using this
    simp only [hnone]
    rw [ih (fun zs hz hs => h zs hz (suffix_of_suffix_cons hs))]
    rfl

theorem stripHashtags_labelFlat :
    ∀ us : List (List Char),
    (∀ u ∈ us, u ≠ [] ∧ ∀ c ∈ u, isLabelChar c = true) →
    stripHashtags (us.flatMap (fun u => ' ' :: '#' :: u)) = [] := by
  intro us
  induction us with
  | nil => intro h; rfl
  | cons u rest ih =>
    intro h
    obtain ⟨hne, hall⟩ := h u (List.mem_cons_self u rest)
    have hflat : (u :: rest).flatMap (fun u => ' ' :: '#' :: u) =
        ' ' :: '#' :: (u ++ rest.flatMap (fun u => ' ' :: '#' :: u)) := by
      simp
    rw [hflat, stripHashtags_cons]
    have hml : hashMatchLen (' ' :: '#' ::
        (u ++ rest.flatMap (fun u => ' ' :: '#' :: u))) =
        some (1 + 1 + u.length) := by
      have hw : (' ' :: '#' ::
          (u ++ rest.flatMap (fun u => ' ' :: '#' :: u))).takeWhile isWsChar =
          [' '] := by
        rw [List.takeWhile_cons]
        simp only [show isWsChar ' ' = true from rfl, if_true]
        rw [takeWhile_cons_neg (by decide)]
      have hrun : (u ++ rest.flatMap (fun u => ' ' :: '#' :: u)).takeWhile
          isLabelChar = u := by
        rw [takeWhile_append_all _ hall]
        cases hfr : rest.flatMap (fun u => ' ' :: '#' :: u) with
        | nil => simp
        | cons c t =>
          have hc : c = ' ' := by
            cases rest with
            | nil => simp at hfr
            | cons v vs =>
              simp only [List.flatMap_cons, List.cons_append] at hfr
              exact (List.cons.inj hfr).1.symm
          subst hc
          rw [takeWhile_cons_neg (by decide), List.append_nil]
      have h4 : u.isEmpty = false := by
        cases hx : u with
        | nil => exact absurd hx hne
        | cons y t => rfl
      simp only [hashMatchLen, hw, List.length_cons, List.length_nil]
      have hd1 : (' ' :: '#' ::
          (u ++ rest.flatMap (fun u => ' ' :: '#' :: u))).drop (0 + 1) =
          '#' :: (u ++ rest.flatMap (fun u => ' ' :: '#' :: u)) := rfl
      rw [hd1]
      simp only [if_pos, hrun, h4]
      rfl
    simp only [hml]
    have hk : 1 + 1 + u.length = u.length + 2 := by omega
    have hdrop : (' ' :: '#' ::
        (u ++ rest.flatMap (fun u => ' ' :: '#' :: u))).drop (1 + 1 + u.length) =
        rest.flatMap (fun u => ' ' :: '#' :: u) := by
      rw [hk]
      show (u ++ rest.flatMap (fun u => ' ' :: '#' :: u)).drop u.length = _
      exact List.drop_left _ _
    rw [hdrop]
    exact ih (fun v hv => h v (List.mem_cons_of_mem u hv))

/-! Trimming is the identity on content with non-blank ends. -/

theorem trimChars_id {cs : List Char}
    (hh : ∀ c, cs.head? = some c → isWsChar c = false)
    (hl : ∀ c, cs.getLast? = some c → isWsChar c = false) :
    trimChars cs = cs := by
  cases cs with
  | nil => rfl
  | cons c t =>
    rw [trimChars, dropWhile_cons_neg (hh c rfl)]
    cases hrev : (c :: t).reverse with
    | nil => simp at hrev
    | cons d r =>
      have hd : (c :: t).getLast? = some d := by
        rw [← List.head?_reverse, hrev]
        rfl
      rw [dropWhile_cons_neg (hl d hd), ← hrev, List.reverse_reverse]


/-! Build-side shape: the constructed line as explicit segments. -/

/-- The flat label segment of a built line: one leading space, a hash and
the label text per label. -/
def labelSegOf (us : List (List Char)) : List Char :=
  us.flatMap (fun u => ' ' :: '#' :: u)

/-- One optional built segment: a leading join space plus the field text. -/
def optSeg (f : α → List Char) : Option α → List Char
  | some x => ' ' :: f x
  | none => []

theorem optSeg_none {α : Type} (f : α → List Char) : optSeg f none = [] := rfl

theorem optSeg_some {α : Type} (f : α → List Char) (x : α) :
    optSeg f (some x) = ' ' :: f x := rfl

theorem intercalate_space_cons : ∀ (l : List (List Char)) (a : List Char),
    List.intercalate [' '] (a :: l) = a ++ l.flatMap (fun x => ' ' :: x) := by
  intro l
  induction l with
  | nil =>
    intro a
    simp [List.intercalate]
  | cons b t ih =>
    intro a
    have h1 : List.intercalate [' '] (a :: b :: t) =
        a ++ ' ' :: List.intercalate [' '] (b :: t) := by
      simp [List.intercalate, List.intersperse_cons_cons]
    rw [h1, ih b]
    simp

theorem label_join (vs : List (List Char)) (hne : vs ≠ []) :
    ' ' :: List.intercalate [' '] (vs.map (fun l => '#' :: l)) = labelSegOf vs := by
  match vs with
  | v :: t =>
    rw [List.map_cons, intercalate_space_cons, List.flatMap_map]
    show ' ' :: (('#' :: v) ++ t.flatMap (fun u => ' ' :: '#' :: u)) = _
    simp [labelSegOf]

theorem mergeLabelGo_id : ∀ (l : List (List Char)) (seen : List (List Char)),
    (∀ x ∈ l, toLowerChars x ∉ seen) →
    ((l.map toLowerChars).Nodup) →
    mergeLabelGo l seen = l := by
  intro l
  induction l with
  | nil => intro seen _ _; rfl
  | cons x xs ih =>
    intro seen hseen hnd
    have hcon : seen.contains (toLowerChars x) = false := by
      simpa using hseen x (List.mem_cons_self x xs)
    rw [List.map_cons, List.nodup_cons] at hnd
    simp only [mergeLabelGo, hcon, Bool.false_eq_true, if_false]
    rw [ih (toLowerChars x :: seen) ?_ hnd.2]
    intro y hy
    rw [List.mem_cons]
    rintro (he | hm)
    · exact hnd.1 (he ▸ List.mem_map_of_mem toLowerChars hy)
    · exact hseen y (List.mem_cons_of_mem x hy) hm

theorem natToChars_two : natToChars 2 = ['2'] := by decide

theorem natToChars_three : natToChars 3 = ['3'] := by decide

theorem natToChars_four : natToChars 4 = ['4'] := by decide


theorem data_mk (l : List Char) : (String.mk l).data = l := rfl

theorem flatMap_seg_label (vs : List (List Char)) :
    (if ¬ vs.isEmpty then [List.intercalate [' '] (vs.map (fun l => '#' :: l))]
     else ([] : List (List Char))).flatMap (fun x => ' ' :: x) = labelSegOf vs := by
  cases vs with
  | nil => rfl
  | cons v t =>
    rw [if_pos (by simp)]
    simp only [List.flatMap_cons, List.flatMap_nil, List.append_nil]
    exact label_join (v :: t) (by simp)


theorem flatMap_seg_label2 (us : List String) :
    ((if us = [] then [] else
      [[' '].intercalate (List.map ((fun l => '#' :: l) ∘ String.data) us)]).flatMap
        fun x => ' ' :: x) = labelSegOf (List.map String.data us) := by
  cases us with
  | nil => rfl
  | cons u t =>
    rw [if_neg (by simp)]
    simp only [List.flatMap_cons, List.flatMap_nil, List.append_nil]
    have h := label_join ((u :: t).map String.data) (by simp)
    rw [List.map_map] at h
    exact h

/-- The built line, decomposed into its segments. -/
theorem buildTaskLine_decomp (d : TaskData) {us : List String}
    (hlab : d.labels = us ++ ["tdsync"])
    (hus1 : ∀ u ∈ us, toLowerChars u.data ≠ litOf "tdsync")
    (hnd : (((us ++ ["tdsync"]).map String.data).map toLowerChars).Nodup)
    (hp : d.priority = none ∨ ∃ p, d.priority = some p ∧ (p ≠ 0 ∧ p ≠ 1))
    (hdd : d.dueDate = none ∨ ∃ s, d.dueDate = some s ∧ s ≠ "")
    (hdt : d.dueTime = none ∨ ∃ s, d.dueTime = some s ∧ s ≠ "")
    (hdu : d.duration = none ∨ ∃ n, d.duration = some n ∧ n ≠ 0)
    (htid : d.tid = none ∨ ∃ s, d.tid = some s ∧ s ≠ "") :
    (buildTaskLine d []).data =
      (if d.completed then litOf "- [x]" else litOf "- [ ]") ++
      ((' ' :: d.content.data) ++
      (labelSegOf (us.map String.data) ++
      (optSeg (fun p => '!' :: '!' :: natToChars p) d.priority ++
      (optSeg (fun s : String => calChar :: vs16Char :: s.data) d.dueDate ++
      (optSeg (fun s : String => clockChar :: s.data) d.dueTime ++
      (optSeg formatDuration d.duration ++
      ((' ' :: litOf "#tdsync") ++
      optSeg (fun s : String => tidComment s.data) d.tid))))))) := by
  have hall : (mergeLabelLists (d.labels.map String.data)
      (([] : List String).map String.data)).filter
        (fun l => ¬ toLowerChars l = litOf "tdsync") = us.map String.data := by
    have hm : mergeLabelLists (d.labels.map String.data)
        (([] : List String).map String.data) = d.labels.map String.data := by
      show mergeLabelGo (d.labels.map String.data ++ []) [] = _
      rw [List.append_nil]
      apply mergeLabelGo_id
      · intro x _ hx
        cases hx
      · rw [hlab]
        rw [List.map_map] at hnd
        rw [List.map_map]
        exact hnd
    rw [hm, hlab, List.map_append, List.filter_append]
    have h1 : (us.map String.data).filter
        (fun l => ¬ toLowerChars l = litOf "tdsync") = us.map String.data := by
      apply List.filter_eq_self.mpr
      intro a ha
      obtain ⟨u, hu, rfl⟩ := List.mem_map.mp ha
      simpa using hus1 u hu
    have h2 : ((["tdsync"] : List String).map String.data).filter
        (fun l => ¬ toLowerChars l = litOf "tdsync") = [] := by decide
    rw [h1, h2, List.append_nil]
  simp only [buildTaskLine, data_mk, hall]
  rcases hp with hp | ⟨p, hp, hp2⟩ <;>
    rcases hdd with hdd | ⟨sd, hdd, hsd⟩ <;>
    rcases hdt with hdt | ⟨st, hdt, hst⟩ <;>
    rcases hdu with hdu | ⟨n, hdu, hn⟩ <;>
    rcases htid with htid | ⟨si, htid, hsi⟩ <;>
    rw [hp, hdd, hdt, hdu, htid] <;>
    simp only [List.cons_append, List.nil_append] <;>
    rw [intercalate_space_cons] <;>
    simp_all [List.flatMap_append, List.flatMap_cons, List.flatMap_nil,
      flatMap_seg_label, optSeg, List.append_assoc,
      show ∀ l : List Char, litOf "!!" ++ l = '!' :: '!' :: l from fun l => rfl] <;>
    exact flatMap_seg_label2 us


/-! The canonical task-fields values: those the system itself produces.
Content avoids the metadata marker characters and blank ends; labels are
the user labels followed by `tdsync`, pairwise distinct case-insensitively;
the due fields have the exact shapes the builder emits; the priority is a
non-default one; the duration is positive; the id is alphanumeric. -/

def canonicalTaskData (d : TaskData) : Prop :=
  d.content.data ≠ [] ∧
  (∀ c ∈ d.content.data, plainChar c = true) ∧
  (∀ c, d.content.data.head? = some c → isWsChar c = false) ∧
  (∀ c, d.content.data.getLast? = some c → isWsChar c = false) ∧
  (∃ us : List String, d.labels = us ++ ["tdsync"] ∧
    (∀ u ∈ us, u.data ≠ [] ∧ ∀ c ∈ u.data, isLabelChar c = true) ∧
    (∀ u ∈ us, toLowerChars u.data ≠ litOf "tdsync") ∧
    (((us ++ ["tdsync"]).map String.data).map toLowerChars).Nodup) ∧
  (d.priority = none ∨ d.priority = some 2 ∨ d.priority = some 3 ∨
    d.priority = some 4) ∧
  (d.dueDate = none ∨ ∃ a b c e f g h i, isDigitChar a = true ∧
    isDigitChar b = true ∧ isDigitChar c = true ∧ isDigitChar e = true ∧
    isDigitChar f = true ∧ isDigitChar g = true ∧ isDigitChar h = true ∧
    isDigitChar i = true ∧
    d.dueDate = some (String.mk [a, b, c, e, '-', f, g, '-', h, i])) ∧
  (d.dueTime = none ∨
    (∃ a b m1 m2, isDigitChar a = true ∧ isDigitChar b = true ∧
      isDigitChar m1 = true ∧ isDigitChar m2 = true ∧
      d.dueTime = some (String.mk [a, b, ':', m1, m2])) ∨
    (∃ a m1 m2, isDigitChar a = true ∧ isDigitChar m1 = true ∧
      isDigitChar m2 = true ∧ d.dueTime = some (String.mk [a, ':', m1, m2]))) ∧
  (d.dueDatetime = (match d.dueDate, d.dueTime with
    | some ds, some ts => some (String.mk (ds.data ++ 'T' :: ts.data ++ litOf ":00"))
    | _, _ => none)) ∧
  (d.duration = none ∨ ∃ n, d.duration = some n ∧ 1 ≤ n) ∧
  (d.tid = none ∨ ∃ s, d.tid = some s ∧ s.data ≠ [] ∧
    ∀ c ∈ s.data, isAlnumChar c = true)

/-! Character classes of the built segments, and the marker characters each
class avoids. -/

theorem labelClass_safe {c : Char}
    (h : c = ' ' ∨ c = '#' ∨ isLabelChar c = true) :
    c ≠ '%' ∧ c ≠ hourglassChar ∧ c ≠ clockChar ∧ c ≠ calChar ∧ c ≠ cal2Char ∧
    c ≠ '!' ∧ ¬(c = upChar ∨ c = downChar ∨ c = medUpChar ∨ c = medDownChar) := by
  rcases h with rfl | rfl | h
  · exact ⟨by decide, by decide, by decide, by decide, by decide, by decide, by decide⟩
  · exact ⟨by decide, by decide, by decide, by decide, by decide, by decide, by decide⟩
  · rw [isLabelChar_iff] at h
    refine ⟨char_ne_of_toNat ?_, char_ne_of_toNat ?_, char_ne_of_toNat ?_,
      char_ne_of_toNat ?_, char_ne_of_toNat ?_, char_ne_of_toNat ?_, ?_⟩
    · show c.toNat ≠ 37
      omega
    · show c.toNat ≠ 9203
      omega
    · show c.toNat ≠ 9200
      omega
    · show c.toNat ≠ 128467
      omega
    · show c.toNat ≠ 128197
      omega
    · show c.toNat ≠ 33
      omega
    · rintro (rfl | rfl | rfl | rfl) <;> revert h <;> decide

theorem digit_safe {c : Char} (h : isDigitChar c = true) :
    c ≠ '%' ∧ c ≠ hourglassChar ∧ c ≠ clockChar ∧ c ≠ calChar ∧ c ≠ cal2Char ∧
    c ≠ '!' ∧ ¬(c = upChar ∨ c = downChar ∨ c = medUpChar ∨ c = medDownChar) := by
  rw [isDigitChar_iff] at h
  refine ⟨char_ne_of_toNat ?_, char_ne_of_toNat ?_, char_ne_of_toNat ?_,
    char_ne_of_toNat ?_, char_ne_of_toNat ?_, char_ne_of_toNat ?_, ?_⟩
  · show c.toNat ≠ 37
    omega
  · show c.toNat ≠ 9203
    omega
  · show c.toNat ≠ 9200
    omega
  · show c.toNat ≠ 128467
    omega
  · show c.toNat ≠ 128197
    omega
  · show c.toNat ≠ 33
    omega
  · rintro (rfl | rfl | rfl | rfl) <;> revert h <;> decide

theorem prioClass_safe {c : Char}
    (h : c = ' ' ∨ c = '!' ∨ isDigitChar c = true) :
    c ≠ '%' ∧ c ≠ hourglassChar ∧ c ≠ clockChar ∧ c ≠ calChar ∧ c ≠ cal2Char := by
  rcases h with rfl | rfl | h
  · exact ⟨by decide, by decide, by decide, by decide, by decide⟩
  · exact ⟨by decide, by decide, by decide, by decide, by decide⟩
  · obtain ⟨h1, h2, h3, h4, h5, _, _⟩ := digit_safe h
    exact ⟨h1, h2, h3, h4, h5⟩

theorem dateClass_safe {c : Char}
    (h : c = ' ' ∨ c = calChar ∨ c = vs16Char ∨ isDigitChar c = true ∨ c = '-') :
    c ≠ '%' ∧ c ≠ hourglassChar ∧ c ≠ clockChar := by
  rcases h with rfl | rfl | rfl | h | rfl
  · exact ⟨by decide, by decide, by decide⟩
  · exact ⟨by decide, by decide, by decide⟩
  · exact ⟨by decide, by decide, by decide⟩
  · obtain ⟨h1, h2, h3, _, _, _, _⟩ := digit_safe h
    exact ⟨h1, h2, h3⟩
  · exact ⟨by decide, by decide, by decide⟩

theorem timeClass_safe {c : Char}
    (h : c = ' ' ∨ c = clockChar ∨ isDigitChar c = true ∨ c = ':') :
    c ≠ '%' ∧ c ≠ hourglassChar := by
  rcases h with rfl | rfl | h | rfl
  · exact ⟨by decide, by decide⟩
  · exact ⟨by decide, by decide⟩
  · obtain ⟨h1, h2, _, _, _, _, _⟩ := digit_safe h
    exact ⟨h1, h2⟩
  · exact ⟨by decide, by decide⟩

theorem durClass_safe {c : Char}
    (h : c = ' ' ∨ c = hourglassChar ∨ isDigitChar c = true ∨ c = 'h' ∨ c = 'm' ∨
      c = 'i' ∨ c = 'n') : c ≠ '%' := by
  rcases h with rfl | rfl | h | rfl | rfl | rfl | rfl
  · decide
  · decide
  · exact (digit_safe h).1
  · decide
  · decide
  · decide
  · decide


/-! Membership classification for each built segment. -/

theorem mem_labelSegOf {c : Char} {us : List (List Char)}
    (hall : ∀ u ∈ us, ∀ x ∈ u, isLabelChar x = true)
    (hc : c ∈ labelSegOf us) : c = ' ' ∨ c = '#' ∨ isLabelChar c = true := by
  simp only [labelSegOf, List.mem_flatMap] at hc
  obtain ⟨u, hu, hcu⟩ := hc
  rcases List.mem_cons.mp hcu with rfl | h2
  · exact Or.inl rfl
  · rcases List.mem_cons.mp h2 with rfl | h3
    · exact Or.inr (Or.inl rfl)
    · exact Or.inr (Or.inr (hall u hu c h3))

theorem mem_prioSeg {c : Char} {o : Option Nat}
    (hc : c ∈ optSeg (fun p => '!' :: '!' :: natToChars p) o) :
    c = ' ' ∨ c = '!' ∨ isDigitChar c = true := by
  cases o with
  | none => cases hc
  | some p =>
    rcases List.mem_cons.mp hc with rfl | h2
    · exact Or.inl rfl
    · rcases List.mem_cons.mp h2 with rfl | h3
      · exact Or.inr (Or.inl rfl)
      · rcases List.mem_cons.mp h3 with rfl | h4
        · exact Or.inr (Or.inl rfl)
        · exact Or.inr (Or.inr (natToChars_digits p c h4))

theorem mem_dateSeg {c : Char} {o : Option String}
    (hsh : ∀ s, o = some s → ∀ x ∈ s.data, isDigitChar x = true ∨ x = '-')
    (hc : c ∈ optSeg (fun s : String => calChar :: vs16Char :: s.data) o) :
    c = ' ' ∨ c = calChar ∨ c = vs16Char ∨ isDigitChar c = true ∨ c = '-' := by
  cases o with
  | none => cases hc
  | some s =>
    rcases List.mem_cons.mp hc with rfl | h2
    · exact Or.inl rfl
    · rcases List.mem_cons.mp h2 with rfl | h3
      · exact Or.inr (Or.inl rfl)
      · rcases List.mem_cons.mp h3 with rfl | h4
        · exact Or.inr (Or.inr (Or.inl rfl))
        · rcases hsh s rfl c h4 with h5 | h5
          · exact Or.inr (Or.inr (Or.inr (Or.inl h5)))
          · exact Or.inr (Or.inr (Or.inr (Or.inr h5)))

theorem mem_timeSeg {c : Char} {o : Option String}
    (hsh : ∀ s, o = some s → ∀ x ∈ s.data, isDigitChar x = true ∨ x = ':')
    (hc : c ∈ optSeg (fun s : String => clockChar :: s.data) o) :
    c = ' ' ∨ c = clockChar ∨ isDigitChar c = true ∨ c = ':' := by
  cases o with
  | none => cases hc
  | some s =>
    rcases List.mem_cons.mp hc with rfl | h2
    · exact Or.inl rfl
    · rcases List.mem_cons.mp h2 with rfl | h3
      · exact Or.inr (Or.inl rfl)
      · rcases hsh s rfl c h3 with h5 | h5
        · exact Or.inr (Or.inr (Or.inl h5))
        · exact Or.inr (Or.inr (Or.inr h5))

theorem mem_formatDuration {c : Char} {n : Nat} (hc : c ∈ formatDuration n) :
    c = hourglassChar ∨ isDigitChar c = true ∨ c = 'h' ∨ c = 'm' ∨ c = 'i' ∨
      c = 'n' := by
  rw [formatDuration] at hc
  by_cases h60 : n < 60
  · rw [if_pos h60] at hc
    rcases List.mem_cons.mp hc with rfl | h2
    · exact Or.inl rfl
    · rcases List.mem_append.mp h2 with h3 | h3
      · exact Or.inr (Or.inl (natToChars_digits n c h3))
      · fin_cases h3 <;> decide
  · rw [if_neg h60] at hc
    by_cases hmod : n % 60 = 0
    · rw [if_pos hmod] at hc
      rcases List.mem_cons.mp hc with rfl | h2
      · exact Or.inl rfl
      · rcases List.mem_append.mp h2 with h3 | h3
        · exact Or.inr (Or.inl (natToChars_digits _ c h3))
        · fin_cases h3 <;> decide
    · rw [if_neg hmod] at hc
      rcases List.mem_cons.mp hc with rfl | h2
      · exact Or.inl rfl
      · rcases List.mem_append.mp h2 with h3 | h3
        · exact Or.inr (Or.inl (natToChars_digits _ c h3))
        · rcases List.mem_cons.mp h3 with rfl | h4
          · exact Or.inr (Or.inr (Or.inl rfl))
          · rcases List.mem_append.mp h4 with h5 | h5
            · exact Or.inr (Or.inl (natToChars_digits _ c h5))
            · fin_cases h5 <;> decide

theorem mem_durSeg {c : Char} {o : Option Nat} (hc : c ∈ optSeg formatDuration o) :
    c = ' ' ∨ c = hourglassChar ∨ isDigitChar c = true ∨ c = 'h' ∨ c = 'm' ∨
      c = 'i' ∨ c = 'n' := by
  cases o with
  | none => cases hc
  | some n =>
    rcases List.mem_cons.mp hc with rfl | h2
    · exact Or.inl rfl
    · exact Or.inr (mem_formatDuration h2)

theorem mem_ySeg {c : Char} (hc : c ∈ ' ' :: litOf "#tdsync") :
    c = ' ' ∨ c = '#' ∨ isLabelChar c = true := by
  fin_cases hc <;> decide


/-! Last characters of the built segments are never whitespace. -/

theorem lastNonWs_opt_append {xs ys : List Char}
    (hx : xs = [] ∨ ∃ e, xs.getLast? = some e ∧ isWsChar e = false)
    (hy : ys = [] ∨ ∃ e, ys.getLast? = some e ∧ isWsChar e = false) :
    xs ++ ys = [] ∨ ∃ e, (xs ++ ys).getLast? = some e ∧ isWsChar e = false := by
  rcases hy with rfl | hy
  · rw [List.append_nil]
    exact hx
  · exact Or.inr (lastNonWs_append hy)

theorem natToChars_last (n : Nat) :
    ∃ e, (natToChars n).getLast? = some e ∧ isWsChar e = false := by
  cases hg : (natToChars n).getLast? with
  | none =>
    rw [List.getLast?_eq_none_iff] at hg
    exact absurd hg (natToChars_ne_nil n)
  | some e =>
    exact ⟨e, rfl, digitChar_not_ws (natToChars_digits n e (getLast?_mem' hg))⟩

theorem getLast?_cons_of_ne_nil {c : Char} {xs : List Char} (h : xs ≠ []) :
    (c :: xs).getLast? = xs.getLast? :=
  getLast?_of_suffix ⟨[c], rfl⟩ h

theorem optSeg_last {α : Type} {f : α → List Char} {o : Option α}
    (hf : ∀ x, o = some x → ∃ e, (f x).getLast? = some e ∧ isWsChar e = false) :
    optSeg f o = [] ∨ ∃ e, (optSeg f o).getLast? = some e ∧ isWsChar e = false := by
  cases o with
  | none => exact Or.inl rfl
  | some x =>
    obtain ⟨e, he, hw⟩ := hf x rfl
    refine Or.inr ⟨e, ?_, hw⟩
    have hne : f x ≠ [] := by
      intro h0
      rw [h0] at he
      exact Option.noConfusion he
    show (' ' :: f x).getLast? = some e
    rw [getLast?_cons_of_ne_nil hne]
    exact he

theorem append_ne_nil_right {xs ys : List Char} (hy : ys ≠ []) : xs ++ ys ≠ [] := by
  intro h
  rw [List.append_eq_nil] at h
  exact hy h.2

theorem formatDuration_last (n : Nat) :
    ∃ e, (formatDuration n).getLast? = some e ∧ isWsChar e = false := by
  rw [formatDuration]
  by_cases h60 : n < 60
  · rw [if_pos h60]
    refine ⟨'n', ?_, by decide⟩
    rw [getLast?_cons_of_ne_nil (append_ne_nil_right (by decide)), getLast?_of_suffix
      (List.suffix_append (natToChars n) (litOf "min")) (by decide)]
    rfl
  · rw [if_neg h60]
    by_cases hmod : n % 60 = 0
    · rw [if_pos hmod]
      refine ⟨'h', ?_, by decide⟩
      rw [getLast?_cons_of_ne_nil (append_ne_nil_right (by decide)), getLast?_of_suffix
        (List.suffix_append (natToChars (n / 60)) (litOf "h")) (by decide)]
      rfl
    · rw [if_neg hmod]
      refine ⟨'m', ?_, by decide⟩
      rw [getLast?_cons_of_ne_nil (by simp), getLast?_of_suffix
        (List.suffix_append (natToChars (n / 60)) ('h' :: (natToChars (n % 60) ++ ['m'])))
        (by simp), getLast?_cons_of_ne_nil (by simp), getLast?_of_suffix
        (List.suffix_append (natToChars (n % 60)) ['m']) (by simp)]
      rfl

theorem labelSegOf_last {vs : List (List Char)}
    (h : ∀ u ∈ vs, u ≠ [] ∧ ∀ x ∈ u, isLabelChar x = true) :
    labelSegOf vs = [] ∨
      ∃ e, (labelSegOf vs).getLast? = some e ∧ isWsChar e = false := by
  induction vs with
  | nil => exact Or.inl rfl
  | cons v t ih =>
    obtain ⟨hvne, hvl⟩ := h v (List.mem_cons_self v t)
    have hv : ∃ e, (' ' :: '#' :: v).getLast? = some e ∧ isWsChar e = false := by
      cases hg : v.getLast? with
      | none =>
        rw [List.getLast?_eq_none_iff] at hg
        exact absurd hg hvne
      | some e =>
        refine ⟨e, ?_, labelChar_not_ws (hvl e (getLast?_mem' hg))⟩
        rw [getLast?_cons_of_ne_nil (by simp [hvne]),
          getLast?_cons_of_ne_nil hvne]
        exact hg
    have hflat : labelSegOf (v :: t) = (' ' :: '#' :: v) ++ labelSegOf t := by
      simp [labelSegOf]
    rw [hflat]
    exact lastNonWs_opt_append (Or.inr hv) (ih fun u hu => h u (List.mem_cons_of_mem v hu))


/-! Evaluating the checkbox-prefix matchers on a built line. -/

theorem matchCheckboxPrefix_line {c : Char} (hc : c = 'x' ∨ c = ' ')
    (rest : List Char) :
    matchCheckboxPrefix ('-' :: ' ' :: '[' :: c :: ']' :: rest) = some (c, rest) := by
  have h0 : ('-' :: ' ' :: '[' :: c :: ']' :: rest).dropWhile isWsChar =
      '-' :: ' ' :: '[' :: c :: ']' :: rest := dropWhile_cons_neg (by decide)
  have h1 : (' ' :: '[' :: c :: ']' :: rest).dropWhile isWsChar =
      '[' :: c :: ']' :: rest := dropWhile_ws_space_seg _ (by decide) rfl
  have h2 : ¬(('[' :: c :: ']' :: rest).length =
      (' ' :: '[' :: c :: ']' :: rest).length) := by
    simp
  simp only [matchCheckboxPrefix, h0, h1]
  rw [if_neg h2, if_pos hc]

theorem stripCheckbox_line {c : Char} (hc : c = 'x' ∨ c = ' ') {c0 : Char}
    {t : List Char} (hb : isWsChar c0 = false) :
    stripCheckbox ('-' :: ' ' :: '[' :: c :: ']' :: ' ' :: c0 :: t) = c0 :: t := by
  simp only [stripCheckbox, matchCheckboxPrefix_line hc]
  exact dropWhile_ws_space_seg _ hb rfl

theorem isMarkdownTask_line {c : Char} (hc : c = 'x' ∨ c = ' ') (rest : List Char) :
    isMarkdownTask ('-' :: ' ' :: '[' :: c :: ']' :: rest) = true := by
  rw [isMarkdownTask, matchCheckboxPrefix_line hc]
  rfl

theorem isTaskCompleted_line (c : Char) (rest : List Char) :
    isTaskCompleted ('-' :: ' ' :: '[' :: c :: ']' :: rest) =
      (c = 'x' ∨ c = 'X') := by
  have h0 : ('-' :: ' ' :: '[' :: c :: ']' :: rest).dropWhile isWsChar =
      '-' :: ' ' :: '[' :: c :: ']' :: rest := dropWhile_cons_neg (by decide)
  have h1 : (' ' :: '[' :: c :: ']' :: rest).dropWhile isWsChar =
      '[' :: c :: ']' :: rest := dropWhile_ws_space_seg _ (by decide) rfl
  have h2 : ¬(('[' :: c :: ']' :: rest).length =
      (' ' :: '[' :: c :: ']' :: rest).length) := by
    simp
  simp only [isTaskCompleted, h0, h1]
  rw [if_neg h2]
  exact decide_eq_true_eq

/-- Parsing the content back out of a built canonical line. -/
theorem parseTaskContent_built (d : TaskData) (hc : canonicalTaskData d) :
    parseTaskContent ((buildTaskLine d []).data) = d.content.data := by
  obtain ⟨hcne, hcp, hch, hcl, ⟨us, hlab, husp, hustd, hnd⟩, hP, hD, hT, hDT, hU, hI⟩ := hc
  have hp2 : d.priority = none ∨ ∃ p, d.priority = some p ∧ (p ≠ 0 ∧ p ≠ 1) := by
    rcases hP with h | h | h | h
    · exact Or.inl h
    · exact Or.inr ⟨2, h, by omega, by omega⟩
    · exact Or.inr ⟨3, h, by omega, by omega⟩
    · exact Or.inr ⟨4, h, by omega, by omega⟩
  have hdd2 : d.dueDate = none ∨ ∃ s, d.dueDate = some s ∧ s ≠ "" := by
    rcases hD with h | ⟨a1, a2, a3, a4, a5, a6, a7, a8, e1, e2, e3, e4, e5, e6, e7, e8, hsome⟩
    · exact Or.inl h
    · exact Or.inr ⟨_, hsome, string_ne_empty (by rw [data_mk]; simp)⟩
  have hdt2 : d.dueTime = none ∨ ∃ s, d.dueTime = some s ∧ s ≠ "" := by
    rcases hT with h | ⟨a, b, m1, m2, e1, e2, e3, e4, hsome⟩ | ⟨a, m1, m2, e1, e2, e3, hsome⟩
    · exact Or.inl h
    · exact Or.inr ⟨_, hsome, string_ne_empty (by rw [data_mk]; simp)⟩
    · exact Or.inr ⟨_, hsome, string_ne_empty (by rw [data_mk]; simp)⟩
  have hdu2 : d.duration = none ∨ ∃ n, d.duration = some n ∧ n ≠ 0 := by
    rcases hU with h | ⟨n, hn, h1⟩
    · exact Or.inl h
    · exact Or.inr ⟨n, hn, by omega⟩
  have htid2 : d.tid = none ∨ ∃ s, d.tid = some s ∧ s ≠ "" := by
    rcases hI with h | ⟨s, hs, hne, _⟩
    · exact Or.inl h
    · exact Or.inr ⟨s, hs, string_ne_empty hne⟩
  have hline := buildTaskLine_decomp d hlab hustd hnd hp2 hdd2 hdt2 hdu2 htid2
  have hshD : ∀ s, d.dueDate = some s → ∀ x ∈ s.data, isDigitChar x = true ∨ x = '-' := by
    intro s hs x hx
    rcases hD with h | ⟨a1, a2, a3, a4, a5, a6, a7, a8, e1, e2, e3, e4, e5, e6, e7, e8, hsome⟩
    · rw [h] at hs
      exact Option.noConfusion hs
    · rw [hsome] at hs
      have hse := Option.some.inj hs
      subst hse
      rw [data_mk] at hx
      simp only [List.mem_cons, List.not_mem_nil, or_false] at hx
      rcases hx with rfl | rfl | rfl | rfl | rfl | rfl | rfl | rfl | rfl | rfl
      · exact Or.inl e1
      · exact Or.inl e2
      · exact Or.inl e3
      · exact Or.inl e4
      · exact Or.inr rfl
      · exact Or.inl e5
      · exact Or.inl e6
      · exact Or.inr rfl
      · exact Or.inl e7
      · exact Or.inl e8
  have hshT : ∀ s, d.dueTime = some s → ∀ x ∈ s.data, isDigitChar x = true ∨ x = ':' := by
    intro s hs x hx
    rcases hT with h | ⟨a, b, m1, m2, e1, e2, e3, e4, hsome⟩ | ⟨a, m1, m2, e1, e2, e3, hsome⟩
    · rw [h] at hs
      exact Option.noConfusion hs
    · rw [hsome] at hs
      have hse := Option.some.inj hs
      subst hse
      rw [data_mk] at hx
      simp only [List.mem_cons, List.not_mem_nil, or_false] at hx
      rcases hx with rfl | rfl | rfl | rfl | rfl
      · exact Or.inl e1
      · exact Or.inl e2
      · exact Or.inr rfl
      · exact Or.inl e3
      · exact Or.inl e4
    · rw [hsome] at hs
      have hse := Option.some.inj hs
      subst hse
      rw [data_mk] at hx
      simp only [List.mem_cons, List.not_mem_nil, or_false] at hx
      rcases hx with rfl | rfl | rfl | rfl
      · exact Or.inl e1
      · exact Or.inr rfl
      · exact Or.inl e2
      · exact Or.inl e3
  have huslab : ∀ u ∈ us.map String.data, ∀ x ∈ u, isLabelChar x = true := by
    intro u hu
    obtain ⟨u0, hu0, rfl⟩ := List.mem_map.mp hu
    exact (husp u0 hu0).2
  have husne : ∀ u ∈ us.map String.data, u ≠ [] := by
    intro u hu
    obtain ⟨u0, hu0, rfl⟩ := List.mem_map.mp hu
    exact (husp u0 hu0).1
  have lastCT : ∃ e, (d.content.data).getLast? = some e ∧ isWsChar e = false := by
    cases hg : (d.content.data).getLast? with
    | none =>
      rw [List.getLast?_eq_none_iff] at hg
      exact absurd hg hcne
    | some e => exact ⟨e, rfl, hcl e hg⟩
  have optLS : labelSegOf (us.map String.data) = [] ∨ ∃ e, (labelSegOf (us.map String.data)).getLast? = some e ∧ isWsChar e = false :=
    labelSegOf_last (fun u hu => ⟨husne u hu, huslab u hu⟩)
  have optPS : optSeg (fun p => '!' :: '!' :: natToChars p) d.priority = [] ∨ ∃ e, (optSeg (fun p => '!' :: '!' :: natToChars p) d.priority).getLast? = some e ∧ isWsChar e = false := by
    apply optSeg_last
    intro p hp
    obtain ⟨e, he, hw⟩ := natToChars_last p
    refine ⟨e, ?_, hw⟩
    rw [getLast?_cons_of_ne_nil (by simp [natToChars_ne_nil p]),
      getLast?_cons_of_ne_nil (natToChars_ne_nil p)]
    exact he
  have optDS : optSeg (fun s : String => calChar :: vs16Char :: s.data) d.dueDate = [] ∨ ∃ e, (optSeg (fun s : String => calChar :: vs16Char :: s.data) d.dueDate).getLast? = some e ∧ isWsChar e = false := by
    apply optSeg_last
    intro s hs
    rcases hD with h | ⟨a1, a2, a3, a4, a5, a6, a7, a8, e1, e2, e3, e4, e5, e6, e7, e8, hsome⟩
    · rw [h] at hs
      exact Option.noConfusion hs
    · rw [hsome] at hs
      have hse := Option.some.inj hs
      subst hse
      exact ⟨a8, rfl, digitChar_not_ws e8⟩
  have optTS : optSeg (fun s : String => clockChar :: s.data) d.dueTime = [] ∨ ∃ e, (optSeg (fun s : String => clockChar :: s.data) d.dueTime).getLast? = some e ∧ isWsChar e = false := by
    apply optSeg_last
    intro s hs
    rcases hT with h | ⟨a, b, m1, m2, e1, e2, e3, e4, hsome⟩ | ⟨a, m1, m2, e1, e2, e3, hsome⟩
    · rw [h] at hs
      exact Option.noConfusion hs
    · rw [hsome] at hs
      have hse := Option.some.inj hs
      subst hse
      exact ⟨m2, rfl, digitChar_not_ws e4⟩
    · rw [hsome] at hs
      have hse := Option.some.inj hs
      subst hse
      exact ⟨m2, rfl, digitChar_not_ws e3⟩
  have optUS : optSeg formatDuration d.duration = [] ∨ ∃ e, (optSeg formatDuration d.duration).getLast? = some e ∧ isWsChar e = false := by
    apply optSeg_last
    intro n hn
    exact formatDuration_last n
  have last2 : ∃ e, (d.content.data ++ labelSegOf (us.map String.data)).getLast? = some e ∧ isWsChar e = false := by
    rcases optLS with hnil | hx
    · rw [hnil, List.append_nil]
      exact lastCT
    · exact lastNonWs_append hx
  have last3 : ∃ e, (d.content.data ++ (labelSegOf (us.map String.data) ++ optSeg (fun p => '!' :: '!' :: natToChars p) d.priority)).getLast? = some e ∧ isWsChar e = false := by
    rcases lastNonWs_opt_append optLS optPS with hnil | hx
    · rw [hnil, List.append_nil]
      exact lastCT
    · exact lastNonWs_append hx
  have last4 : ∃ e, (d.content.data ++ (labelSegOf (us.map String.data) ++ (optSeg (fun p => '!' :: '!' :: natToChars p) d.priority ++ optSeg (fun s : String => calChar :: vs16Char :: s.data) d.dueDate))).getLast? = some e ∧ isWsChar e = false := by
    rcases lastNonWs_opt_append optLS (lastNonWs_opt_append optPS optDS) with hnil | hx
    · rw [hnil, List.append_nil]
      exact lastCT
    · exact lastNonWs_append hx
  have last5 : ∃ e, (d.content.data ++ (labelSegOf (us.map String.data) ++ (optSeg (fun p => '!' :: '!' :: natToChars p) d.priority ++ (optSeg (fun s : String => calChar :: vs16Char :: s.data) d.dueDate ++ optSeg (fun s : String => clockChar :: s.data) d.dueTime)))).getLast? = some e ∧ isWsChar e = false := by
    rcases lastNonWs_opt_append optLS (lastNonWs_opt_append optPS
      (lastNonWs_opt_append optDS optTS)) with hnil | hx
    · rw [hnil, List.append_nil]
      exact lastCT
    · exact lastNonWs_append hx
  have last6 : ∃ e, (d.content.data ++ (labelSegOf (us.map String.data) ++ (optSeg (fun p => '!' :: '!' :: natToChars p) d.priority ++ (optSeg (fun s : String => calChar :: vs16Char :: s.data) d.dueDate ++ (optSeg (fun s : String => clockChar :: s.data) d.dueTime ++ optSeg formatDuration d.duration))))).getLast? = some e ∧ isWsChar e = false := by
    rcases lastNonWs_opt_append optLS (lastNonWs_opt_append optPS
      (lastNonWs_opt_append optDS (lastNonWs_opt_append optTS optUS))) with hnil | hx
    · rw [hnil, List.append_nil]
      exact lastCT
    · exact lastNonWs_append hx
  have last7 : ∃ e, (d.content.data ++ (labelSegOf (us.map String.data) ++ (optSeg (fun p => '!' :: '!' :: natToChars p) d.priority ++ (optSeg (fun s : String => calChar :: vs16Char :: s.data) d.dueDate ++ (optSeg (fun s : String => clockChar :: s.data) d.dueTime ++ (optSeg formatDuration d.duration ++ (' ' :: litOf "#tdsync"))))))).getLast? = some e ∧ isWsChar e = false := by
    have hsfx : (' ' :: litOf "#tdsync") <:+ d.content.data ++ (labelSegOf (us.map String.data) ++ (optSeg (fun p => '!' :: '!' :: natToChars p) d.priority ++ (optSeg (fun s : String => calChar :: vs16Char :: s.data) d.dueDate ++ (optSeg (fun s : String => clockChar :: s.data) d.dueTime ++ (optSeg formatDuration d.duration ++ (' ' :: litOf "#tdsync")))))) := by
      refine (((((List.suffix_append _ _).trans (List.suffix_append _ _)).trans
        (List.suffix_append _ _)).trans (List.suffix_append _ _)).trans
        (List.suffix_append _ _)).trans (List.suffix_append _ _)
    refine ⟨'c', ?_, by decide⟩
    rw [getLast?_of_suffix hsfx (by simp)]
    decide
  have chars7 : ∀ c ∈ d.content.data ++ (labelSegOf (us.map String.data) ++ (optSeg (fun p => '!' :: '!' :: natToChars p) d.priority ++ (optSeg (fun s : String => calChar :: vs16Char :: s.data) d.dueDate ++ (optSeg (fun s : String => clockChar :: s.data) d.dueTime ++ (optSeg formatDuration d.duration ++ (' ' :: litOf "#tdsync")))))), c ≠ '%' := by
    intro c hmem
    rcases List.mem_append.mp hmem with h | hmem
    · exact (plainChar_spec (hcp c h)).2.1
    rcases List.mem_append.mp hmem with h | hmem
    · exact (labelClass_safe (mem_labelSegOf huslab h)).1
    rcases List.mem_append.mp hmem with h | hmem
    · exact (prioClass_safe (mem_prioSeg h)).1
    rcases List.mem_append.mp hmem with h | hmem
    · exact (dateClass_safe (mem_dateSeg hshD h)).1
    rcases List.mem_append.mp hmem with h | hmem
    · exact (timeClass_safe (mem_timeSeg hshT h)).1
    rcases List.mem_append.mp hmem with h | hmem
    · exact durClass_safe (mem_durSeg h)
    · exact (labelClass_safe (mem_ySeg hmem)).1
  have chars5 : ∀ c ∈ d.content.data ++ (labelSegOf (us.map String.data) ++ (optSeg (fun p => '!' :: '!' :: natToChars p) d.priority ++ (optSeg (fun s : String => calChar :: vs16Char :: s.data) d.dueDate ++ optSeg (fun s : String => clockChar :: s.data) d.dueTime))), c ≠ hourglassChar := by
    intro c hmem
    rcases List.mem_append.mp hmem with h | hmem
    · exact (plainChar_spec (hcp c h)).2.2.2.1
    rcases List.mem_append.mp hmem with h | hmem
    · exact (labelClass_safe (mem_labelSegOf huslab h)).2.1
    rcases List.mem_append.mp hmem with h | hmem
    · exact (prioClass_safe (mem_prioSeg h)).2.1
    rcases List.mem_append.mp hmem with h | hmem
    · exact (dateClass_safe (mem_dateSeg hshD h)).2.1
    · exact (timeClass_safe (mem_timeSeg hshT hmem)).2
  have chars4 : ∀ c ∈ d.content.data ++ (labelSegOf (us.map String.data) ++ (optSeg (fun p => '!' :: '!' :: natToChars p) d.priority ++ optSeg (fun s : String => calChar :: vs16Char :: s.data) d.dueDate)), c ≠ clockChar := by
    intro c hmem
    rcases List.mem_append.mp hmem with h | hmem
    · exact (plainChar_spec (hcp c h)).2.2.2.2.1
    rcases List.mem_append.mp hmem with h | hmem
    · exact (labelClass_safe (mem_labelSegOf huslab h)).2.2.1
    rcases List.mem_append.mp hmem with h | hmem
    · exact (prioClass_safe (mem_prioSeg h)).2.2.1
    · exact (dateClass_safe (mem_dateSeg hshD hmem)).2.2
  have chars3 : ∀ c ∈ d.content.data ++ (labelSegOf (us.map String.data) ++ optSeg (fun p => '!' :: '!' :: natToChars p) d.priority), c ≠ calChar ∧ c ≠ cal2Char := by
    intro c hmem
    rcases List.mem_append.mp hmem with h | hmem
    · exact ⟨(plainChar_spec (hcp c h)).2.2.2.2.2.1,
        (plainChar_spec (hcp c h)).2.2.2.2.2.2.1⟩
    rcases List.mem_append.mp hmem with h | hmem
    · exact ⟨(labelClass_safe (mem_labelSegOf huslab h)).2.2.2.1,
        (labelClass_safe (mem_labelSegOf huslab h)).2.2.2.2.1⟩
    · exact ⟨(prioClass_safe (mem_prioSeg hmem)).2.2.2.1,
        (prioClass_safe (mem_prioSeg hmem)).2.2.2.2⟩
  have chars2a : ∀ c ∈ d.content.data ++ labelSegOf (us.map String.data), c ≠ '!' := by
    intro c hmem
    rcases List.mem_append.mp hmem with h | hmem
    · exact (plainChar_spec (hcp c h)).2.2.1
    · exact (labelClass_safe (mem_labelSegOf huslab hmem)).2.2.2.2.2.1
  have chars2b : ∀ c ∈ d.content.data ++ labelSegOf (us.map String.data),
      ¬(c = upChar ∨ c = downChar ∨ c = medUpChar ∨ c = medDownChar) := by
    intro c hmem
    rcases List.mem_append.mp hmem with h | hmem
    · have hq := plainChar_spec (hcp c h)
      rintro (rfl | rfl | rfl | rfl)
      · exact hq.2.2.2.2.2.2.2.1 rfl
      · exact hq.2.2.2.2.2.2.2.2.1 rfl
      · exact hq.2.2.2.2.2.2.2.2.2.1 rfl
      · exact hq.2.2.2.2.2.2.2.2.2.2 rfl
    · exact (labelClass_safe (mem_labelSegOf huslab hmem)).2.2.2.2.2.2
  have h0 : stripCheckbox ((buildTaskLine d []).data) = d.content.data ++ (labelSegOf (us.map String.data) ++ (optSeg (fun p => '!' :: '!' :: natToChars p) d.priority ++ (optSeg (fun s : String => calChar :: vs16Char :: s.data) d.dueDate ++ (optSeg (fun s : String => clockChar :: s.data) d.dueTime ++ (optSeg formatDuration d.duration ++ ((' ' :: litOf "#tdsync") ++ optSeg (fun s : String => tidComment s.data) d.tid)))))) := by
    rw [hline]
    cases hcd : d.content.data with
    | nil => exact absurd hcd hcne
    | cons c0 t0 =>
      have hb : isWsChar c0 = false := hch c0 (by rw [hcd]; rfl)
      cases hco : d.completed with
      | false =>
        rw [if_neg (by simp)]
        exact stripCheckbox_line (Or.inr rfl) hb
      | true =>
        rw [if_pos rfl]
        exact stripCheckbox_line (Or.inl rfl) hb
  have h1 : dropFirstMatchingSuffix mTid (d.content.data ++ (labelSegOf (us.map String.data) ++ (optSeg (fun p => '!' :: '!' :: natToChars p) d.priority ++ (optSeg (fun s : String => calChar :: vs16Char :: s.data) d.dueDate ++ (optSeg (fun s : String => clockChar :: s.data) d.dueTime ++ (optSeg formatDuration d.duration ++ ((' ' :: litOf "#tdsync") ++ optSeg (fun s : String => tidComment s.data) d.tid))))))) = d.content.data ++ (labelSegOf (us.map String.data) ++ (optSeg (fun p => '!' :: '!' :: natToChars p) d.priority ++ (optSeg (fun s : String => calChar :: vs16Char :: s.data) d.dueDate ++ (optSeg (fun s : String => clockChar :: s.data) d.dueTime ++ (optSeg formatDuration d.duration ++ (' ' :: litOf "#tdsync")))))) := by
    have hassoc : d.content.data ++ (labelSegOf (us.map String.data) ++ (optSeg (fun p => '!' :: '!' :: natToChars p) d.priority ++ (optSeg (fun s : String => calChar :: vs16Char :: s.data) d.dueDate ++ (optSeg (fun s : String => clockChar :: s.data) d.dueTime ++ (optSeg formatDuration d.duration ++ ((' ' :: litOf "#tdsync") ++ optSeg (fun s : String => tidComment s.data) d.tid)))))) = (d.content.data ++ (labelSegOf (us.map String.data) ++ (optSeg (fun p => '!' :: '!' :: natToChars p) d.priority ++ (optSeg (fun s : String => calChar :: vs16Char :: s.data) d.dueDate ++ (optSeg (fun s : String => clockChar :: s.data) d.dueTime ++ (optSeg formatDuration d.duration ++ (' ' :: litOf "#tdsync"))))))) ++ optSeg (fun s : String => tidComment s.data) d.tid := by
      simp [List.append_assoc]
    rw [hassoc]
    rcases hI with hISn | ⟨si, hIS, hsine, hsia⟩
    · rw [hISn]
      rw [optSeg_none, List.append_nil]
      exact dfms_stage_none (fun cs c0 t hd hq => mTid_false hd hq) chars7 last7
    · rw [hIS]
      rw [optSeg_some]
      exact dfms_stage (fun cs c0 t hd hq => mTid_false hd hq) chars7 last7
        (mTid_genuine hsia)
  have h2 : dropFirstMatchingSuffix mTdsync (d.content.data ++ (labelSegOf (us.map String.data) ++ (optSeg (fun p => '!' :: '!' :: natToChars p) d.priority ++ (optSeg (fun s : String => calChar :: vs16Char :: s.data) d.dueDate ++ (optSeg (fun s : String => clockChar :: s.data) d.dueTime ++ (optSeg formatDuration d.duration ++ (' ' :: litOf "#tdsync"))))))) = d.content.data ++ (labelSegOf (us.map String.data) ++ (optSeg (fun p => '!' :: '!' :: natToChars p) d.priority ++ (optSeg (fun s : String => calChar :: vs16Char :: s.data) d.dueDate ++ (optSeg (fun s : String => clockChar :: s.data) d.dueTime ++ optSeg formatDuration d.duration)))) := by
    have hassoc : d.content.data ++ (labelSegOf (us.map String.data) ++ (optSeg (fun p => '!' :: '!' :: natToChars p) d.priority ++ (optSeg (fun s : String => calChar :: vs16Char :: s.data) d.dueDate ++ (optSeg (fun s : String => clockChar :: s.data) d.dueTime ++ (optSeg formatDuration d.duration ++ (' ' :: litOf "#tdsync")))))) = (d.content.data ++ (labelSegOf (us.map String.data) ++ (optSeg (fun p => '!' :: '!' :: natToChars p) d.priority ++ (optSeg (fun s : String => calChar :: vs16Char :: s.data) d.dueDate ++ (optSeg (fun s : String => clockChar :: s.data) d.dueTime ++ optSeg formatDuration d.duration))))) ++ (' ' :: litOf "#tdsync") := by
      simp [List.append_assoc]
    rw [hassoc]
    exact dfms_tdsync last6
  have h3 : dropFirstMatchingSuffix mDur2 (dropFirstMatchingSuffix mDur1 (d.content.data ++ (labelSegOf (us.map String.data) ++ (optSeg (fun p => '!' :: '!' :: natToChars p) d.priority ++ (optSeg (fun s : String => calChar :: vs16Char :: s.data) d.dueDate ++ (optSeg (fun s : String => clockChar :: s.data) d.dueTime ++ optSeg formatDuration d.duration)))))) =
      d.content.data ++ (labelSegOf (us.map String.data) ++ (optSeg (fun p => '!' :: '!' :: natToChars p) d.priority ++ (optSeg (fun s : String => calChar :: vs16Char :: s.data) d.dueDate ++ optSeg (fun s : String => clockChar :: s.data) d.dueTime))) := by
    have hassoc : d.content.data ++ (labelSegOf (us.map String.data) ++ (optSeg (fun p => '!' :: '!' :: natToChars p) d.priority ++ (optSeg (fun s : String => calChar :: vs16Char :: s.data) d.dueDate ++ (optSeg (fun s : String => clockChar :: s.data) d.dueTime ++ optSeg formatDuration d.duration)))) = (d.content.data ++ (labelSegOf (us.map String.data) ++ (optSeg (fun p => '!' :: '!' :: natToChars p) d.priority ++ (optSeg (fun s : String => calChar :: vs16Char :: s.data) d.dueDate ++ optSeg (fun s : String => clockChar :: s.data) d.dueTime)))) ++ optSeg formatDuration d.duration := by
      simp [List.append_assoc]
    rw [hassoc]
    rcases hU with hUn | ⟨n, hUs, hn1⟩
    · rw [hUn]
      rw [optSeg_none, List.append_nil,
        dfms_stage_none (m := mDur1) (fun cs c0 t hd hq => mDur1_false hd hq)
          chars5 last5]
      exact dfms_stage_none (fun cs c0 t hd hq => mDur2_false hd hq) chars5 last5
    · rw [hUs]
      rw [optSeg_some]
      by_cases h60 : n < 60
      · have hfd : formatDuration n =
            hourglassChar :: (natToChars n ++ litOf "min") := by
          rw [formatDuration, if_pos h60]
        rw [hfd, dfms_stage (m := mDur1) (fun cs c0 t hd hq => mDur1_false hd hq)
          chars5 last5 (mDur1_min n)]
        exact dfms_stage_none (fun cs c0 t hd hq => mDur2_false hd hq) chars5 last5
      · by_cases hmod : n % 60 = 0
        · have hfd : formatDuration n =
              hourglassChar :: (natToChars (n / 60) ++ litOf "h") := by
            rw [formatDuration, if_neg h60, if_pos hmod]
          rw [hfd, dfms_stage (m := mDur1) (fun cs c0 t hd hq => mDur1_false hd hq)
            chars5 last5 (mDur1_hours (n / 60))]
          exact dfms_stage_none (fun cs c0 t hd hq => mDur2_false hd hq) chars5 last5
        · have hfd : formatDuration n = hourglassChar ::
              (natToChars (n / 60) ++ 'h' :: (natToChars (n % 60) ++ ['m'])) := by
            rw [formatDuration, if_neg h60, if_neg hmod]
          rw [hfd, dfms_stage_skip (m := mDur1)
            (fun cs c0 t hd hq => mDur1_false hd hq) chars5
            last5 (mDur1_skip_comb (n / 60) (n % 60))]
          exact dfms_stage (fun cs c0 t hd hq => mDur2_false hd hq) chars5 last5
            (mDur2_comb (n / 60) (n % 60))
  have h4 : dropFirstMatchingSuffix mTime (d.content.data ++ (labelSegOf (us.map String.data) ++ (optSeg (fun p => '!' :: '!' :: natToChars p) d.priority ++ (optSeg (fun s : String => calChar :: vs16Char :: s.data) d.dueDate ++ optSeg (fun s : String => clockChar :: s.data) d.dueTime)))) = d.content.data ++ (labelSegOf (us.map String.data) ++ (optSeg (fun p => '!' :: '!' :: natToChars p) d.priority ++ optSeg (fun s : String => calChar :: vs16Char :: s.data) d.dueDate)) := by
    have hassoc : d.content.data ++ (labelSegOf (us.map String.data) ++ (optSeg (fun p => '!' :: '!' :: natToChars p) d.priority ++ (optSeg (fun s : String => calChar :: vs16Char :: s.data) d.dueDate ++ optSeg (fun s : String => clockChar :: s.data) d.dueTime))) = (d.content.data ++ (labelSegOf (us.map String.data) ++ (optSeg (fun p => '!' :: '!' :: natToChars p) d.priority ++ optSeg (fun s : String => calChar :: vs16Char :: s.data) d.dueDate))) ++ optSeg (fun s : String => clockChar :: s.data) d.dueTime := by
      simp [List.append_assoc]
    rw [hassoc]
    rcases hT with hTn | ⟨a, b, m1, m2, e1, e2, e3, e4, hTs⟩ |
      ⟨a, m1, m2, e1, e2, e3, hTs⟩
    · rw [hTn]
      rw [optSeg_none, List.append_nil]
      exact dfms_stage_none (fun cs c0 t hd hq => mTime_false hd hq) chars4 last4
    · rw [hTs]
      rw [optSeg_some]
      exact dfms_stage (fun cs c0 t hd hq => mTime_false hd hq) chars4 last4
        (mTime_genuine2 e1 e2 e3 e4)
    · rw [hTs]
      rw [optSeg_some]
      exact dfms_stage (fun cs c0 t hd hq => mTime_false hd hq) chars4 last4
        (mTime_genuine1 e1 e2 e3)
  have h5 : dropFirstMatchingSuffix mDate (d.content.data ++ (labelSegOf (us.map String.data) ++ (optSeg (fun p => '!' :: '!' :: natToChars p) d.priority ++ optSeg (fun s : String => calChar :: vs16Char :: s.data) d.dueDate))) = d.content.data ++ (labelSegOf (us.map String.data) ++ optSeg (fun p => '!' :: '!' :: natToChars p) d.priority) := by
    have hassoc : d.content.data ++ (labelSegOf (us.map String.data) ++ (optSeg (fun p => '!' :: '!' :: natToChars p) d.priority ++ optSeg (fun s : String => calChar :: vs16Char :: s.data) d.dueDate)) = (d.content.data ++ (labelSegOf (us.map String.data) ++ optSeg (fun p => '!' :: '!' :: natToChars p) d.priority)) ++ optSeg (fun s : String => calChar :: vs16Char :: s.data) d.dueDate := by
      simp [List.append_assoc]
    rw [hassoc]
    rcases hD with hDn | ⟨a1, a2, a3, a4, a5, a6, a7, a8, e1, e2, e3, e4, e5, e6,
      e7, e8, hDs⟩
    · rw [hDn]
      rw [optSeg_none, List.append_nil]
      exact dfms_stage_none
        (fun cs c0 t hd hq => mDate_false hd hq.1 hq.2) chars3 last3
    · rw [hDs]
      rw [optSeg_some]
      exact dfms_stage (fun cs c0 t hd hq => mDate_false hd hq.1 hq.2) chars3 last3
        (mDate_genuine e1 e2 e3 e4 e5 e6 e7 e8)
  have h6 : dropFirstMatchingSuffix mPrioExpl (d.content.data ++ (labelSegOf (us.map String.data) ++ optSeg (fun p => '!' :: '!' :: natToChars p) d.priority)) = d.content.data ++ labelSegOf (us.map String.data) := by
    have hassoc : d.content.data ++ (labelSegOf (us.map String.data) ++ optSeg (fun p => '!' :: '!' :: natToChars p) d.priority) = (d.content.data ++ labelSegOf (us.map String.data)) ++ optSeg (fun p => '!' :: '!' :: natToChars p) d.priority := by
      simp [List.append_assoc]
    rw [hassoc]
    rcases hP with hPn | hPs | hPs | hPs
    · rw [hPn]
      rw [optSeg_none, List.append_nil]
      exact dfms_stage_none (fun cs c0 t hd hq => mPrioExpl_false hd hq) chars2a last2
    · rw [hPs]
      rw [optSeg_some]
      exact dfms_stage (fun cs c0 t hd hq => mPrioExpl_false hd hq) chars2a last2
        (by decide)
    · rw [hPs]
      rw [optSeg_some]
      exact dfms_stage (fun cs c0 t hd hq => mPrioExpl_false hd hq) chars2a last2
        (by decide)
    · rw [hPs]
      rw [optSeg_some]
      exact dfms_stage (fun cs c0 t hd hq => mPrioExpl_false hd hq) chars2a last2
        (by decide)
  have h7 : dropFirstMatchingSuffix mPrioEmoji (d.content.data ++ labelSegOf (us.map String.data)) = d.content.data ++ labelSegOf (us.map String.data) :=
    dfms_stage_none (fun cs c0 t hd hq => mPrioEmoji_false hd hq) chars2b last2
  have h8 : stripHashtags (d.content.data ++ labelSegOf (us.map String.data)) = d.content.data := by
    rw [stripHashtags_skip (labelSegOf (us.map String.data)) ?hml]
    case hml =>
      intro zs hz hs
      obtain ⟨e, he, hw⟩ := lastCT
      have hzl : zs.getLast? = some e := by rw [← getLast?_of_suffix hs hz, he]
      obtain ⟨c0, t, hdw, hmem, hc0w⟩ := dropWhile_ws_shape ⟨e, getLast?_mem' hzl, hw⟩
      have hdw2 : (zs ++ labelSegOf (us.map String.data)).dropWhile isWsChar =
          c0 :: (t ++ labelSegOf (us.map String.data)) := by
        rw [dropWhile_append_left _ ⟨e, getLast?_mem' hzl, hw⟩, hdw]
        rfl
      exact hashMatchLen_none hdw2 ((plainChar_spec (hcp c0 (hs.sublist.subset hmem))).1)
    have hlf : stripHashtags (labelSegOf (us.map String.data)) = [] :=
      stripHashtags_labelFlat (us.map String.data)
        (fun u hu => ⟨husne u hu, huslab u hu⟩)
    rw [hlf, List.append_nil]
  simp only [parseTaskContent]
  rw [h0, h1, h2, h3, h4, h5, h6, h7, h8, trimChars_id hch hcl]


/-! Full-line scanning infrastructure for the field extractors. -/

theorem firstSome_found {β : Type} {E : List Char → Option β} {P : Char → Prop}
    (hE : ∀ c t, P c → E (c :: t) = none)
    {X S : List Char} {v : β} (hX : ∀ c ∈ X, P c) (hne : S ≠ [])
    (hv : E S = some v) : firstSome E (X ++ S) = some v := by
  match S, hne with
  | mc :: R, _ =>
    rw [firstSome_append_skip]
    · exact firstSome_cons_some hv
    · intro zs hz hs
      match zs with
      | c :: t =>
        have hc : c ∈ X := hs.sublist.subset (List.mem_cons_self c t)
        show E (c :: (t ++ mc :: R)) = none
        exact hE c (t ++ mc :: R) (hX c hc)

theorem optSeg_head {α : Type} (f : α → List Char) (o : Option α) :
    optSeg f o = [] ∨ ∃ b, optSeg f o = ' ' :: b := by
  cases o with
  | none => exact Or.inl rfl
  | some x => exact Or.inr ⟨f x, rfl⟩

theorem parseLabels_all_skip {xs : List Char} (h : ∀ c ∈ xs, c ≠ '#') :
    parseLabels xs = [] := by
  have h2 := parseLabels_skip [] h
  rw [List.append_nil] at h2
  exact h2

theorem parseLabels_labelSeg {R : List Char} (hR : R.head? = some ' ') :
    ∀ vs : List (List Char), (∀ u ∈ vs, u ≠ [] ∧ ∀ x ∈ u, isLabelChar x = true) →
    parseLabels (labelSegOf vs ++ R) = vs ++ parseLabels R := by
  intro vs
  induction vs with
  | nil => intro h; rfl
  | cons v t ih =>
    intro h
    obtain ⟨hvne, hvl⟩ := h v (List.mem_cons_self v t)
    have hflat : labelSegOf (v :: t) ++ R =
        ' ' :: '#' :: (v ++ (labelSegOf t ++ R)) := by
      simp [labelSegOf]
    rw [hflat, parseLabels_cons, if_neg (by decide), parseLabels_tag hvne hvl ?hy,
      ih (fun u hu => h u (List.mem_cons_of_mem v hu))]
    · rfl
    case hy =>
      intro c hhead
      cases ht : t with
      | nil =>
        rw [ht] at hhead
        show isLabelChar c = false
        have : (labelSegOf ([] : List (List Char)) ++ R).head? = some ' ' := by
          simpa [labelSegOf] using hR
        rw [this] at hhead
        have hce := Option.some.inj hhead
        subst hce
        decide
      | cons w t2 =>
        rw [ht] at hhead
        have : (labelSegOf (w :: t2) ++ R).head? = some ' ' := by
          simp [labelSegOf]
        rw [this] at hhead
        have hce := Option.some.inj hhead
        subst hce
        decide

/-! Marker exclusions for every character class of a built line. -/

theorem cb_safe {c : Char} {co : Bool}
    (h : c ∈ (if co = true then litOf "- [x]" else litOf "- [ ]")) :
    c ≠ '#' ∧ c ≠ '%' ∧ c ≠ '!' ∧ c ≠ hourglassChar ∧ c ≠ clockChar ∧
    c ≠ calChar ∧ c ≠ cal2Char ∧
    ¬(c = upChar ∨ c = downChar ∨ c = medUpChar ∨ c = medDownChar) := by
  cases co with
  | false =>
    rw [if_neg (by simp)] at h
    fin_cases h <;> exact ⟨by decide, by decide, by decide, by decide, by decide,
      by decide, by decide, by decide⟩
  | true =>
    rw [if_pos rfl] at h
    fin_cases h <;> exact ⟨by decide, by decide, by decide, by decide, by decide,
      by decide, by decide, by decide⟩

theorem prioClass_all {c : Char} (h : c = ' ' ∨ c = '!' ∨ isDigitChar c = true) :
    c ≠ '#' ∧ c ≠ '%' ∧ c ≠ hourglassChar ∧ c ≠ clockChar ∧ c ≠ calChar ∧
    c ≠ cal2Char ∧
    ¬(c = upChar ∨ c = downChar ∨ c = medUpChar ∨ c = medDownChar) := by
  rcases h with rfl | rfl | h
  · exact ⟨by decide, by decide, by decide, by decide, by decide, by decide,
      by decide⟩
  · exact ⟨by decide, by decide, by decide, by decide, by decide, by decide,
      by decide⟩
  · obtain ⟨h1, h2, h3, h4, h5, _, h7⟩ := digit_safe h
    refine ⟨char_ne_of_toNat ?_, h1, h2, h3, h4, h5, h7⟩
    rw [isDigitChar_iff] at h
    show c.toNat ≠ 35
    omega

theorem dateClass_all {c : Char}
    (h : c = ' ' ∨ c = calChar ∨ c = vs16Char ∨ isDigitChar c = true ∨ c = '-') :
    c ≠ '#' ∧ c ≠ '%' ∧ c ≠ '!' ∧ c ≠ hourglassChar ∧ c ≠ clockChar ∧
    ¬(c = upChar ∨ c = downChar ∨ c = medUpChar ∨ c = medDownChar) := by
  rcases h with rfl | rfl | rfl | h | rfl
  · exact ⟨by decide, by decide, by decide, by decide, by decide, by decide⟩
  · exact ⟨by decide, by decide, by decide, by decide, by decide, by decide⟩
  · exact ⟨by decide, by decide, by decide, by decide, by decide, by decide⟩
  · obtain ⟨h1, h2, h3, _, _, h6, h7⟩ := digit_safe h
    refine ⟨char_ne_of_toNat ?_, h1, h6, h2, h3, h7⟩
    rw [isDigitChar_iff] at h
    show c.toNat ≠ 35
    omega
  · exact ⟨by decide, by decide, by decide, by decide, by decide, by decide⟩

theorem timeClass_all {c : Char}
    (h : c = ' ' ∨ c = clockChar ∨ isDigitChar c = true ∨ c = ':') :
    c ≠ '#' ∧ c ≠ '%' ∧ c ≠ '!' ∧ c ≠ hourglassChar ∧ c ≠ calChar ∧
    c ≠ cal2Char ∧
    ¬(c = upChar ∨ c = downChar ∨ c = medUpChar ∨ c = medDownChar) := by
  rcases h with rfl | rfl | h | rfl
  · exact ⟨by decide, by decide, by decide, by decide, by decide, by decide,
      by decide⟩
  · exact ⟨by decide, by decide, by decide, by decide, by decide, by decide,
      by decide⟩
  · obtain ⟨h1, h2, _, h4, h5, h6, h7⟩ := digit_safe h
    refine ⟨char_ne_of_toNat ?_, h1, h6, h2, h4, h5, h7⟩
    rw [isDigitChar_iff] at h
    show c.toNat ≠ 35
    omega
  · exact ⟨by decide, by decide, by decide, by decide, by decide, by decide,
      by decide⟩

theorem durClass_all {c : Char}
    (h : c = ' ' ∨ c = hourglassChar ∨ isDigitChar c = true ∨ c = 'h' ∨ c = 'm' ∨
      c = 'i' ∨ c = 'n') :
    c ≠ '#' ∧ c ≠ '%' ∧ c ≠ '!' ∧ c ≠ clockChar ∧ c ≠ calChar ∧ c ≠ cal2Char ∧
    ¬(c = upChar ∨ c = downChar ∨ c = medUpChar ∨ c = medDownChar) := by
  rcases h with rfl | rfl | h | rfl | rfl | rfl | rfl
  · exact ⟨by decide, by decide, by decide, by decide, by decide, by decide,
      by decide⟩
  · exact ⟨by decide, by decide, by decide, by decide, by decide, by decide,
      by decide⟩
  · obtain ⟨h1, _, h3, h4, h5, h6, h7⟩ := digit_safe h
    refine ⟨char_ne_of_toNat ?_, h1, h6, h3, h4, h5, h7⟩
    rw [isDigitChar_iff] at h
    show c.toNat ≠ 35
    omega
  · exact ⟨by decide, by decide, by decide, by decide, by decide, by decide,
      by decide⟩
  · exact ⟨by decide, by decide, by decide, by decide, by decide, by decide,
      by decide⟩
  · exact ⟨by decide, by decide, by decide, by decide, by decide, by decide,
      by decide⟩
  · exact ⟨by decide, by decide, by decide, by decide, by decide, by decide,
      by decide⟩

theorem mem_tidComment {c : Char} {id : List Char}
    (hall : ∀ x ∈ id, isAlnumChar x = true) (hc : c ∈ tidComment id) :
    isAlnumChar c = true ∨ c ∈ litOf " %[]():/." := by
  rw [tidComment_shape] at hc
  rcases List.mem_append.mp hc with h | hc
  · fin_cases h <;> decide
  · rcases List.mem_cons.mp hc with rfl | hc
    · decide
    rcases List.mem_cons.mp hc with rfl | hc
    · decide
    rcases List.mem_append.mp hc with h | hc
    · exact Or.inl (hall c h)
    rcases List.mem_cons.mp hc with rfl | hc
    · decide
    rcases List.mem_append.mp hc with h | hc
    · fin_cases h <;> decide
    rcases List.mem_append.mp hc with h | hc
    · exact Or.inl (hall c h)
    · fin_cases hc <;> decide

theorem alnum_safe {c : Char} (h : isAlnumChar c = true) :
    c ≠ '%' ∧ c ≠ hourglassChar ∧ c ≠ clockChar ∧ c ≠ calChar ∧ c ≠ cal2Char ∧
    c ≠ '!' ∧ ¬(c = upChar ∨ c = downChar ∨ c = medUpChar ∨ c = medDownChar) := by
  rw [isAlnumChar_iff] at h
  refine ⟨char_ne_of_toNat ?_, char_ne_of_toNat ?_, char_ne_of_toNat ?_,
    char_ne_of_toNat ?_, char_ne_of_toNat ?_, char_ne_of_toNat ?_, ?_⟩
  · show c.toNat ≠ 37
    omega
  · show c.toNat ≠ 9203
    omega
  · show c.toNat ≠ 9200
    omega
  · show c.toNat ≠ 128467
    omega
  · show c.toNat ≠ 128197
    omega
  · show c.toNat ≠ 33
    omega
  · rintro (rfl | rfl | rfl | rfl) <;> revert h <;> decide

theorem tidClass_all {c : Char}
    (h : isAlnumChar c = true ∨ c ∈ litOf " %[]():/.") :
    c ≠ '#' ∧ c ≠ '!' ∧ c ≠ hourglassChar ∧ c ≠ clockChar ∧ c ≠ calChar ∧
    c ≠ cal2Char ∧
    ¬(c = upChar ∨ c = downChar ∨ c = medUpChar ∨ c = medDownChar) := by
  rcases h with h | h
  · obtain ⟨h1, h2, h3, h4, h5, h6, h7⟩ := alnum_safe h
    refine ⟨char_ne_of_toNat ?_, h6, h2, h3, h4, h5, h7⟩
    rw [isAlnumChar_iff] at h
    show c.toNat ≠ 35
    omega
  · fin_cases h <;> exact ⟨by decide, by decide, by decide, by decide, by decide,
      by decide, by decide⟩

theorem tidComment_ne_nil (id : List Char) : tidComment id ≠ [] := by
  rw [tidComment_shape]
  intro h
  rw [List.append_eq_nil] at h
  exact absurd h.1 (by decide)


/-- The canonical-line bundle: the label list and the segment decomposition. -/
theorem canonical_line (d : TaskData) (hc : canonicalTaskData d) :
    ∃ us : List String, d.labels = us ++ ["tdsync"] ∧
      (∀ u ∈ us, u.data ≠ [] ∧ ∀ c ∈ u.data, isLabelChar c = true) ∧
      (buildTaskLine d []).data =
        (if d.completed then litOf "- [x]" else litOf "- [ ]") ++
        ((' ' :: d.content.data) ++
        (labelSegOf (us.map String.data) ++
        (optSeg (fun p => '!' :: '!' :: natToChars p) d.priority ++
        (optSeg (fun s : String => calChar :: vs16Char :: s.data) d.dueDate ++
        (optSeg (fun s : String => clockChar :: s.data) d.dueTime ++
        (optSeg formatDuration d.duration ++
        ((' ' :: litOf "#tdsync") ++
        optSeg (fun s : String => tidComment s.data) d.tid))))))) := by
  obtain ⟨hcne, hcp, hch, hcl, ⟨us, hlab, husp, hustd, hnd⟩, hP, hD, hT, hDT, hU, hI⟩ := hc
  have hp2 : d.priority = none ∨ ∃ p, d.priority = some p ∧ (p ≠ 0 ∧ p ≠ 1) := by
    rcases hP with h | h | h | h
    · exact Or.inl h
    · exact Or.inr ⟨2, h, by omega, by omega⟩
    · exact Or.inr ⟨3, h, by omega, by omega⟩
    · exact Or.inr ⟨4, h, by omega, by omega⟩
  have hdd2 : d.dueDate = none ∨ ∃ s, d.dueDate = some s ∧ s ≠ "" := by
    rcases hD with h | ⟨a1, a2, a3, a4, a5, a6, a7, a8, e1, e2, e3, e4, e5, e6, e7, e8, hsome⟩
    · exact Or.inl h
    · exact Or.inr ⟨_, hsome, string_ne_empty (by rw [data_mk]; simp)⟩
  have hdt2 : d.dueTime = none ∨ ∃ s, d.dueTime = some s ∧ s ≠ "" := by
    rcases hT with h | ⟨a, b, m1, m2, e1, e2, e3, e4, hsome⟩ | ⟨a, m1, m2, e1, e2, e3, hsome⟩
    · exact Or.inl h
    · exact Or.inr ⟨_, hsome, string_ne_empty (by rw [data_mk]; simp)⟩
    · exact Or.inr ⟨_, hsome, string_ne_empty (by rw [data_mk]; simp)⟩
  have hdu2 : d.duration = none ∨ ∃ n, d.duration = some n ∧ n ≠ 0 := by
    rcases hU with h | ⟨n, hn, h1⟩
    · exact Or.inl h
    · exact Or.inr ⟨n, hn, by omega⟩
  have htid2 : d.tid = none ∨ ∃ s, d.tid = some s ∧ s ≠ "" := by
    rcases hI with h | ⟨s, hs, hne, _⟩
    · exact Or.inl h
    · exact Or.inr ⟨s, hs, string_ne_empty hne⟩
  exact ⟨us, hlab, husp, buildTaskLine_decomp d hlab hustd hnd hp2 hdd2 hdt2 hdu2 htid2⟩

theorem map_mk_data (us : List String) :
    (us.map String.data).map String.mk = us := by
  rw [List.map_map]
  have h : String.mk ∘ String.data = id := funext mk_data
  rw [h, List.map_id]

/-- The labels parsed back from a built canonical line. -/
theorem parseLabels_built (d : TaskData) (hc : canonicalTaskData d) :
    (parseLabels ((buildTaskLine d []).data)).map String.mk = d.labels := by
  obtain ⟨us, hlab, husp, hline⟩ := canonical_line d hc
  obtain ⟨hcne, hcp, hch, hcl, ⟨us2, hlab2, husp2, hustd, hnd⟩, hP, hD, hT, hDT, hU, hI⟩ := hc
  have hshD : ∀ s, d.dueDate = some s → ∀ x ∈ s.data, isDigitChar x = true ∨ x = '-' := by
    intro s hs x hx
    rcases hD with h | ⟨a1, a2, a3, a4, a5, a6, a7, a8, e1, e2, e3, e4, e5, e6, e7, e8, hsome⟩
    · rw [h] at hs
      exact Option.noConfusion hs
    · rw [hsome] at hs
      have hse := Option.some.inj hs
      subst hse
      rw [data_mk] at hx
      simp only [List.mem_cons, List.not_mem_nil, or_false] at hx
      rcases hx with rfl | rfl | rfl | rfl | rfl | rfl | rfl | rfl | rfl | rfl
      · exact Or.inl e1
      · exact Or.inl e2
      · exact Or.inl e3
      · exact Or.inl e4
      · exact Or.inr rfl
      · exact Or.inl e5
      · exact Or.inl e6
      · exact Or.inr rfl
      · exact Or.inl e7
      · exact Or.inl e8
  have hshT : ∀ s, d.dueTime = some s → ∀ x ∈ s.data, isDigitChar x = true ∨ x = ':' := by
    intro s hs x hx
    rcases hT with h | ⟨a, b, m1, m2, e1, e2, e3, e4, hsome⟩ | ⟨a, m1, m2, e1, e2, e3, hsome⟩
    · rw [h] at hs
      exact Option.noConfusion hs
    · rw [hsome] at hs
      have hse := Option.some.inj hs
      subst hse
      rw [data_mk] at hx
      simp only [List.mem_cons, List.not_mem_nil, or_false] at hx
      rcases hx with rfl | rfl | rfl | rfl | rfl
      · exact Or.inl e1
      · exact Or.inl e2
      · exact Or.inr rfl
      · exact Or.inl e3
      · exact Or.inl e4
    · rw [hsome] at hs
      have hse := Option.some.inj hs
      subst hse
      rw [data_mk] at hx
      simp only [List.mem_cons, List.not_mem_nil, or_false] at hx
      rcases hx with rfl | rfl | rfl | rfl
      · exact Or.inl e1
      · exact Or.inr rfl
      · exact Or.inl e2
      · exact Or.inl e3
  rw [hline]
  have hassoc1 : (if d.completed then litOf "- [x]" else litOf "- [ ]") ++
      ((' ' :: d.content.data) ++
      (labelSegOf (us.map String.data) ++
      (optSeg (fun p => '!' :: '!' :: natToChars p) d.priority ++ (optSeg (fun s : String => calChar :: vs16Char :: s.data) d.dueDate ++ (optSeg (fun s : String => clockChar :: s.data) d.dueTime ++ (optSeg formatDuration d.duration ++ ((' ' :: litOf "#tdsync") ++ optSeg (fun s : String => tidComment s.data) d.tid))))))) =
      ((if d.completed then litOf "- [x]" else litOf "- [ ]") ++
        (' ' :: d.content.data)) ++
      (labelSegOf (us.map String.data) ++
      (optSeg (fun p => '!' :: '!' :: natToChars p) d.priority ++ (optSeg (fun s : String => calChar :: vs16Char :: s.data) d.dueDate ++ (optSeg (fun s : String => clockChar :: s.data) d.dueTime ++ (optSeg formatDuration d.duration ++ ((' ' :: litOf "#tdsync") ++ optSeg (fun s : String => tidComment s.data) d.tid)))))) :=
    (List.append_assoc _ _ _).symm
  rw [hassoc1, parseLabels_skip _ ?hcb]
  case hcb =>
    intro c hcm
    rcases List.mem_append.mp hcm with h | hcm
    · exact (cb_safe h).1
    · rcases List.mem_cons.mp hcm with rfl | h
      · decide
      · exact (plainChar_spec (hcp c h)).1
  rw [parseLabels_labelSeg ?hR (us.map String.data)
    (fun u hu => ⟨(by
      obtain ⟨u0, hu0, rfl⟩ := List.mem_map.mp hu
      exact (husp u0 hu0).1), (by
      obtain ⟨u0, hu0, rfl⟩ := List.mem_map.mp hu
      exact (husp u0 hu0).2)⟩)]
  case hR =>
    apply head_space_append (optSeg_head _ _)
    apply head_space_append (optSeg_head _ _)
    apply head_space_append (optSeg_head _ _)
    apply head_space_append (optSeg_head _ _)
    rfl
  have hassoc2 : optSeg (fun p => '!' :: '!' :: natToChars p) d.priority ++ (optSeg (fun s : String => calChar :: vs16Char :: s.data) d.dueDate ++ (optSeg (fun s : String => clockChar :: s.data) d.dueTime ++ (optSeg formatDuration d.duration ++ ((' ' :: litOf "#tdsync") ++ optSeg (fun s : String => tidComment s.data) d.tid)))) =
      (optSeg (fun p => '!' :: '!' :: natToChars p) d.priority ++ (optSeg (fun s : String => calChar :: vs16Char :: s.data) d.dueDate ++ (optSeg (fun s : String => clockChar :: s.data) d.dueTime ++ (optSeg formatDuration d.duration ++ [' '])))) ++
        (litOf "#tdsync" ++ optSeg (fun s : String => tidComment s.data) d.tid) := by
    simp [List.append_assoc]
  rw [hassoc2, parseLabels_skip _ ?hmid]
  case hmid =>
    intro c hcm
    rcases List.mem_append.mp hcm with h | hcm
    · exact (prioClass_all (mem_prioSeg h)).1
    rcases List.mem_append.mp hcm with h | hcm
    · exact (dateClass_all (mem_dateSeg hshD h)).1
    rcases List.mem_append.mp hcm with h | hcm
    · exact (timeClass_all (mem_timeSeg hshT h)).1
    rcases List.mem_append.mp hcm with h | hcm
    · exact (durClass_all (mem_durSeg h)).1
    · rcases List.mem_cons.mp hcm with rfl | h
      · decide
      · cases h
  have hISnil : parseLabels (optSeg (fun s : String => tidComment s.data) d.tid) = [] := by
    apply parseLabels_all_skip
    intro c hcm
    rcases hI with hIn | ⟨si, hIs, hsine, hsia⟩
    · rw [hIn] at hcm
      cases hcm
    · rw [hIs] at hcm
      rcases List.mem_cons.mp hcm with rfl | h
      · decide
      · exact (tidClass_all (mem_tidComment hsia h)).1
  have htag : parseLabels (litOf "#tdsync" ++ optSeg (fun s : String => tidComment s.data) d.tid) = [litOf "tdsync"] := by
    show parseLabels ('#' :: (litOf "tdsync" ++ optSeg (fun s : String => tidComment s.data) d.tid)) = [litOf "tdsync"]
    rw [parseLabels_tag (by decide) (by decide) ?hy, hISnil]
    case hy =>
      intro c hhead
      rcases optSeg_head (fun s : String => tidComment s.data) d.tid with hz | ⟨b, hz⟩
      · rw [hz] at hhead
        exact Option.noConfusion hhead
      · rw [hz] at hhead
        have hce := Option.some.inj hhead
        subst hce
        decide
  rw [htag, List.map_append, map_mk_data, hlab]
  rfl


/-- The priority parsed back from a built canonical line. -/
theorem parsePriority_built (d : TaskData) (hc : canonicalTaskData d) :
    parsePriority ((buildTaskLine d []).data) = d.priority := by
  obtain ⟨us, hlab, husp, hline⟩ := canonical_line d hc
  obtain ⟨hcne, hcp, hch, hcl, ⟨us2, hlab2, husp2, hustd, hnd⟩, hP, hD, hT, hDT,
    hU, hI⟩ := hc
  have hshD : ∀ s, d.dueDate = some s →
      ∀ x ∈ s.data, isDigitChar x = true ∨ x = '-' := by
    intro s hs x hx
    rcases hD with h | ⟨a1, a2, a3, a4, a5, a6, a7, a8, e1, e2, e3, e4, e5, e6,
      e7, e8, hsome⟩
    · rw [h] at hs
      exact Option.noConfusion hs
    · rw [hsome] at hs
      have hse := Option.some.inj hs
      subst hse
      rw [data_mk] at hx
      simp only [List.mem_cons, List.not_mem_nil, or_false] at hx
      rcases hx with rfl | rfl | rfl | rfl | rfl | rfl | rfl | rfl | rfl | rfl
      · exact Or.inl e1
      · exact Or.inl e2
      · exact Or.inl e3
      · exact Or.inl e4
      · exact Or.inr rfl
      · exact Or.inl e5
      · exact Or.inl e6
      · exact Or.inr rfl
      · exact Or.inl e7
      · exact Or.inl e8
  have hshT : ∀ s, d.dueTime = some s →
      ∀ x ∈ s.data, isDigitChar x = true ∨ x = ':' := by
    intro s hs x hx
    rcases hT with h | ⟨a, b, m1, m2, e1, e2, e3, e4, hsome⟩ |
      ⟨a, m1, m2, e1, e2, e3, hsome⟩
    · rw [h] at hs
      exact Option.noConfusion hs
    · rw [hsome] at hs
      have hse := Option.some.inj hs
      subst hse
      rw [data_mk] at hx
      simp only [List.mem_cons, List.not_mem_nil, or_false] at hx
      rcases hx with rfl | rfl | rfl | rfl | rfl
      · exact Or.inl e1
      · exact Or.inl e2
      · exact Or.inr rfl
      · exact Or.inl e3
      · exact Or.inl e4
    · rw [hsome] at hs
      have hse := Option.some.inj hs
      subst hse
      rw [data_mk] at hx
      simp only [List.mem_cons, List.not_mem_nil, or_false] at hx
      rcases hx with rfl | rfl | rfl | rfl
      · exact Or.inl e1
      · exact Or.inr rfl
      · exact Or.inl e2
      · exact Or.inl e3
  have huslab : ∀ u ∈ us.map String.data, ∀ x ∈ u, isLabelChar x = true := by
    intro u hu
    obtain ⟨u0, hu0, rfl⟩ := List.mem_map.mp hu
    exact (husp u0 hu0).2
  rcases hP with hPn | hPs | hPs | hPs
  · rw [hPn] at hline
    rw [optSeg_none, List.nil_append] at hline
    have hallb : ∀ c ∈ (buildTaskLine d []).data, c ≠ '!' ∧
        ¬(c = upChar ∨ c = downChar ∨ c = medUpChar ∨ c = medDownChar) := by
      intro c hcm
      rw [hline] at hcm
      rcases List.mem_append.mp hcm with h | hcm
      · exact ⟨(cb_safe h).2.2.1, (cb_safe h).2.2.2.2.2.2.2⟩
      rcases List.mem_cons.mp hcm with rfl | hcm
      · exact ⟨by decide, by decide⟩
      rcases List.mem_append.mp hcm with h | hcm
      · refine ⟨(plainChar_spec (hcp c h)).2.2.1, ?_⟩
        have hq := plainChar_spec (hcp c h)
        rintro (rfl | rfl | rfl | rfl)
        · exact hq.2.2.2.2.2.2.2.1 rfl
        · exact hq.2.2.2.2.2.2.2.2.1 rfl
        · exact hq.2.2.2.2.2.2.2.2.2.1 rfl
        · exact hq.2.2.2.2.2.2.2.2.2.2 rfl
      rcases List.mem_append.mp hcm with h | hcm
      · exact ⟨(labelClass_safe (mem_labelSegOf huslab h)).2.2.2.2.2.1,
          (labelClass_safe (mem_labelSegOf huslab h)).2.2.2.2.2.2⟩
      rcases List.mem_append.mp hcm with h | hcm
      · exact ⟨(dateClass_all (mem_dateSeg hshD h)).2.2.1,
          (dateClass_all (mem_dateSeg hshD h)).2.2.2.2.2⟩
      rcases List.mem_append.mp hcm with h | hcm
      · exact ⟨(timeClass_all (mem_timeSeg hshT h)).2.2.1,
          (timeClass_all (mem_timeSeg hshT h)).2.2.2.2.2.2⟩
      rcases List.mem_append.mp hcm with h | hcm
      · exact ⟨(durClass_all (mem_durSeg h)).2.2.1,
          (durClass_all (mem_durSeg h)).2.2.2.2.2.2⟩
      rcases List.mem_append.mp hcm with h | hcm
      · exact ⟨(labelClass_safe (mem_ySeg h)).2.2.2.2.2.1,
          (labelClass_safe (mem_ySeg h)).2.2.2.2.2.2⟩
      · rcases hI with hIn | ⟨si, hIs, hsine, hsia⟩
        · rw [hIn] at hcm
          cases hcm
        · rw [hIs] at hcm
          rcases List.mem_cons.mp hcm with rfl | h
          · exact ⟨by decide, by decide⟩
          · exact ⟨(tidClass_all (mem_tidComment hsia h)).2.1,
              (tidClass_all (mem_tidComment hsia h)).2.2.2.2.2.2⟩
    have hnone : firstSome prioExplAt ((buildTaskLine d []).data) = none := by
      apply firstSome_none_of_all (fun c t hq => prioExplAt_none hq) rfl
      intro c hcm
      exact (hallb c hcm).1
    have hup : (buildTaskLine d []).data.contains upChar = false := by
      have hn : upChar ∉ (buildTaskLine d []).data :=
        fun hm => (hallb upChar hm).2 (Or.inl rfl)
      simpa using hn
    have hmu : (buildTaskLine d []).data.contains medUpChar = false := by
      have hn : medUpChar ∉ (buildTaskLine d []).data :=
        fun hm => (hallb medUpChar hm).2 (Or.inr (Or.inr (Or.inl rfl)))
      simpa using hn
    have hmd : (buildTaskLine d []).data.contains medDownChar = false := by
      have hn : medDownChar ∉ (buildTaskLine d []).data :=
        fun hm => (hallb medDownChar hm).2 (Or.inr (Or.inr (Or.inr rfl)))
      simpa using hn
    rw [parsePriority, hnone, hup, hmu, hmd, hPn]
    rfl
  · have hPSx : optSeg (fun p => '!' :: '!' :: natToChars p) d.priority = ' ' :: '!' :: '!' :: ['2'] := by
      rw [hPs]
      decide
    rw [hPSx] at hline
    have hassoc : (if d.completed then litOf "- [x]" else litOf "- [ ]") ++
        ((' ' :: d.content.data) ++
        (labelSegOf (us.map String.data) ++
        ((' ' :: '!' :: '!' :: ['2']) ++
        (optSeg (fun s : String => calChar :: vs16Char :: s.data) d.dueDate ++
        (optSeg (fun s : String => clockChar :: s.data) d.dueTime ++
        (optSeg formatDuration d.duration ++
        ((' ' :: litOf "#tdsync") ++
        optSeg (fun s : String => tidComment s.data) d.tid))))))) =
        ((if d.completed then litOf "- [x]" else litOf "- [ ]") ++
          ((' ' :: d.content.data) ++ (labelSegOf (us.map String.data) ++ [' ']))) ++
        ('!' :: '!' :: '2' ::
          (optSeg (fun s : String => calChar :: vs16Char :: s.data) d.dueDate ++
          (optSeg (fun s : String => clockChar :: s.data) d.dueTime ++
          (optSeg formatDuration d.duration ++
          ((' ' :: litOf "#tdsync") ++
          optSeg (fun s : String => tidComment s.data) d.tid))))) := by
      simp [List.append_assoc]
    rw [hline, hassoc]
    have hfound : firstSome prioExplAt
        (((if d.completed then litOf "- [x]" else litOf "- [ ]") ++
          ((' ' :: d.content.data) ++ (labelSegOf (us.map String.data) ++ [' ']))) ++
        ('!' :: '!' :: '2' ::
          (optSeg (fun s : String => calChar :: vs16Char :: s.data) d.dueDate ++
          (optSeg (fun s : String => clockChar :: s.data) d.dueTime ++
          (optSeg formatDuration d.duration ++
          ((' ' :: litOf "#tdsync") ++
          optSeg (fun s : String => tidComment s.data) d.tid)))))) = some 2 :=
      firstSome_found (fun c t hq => prioExplAt_none hq) (by
        intro c hcm
        rcases List.mem_append.mp hcm with h | hcm
        · exact (cb_safe h).2.2.1
        rcases List.mem_cons.mp hcm with rfl | hcm
        · decide
        rcases List.mem_append.mp hcm with h | hcm
        · exact (plainChar_spec (hcp c h)).2.2.1
        rcases List.mem_append.mp hcm with h | hcm
        · exact (labelClass_safe (mem_labelSegOf huslab h)).2.2.2.2.2.1
        rcases List.mem_cons.mp hcm with rfl | h
        · decide
        · cases h) (by simp) (prioExplAt_two _)
    rw [parsePriority, hfound, hPs]
  · have hPSx : optSeg (fun p => '!' :: '!' :: natToChars p) d.priority = ' ' :: '!' :: '!' :: ['3'] := by
      rw [hPs]
      decide
    rw [hPSx] at hline
    have hassoc : (if d.completed then litOf "- [x]" else litOf "- [ ]") ++
        ((' ' :: d.content.data) ++
        (labelSegOf (us.map String.data) ++
        ((' ' :: '!' :: '!' :: ['3']) ++
        (optSeg (fun s : String => calChar :: vs16Char :: s.data) d.dueDate ++
        (optSeg (fun s : String => clockChar :: s.data) d.dueTime ++
        (optSeg formatDuration d.duration ++
        ((' ' :: litOf "#tdsync") ++
        optSeg (fun s : String => tidComment s.data) d.tid))))))) =
        ((if d.completed then litOf "- [x]" else litOf "- [ ]") ++
          ((' ' :: d.content.data) ++ (labelSegOf (us.map String.data) ++ [' ']))) ++
        ('!' :: '!' :: '3' ::
          (optSeg (fun s : String => calChar :: vs16Char :: s.data) d.dueDate ++
          (optSeg (fun s : String => clockChar :: s.data) d.dueTime ++
          (optSeg formatDuration d.duration ++
          ((' ' :: litOf "#tdsync") ++
          optSeg (fun s : String => tidComment s.data) d.tid))))) := by
      simp [List.append_assoc]
    rw [hline, hassoc]
    have hfound : firstSome prioExplAt
        (((if d.completed then litOf "- [x]" else litOf "- [ ]") ++
          ((' ' :: d.content.data) ++ (labelSegOf (us.map String.data) ++ [' ']))) ++
        ('!' :: '!' :: '3' ::
          (optSeg (fun s : String => calChar :: vs16Char :: s.data) d.dueDate ++
          (optSeg (fun s : String => clockChar :: s.data) d.dueTime ++
          (optSeg formatDuration d.duration ++
          ((' ' :: litOf "#tdsync") ++
          optSeg (fun s : String => tidComment s.data) d.tid)))))) = some 3 :=
      firstSome_found (fun c t hq => prioExplAt_none hq) (by
        intro c hcm
        rcases List.mem_append.mp hcm with h | hcm
        · exact (cb_safe h).2.2.1
        rcases List.mem_cons.mp hcm with rfl | hcm
        · decide
        rcases List.mem_append.mp hcm with h | hcm
        · exact (plainChar_spec (hcp c h)).2.2.1
        rcases List.mem_append.mp hcm with h | hcm
        · exact (labelClass_safe (mem_labelSegOf huslab h)).2.2.2.2.2.1
        rcases List.mem_cons.mp hcm with rfl | h
        · decide
        · cases h) (by simp) (prioExplAt_three _)
    rw [parsePriority, hfound, hPs]
  · have hPSx : optSeg (fun p => '!' :: '!' :: natToChars p) d.priority = ' ' :: '!' :: '!' :: ['4'] := by
      rw [hPs]
      decide
    rw [hPSx] at hline
    have hassoc : (if d.completed then litOf "- [x]" else litOf "- [ ]") ++
        ((' ' :: d.content.data) ++
        (labelSegOf (us.map String.data) ++
        ((' ' :: '!' :: '!' :: ['4']) ++
        (optSeg (fun s : String => calChar :: vs16Char :: s.data) d.dueDate ++
        (optSeg (fun s : String => clockChar :: s.data) d.dueTime ++
        (optSeg formatDuration d.duration ++
        ((' ' :: litOf "#tdsync") ++
        optSeg (fun s : String => tidComment s.data) d.tid))))))) =
        ((if d.completed then litOf "- [x]" else litOf "- [ ]") ++
          ((' ' :: d.content.data) ++ (labelSegOf (us.map String.data) ++ [' ']))) ++
        ('!' :: '!' :: '4' ::
          (optSeg (fun s : String => calChar :: vs16Char :: s.data) d.dueDate ++
          (optSeg (fun s : String => clockChar :: s.data) d.dueTime ++
          (optSeg formatDuration d.duration ++
          ((' ' :: litOf "#tdsync") ++
          optSeg (fun s : String => tidComment s.data) d.tid))))) := by
      simp [List.append_assoc]
    rw [hline, hassoc]
    have hfound : firstSome prioExplAt
        (((if d.completed then litOf "- [x]" else litOf "- [ ]") ++
          ((' ' :: d.content.data) ++ (labelSegOf (us.map String.data) ++ [' ']))) ++
        ('!' :: '!' :: '4' ::
          (optSeg (fun s : String => calChar :: vs16Char :: s.data) d.dueDate ++
          (optSeg (fun s : String => clockChar :: s.data) d.dueTime ++
          (optSeg formatDuration d.duration ++
          ((' ' :: litOf "#tdsync") ++
          optSeg (fun s : String => tidComment s.data) d.tid)))))) = some 4 :=
      firstSome_found (fun c t hq => prioExplAt_none hq) (by
        intro c hcm
        rcases List.mem_append.mp hcm with h | hcm
        · exact (cb_safe h).2.2.1
        rcases List.mem_cons.mp hcm with rfl | hcm
        · decide
        rcases List.mem_append.mp hcm with h | hcm
        · exact (plainChar_spec (hcp c h)).2.2.1
        rcases List.mem_append.mp hcm with h | hcm
        · exact (labelClass_safe (mem_labelSegOf huslab h)).2.2.2.2.2.1
        rcases List.mem_cons.mp hcm with rfl | h
        · decide
        · cases h) (by simp) (prioExplAt_four _)
    rw [parsePriority, hfound, hPs]


/-- The due date parsed back from a built canonical line. -/
theorem parseDueDate_built (d : TaskData) (hc : canonicalTaskData d) :
    (parseDueDate ((buildTaskLine d []).data)).map String.mk = d.dueDate := by
  obtain ⟨us, hlab, husp, hline⟩ := canonical_line d hc
  obtain ⟨hcne, hcp, hch, hcl, ⟨us2, hlab2, husp2, hustd, hnd⟩, hP, hD, hT, hDT,
    hU, hI⟩ := hc
  have hshT : ∀ s, d.dueTime = some s →
      ∀ x ∈ s.data, isDigitChar x = true ∨ x = ':' := by
    intro s hs x hx
    rcases hT with h | ⟨a, b, m1, m2, e1, e2, e3, e4, hsome⟩ |
      ⟨a, m1, m2, e1, e2, e3, hsome⟩
    · rw [h] at hs
      exact Option.noConfusion hs
    · rw [hsome] at hs
      have hse := Option.some.inj hs
      subst hse
      rw [data_mk] at hx
      simp only [List.mem_cons, List.not_mem_nil, or_false] at hx
      rcases hx with rfl | rfl | rfl | rfl | rfl
      · exact Or.inl e1
      · exact Or.inl e2
      · exact Or.inr rfl
      · exact Or.inl e3
      · exact Or.inl e4
    · rw [hsome] at hs
      have hse := Option.some.inj hs
      subst hse
      rw [data_mk] at hx
      simp only [List.mem_cons, List.not_mem_nil, or_false] at hx
      rcases hx with rfl | rfl | rfl | rfl
      · exact Or.inl e1
      · exact Or.inr rfl
      · exact Or.inl e2
      · exact Or.inl e3
  have huslab : ∀ u ∈ us.map String.data, ∀ x ∈ u, isLabelChar x = true := by
    intro u hu
    obtain ⟨u0, hu0, rfl⟩ := List.mem_map.mp hu
    exact (husp u0 hu0).2
  rcases hD with hDn | ⟨a1, a2, a3, a4, a5, a6, a7, a8, e1, e2, e3, e4, e5, e6,
    e7, e8, hDs⟩
  · rw [hDn] at hline
    rw [optSeg_none, List.nil_append] at hline
    have hallb : ∀ c ∈ (buildTaskLine d []).data, c ≠ calChar ∧ c ≠ cal2Char := by
      intro c hcm
      rw [hline] at hcm
      rcases List.mem_append.mp hcm with h | hcm
      · exact ⟨(cb_safe h).2.2.2.2.2.1, (cb_safe h).2.2.2.2.2.2.1⟩
      rcases List.mem_cons.mp hcm with rfl | hcm
      · exact ⟨by decide, by decide⟩
      rcases List.mem_append.mp hcm with h | hcm
      · exact ⟨(plainChar_spec (hcp c h)).2.2.2.2.2.1,
          (plainChar_spec (hcp c h)).2.2.2.2.2.2.1⟩
      rcases List.mem_append.mp hcm with h | hcm
      · exact ⟨(labelClass_safe (mem_labelSegOf huslab h)).2.2.2.1,
          (labelClass_safe (mem_labelSegOf huslab h)).2.2.2.2.1⟩
      rcases List.mem_append.mp hcm with h | hcm
      · exact ⟨(prioClass_all (mem_prioSeg h)).2.2.2.2.1,
          (prioClass_all (mem_prioSeg h)).2.2.2.2.2.1⟩
      rcases List.mem_append.mp hcm with h | hcm
      · exact ⟨(timeClass_all (mem_timeSeg hshT h)).2.2.2.2.1,
          (timeClass_all (mem_timeSeg hshT h)).2.2.2.2.2.1⟩
      rcases List.mem_append.mp hcm with h | hcm
      · exact ⟨(durClass_all (mem_durSeg h)).2.2.2.2.1,
          (durClass_all (mem_durSeg h)).2.2.2.2.2.1⟩
      rcases List.mem_append.mp hcm with h | hcm
      · exact ⟨(labelClass_safe (mem_ySeg h)).2.2.2.1,
          (labelClass_safe (mem_ySeg h)).2.2.2.2.1⟩
      · rcases hI with hIn | ⟨si, hIs, hsine, hsia⟩
        · rw [hIn] at hcm
          cases hcm
        · rw [hIs] at hcm
          rcases List.mem_cons.mp hcm with rfl | h
          · exact ⟨by decide, by decide⟩
          · exact ⟨(tidClass_all (mem_tidComment hsia h)).2.2.2.2.1,
              (tidClass_all (mem_tidComment hsia h)).2.2.2.2.2.1⟩
    have hnone : firstSome dueDateAt ((buildTaskLine d []).data) = none :=
      firstSome_none_of_all (P := fun c => c ≠ calChar ∧ c ≠ cal2Char)
        (fun c t hq => dueDateAt_none hq.1 hq.2) rfl hallb
    rw [parseDueDate, hnone, hDn]
    rfl
  · have hDSx : optSeg (fun s : String => calChar :: vs16Char :: s.data) d.dueDate =
        ' ' :: calChar :: vs16Char ::
          [a1, a2, a3, a4, '-', a5, a6, '-', a7, a8] := by
      rw [hDs]
      rfl
    rw [hDSx] at hline
    have hassoc : (if d.completed then litOf "- [x]" else litOf "- [ ]") ++
        ((' ' :: d.content.data) ++
        (labelSegOf (us.map String.data) ++
        (optSeg (fun p => '!' :: '!' :: natToChars p) d.priority ++
        ((' ' :: calChar :: vs16Char ::
          [a1, a2, a3, a4, '-', a5, a6, '-', a7, a8]) ++
        (optSeg (fun s : String => clockChar :: s.data) d.dueTime ++
        (optSeg formatDuration d.duration ++
        ((' ' :: litOf "#tdsync") ++
        optSeg (fun s : String => tidComment s.data) d.tid))))))) =
        ((if d.completed then litOf "- [x]" else litOf "- [ ]") ++
          ((' ' :: d.content.data) ++
          (labelSegOf (us.map String.data) ++ (optSeg (fun p => '!' :: '!' :: natToChars p) d.priority ++ [' '])))) ++
        (calChar :: vs16Char ::
          (a1 :: a2 :: a3 :: a4 :: '-' :: a5 :: a6 :: '-' :: a7 :: a8 ::
          (optSeg (fun s : String => clockChar :: s.data) d.dueTime ++
          (optSeg formatDuration d.duration ++
          ((' ' :: litOf "#tdsync") ++
          optSeg (fun s : String => tidComment s.data) d.tid))))) := by
      simp [List.append_assoc]
    rw [hline, hassoc]
    have hfound : firstSome dueDateAt
        (((if d.completed then litOf "- [x]" else litOf "- [ ]") ++
          ((' ' :: d.content.data) ++
          (labelSegOf (us.map String.data) ++ (optSeg (fun p => '!' :: '!' :: natToChars p) d.priority ++ [' '])))) ++
        (calChar :: vs16Char ::
          (a1 :: a2 :: a3 :: a4 :: '-' :: a5 :: a6 :: '-' :: a7 :: a8 ::
          (optSeg (fun s : String => clockChar :: s.data) d.dueTime ++
          (optSeg formatDuration d.duration ++
          ((' ' :: litOf "#tdsync") ++
          optSeg (fun s : String => tidComment s.data) d.tid)))))) = some [a1, a2, a3, a4, '-', a5, a6, '-', a7, a8] :=
      firstSome_found (P := fun c => c ≠ calChar ∧ c ≠ cal2Char)
        (fun c t hq => dueDateAt_none hq.1 hq.2) (by
        intro c hcm
        rcases List.mem_append.mp hcm with h | hcm
        · exact ⟨(cb_safe h).2.2.2.2.2.1, (cb_safe h).2.2.2.2.2.2.1⟩
        rcases List.mem_cons.mp hcm with rfl | hcm
        · exact ⟨by decide, by decide⟩
        rcases List.mem_append.mp hcm with h | hcm
        · exact ⟨(plainChar_spec (hcp c h)).2.2.2.2.2.1,
            (plainChar_spec (hcp c h)).2.2.2.2.2.2.1⟩
        rcases List.mem_append.mp hcm with h | hcm
        · exact ⟨(labelClass_safe (mem_labelSegOf huslab h)).2.2.2.1,
            (labelClass_safe (mem_labelSegOf huslab h)).2.2.2.2.1⟩
        rcases List.mem_append.mp hcm with h | hcm
        · exact ⟨(prioClass_all (mem_prioSeg h)).2.2.2.2.1,
            (prioClass_all (mem_prioSeg h)).2.2.2.2.2.1⟩
        rcases List.mem_cons.mp hcm with rfl | h
        · exact ⟨by decide, by decide⟩
        · cases h) (by simp)
        (dueDateAt_genuine e1 e2 e3 e4 e5 e6 e7 e8 _)
    rw [parseDueDate, hfound, hDs]
    rfl


/-- The due-time field parsed back from a canonical built line is the built
due time. -/
theorem parseDueTime_built (d : TaskData) (hc : canonicalTaskData d) :
    (parseDueTime ((buildTaskLine d []).data)).map String.mk = d.dueTime := by
  obtain ⟨us, hlab, husp, hline⟩ := canonical_line d hc
  obtain ⟨hcne, hcp, hch, hcl, ⟨us2, hlab2, husp2, hustd, hnd⟩, hP, hD, hT, hDT,
    hU, hI⟩ := hc
  have hshD : ∀ s, d.dueDate = some s →
      ∀ x ∈ s.data, isDigitChar x = true ∨ x = '-' := by
    intro s hs x hx
    rcases hD with h | ⟨a1, a2, a3, a4, a5, a6, a7, a8, e1, e2, e3, e4, e5, e6,
      e7, e8, hsome⟩
    · rw [h] at hs
      exact Option.noConfusion hs
    · rw [hsome] at hs
      have hse := Option.some.inj hs
      subst hse
      rw [data_mk] at hx
      simp only [List.mem_cons, List.not_mem_nil, or_false] at hx
      rcases hx with rfl | rfl | rfl | rfl | rfl | rfl | rfl | rfl | rfl | rfl
      · exact Or.inl e1
      · exact Or.inl e2
      · exact Or.inl e3
      · exact Or.inl e4
      · exact Or.inr rfl
      · exact Or.inl e5
      · exact Or.inl e6
      · exact Or.inr rfl
      · exact Or.inl e7
      · exact Or.inl e8
  have huslab : ∀ u ∈ us.map String.data, ∀ x ∈ u, isLabelChar x = true := by
    intro u hu
    obtain ⟨u0, hu0, rfl⟩ := List.mem_map.mp hu
    exact (husp u0 hu0).2
  rcases hT with hTn | ⟨a, b, m1, m2, e1, e2, e3, e4, hTs⟩ |
    ⟨a, m1, m2, e1, e2, e3, hTs⟩
  · rw [hTn] at hline
    rw [optSeg_none, List.nil_append] at hline
    have hallb : ∀ c ∈ (buildTaskLine d []).data, c ≠ clockChar := by
      intro c hcm
      rw [hline] at hcm
      rcases List.mem_append.mp hcm with h | hcm
      · exact (cb_safe h).2.2.2.2.1
      rcases List.mem_cons.mp hcm with rfl | hcm
      · decide
      rcases List.mem_append.mp hcm with h | hcm
      · exact (plainChar_spec (hcp c h)).2.2.2.2.1
      rcases List.mem_append.mp hcm with h | hcm
      · exact (labelClass_safe (mem_labelSegOf huslab h)).2.2.1
      rcases List.mem_append.mp hcm with h | hcm
      · exact (prioClass_all (mem_prioSeg h)).2.2.2.1
      rcases List.mem_append.mp hcm with h | hcm
      · exact (dateClass_all (mem_dateSeg hshD h)).2.2.2.2.1
      rcases List.mem_append.mp hcm with h | hcm
      · exact (durClass_all (mem_durSeg h)).2.2.2.1
      rcases List.mem_append.mp hcm with h | hcm
      · exact (labelClass_safe (mem_ySeg h)).2.2.1
      · rcases hI with hIn | ⟨si, hIs, hsine, hsia⟩
        · rw [hIn] at hcm
          cases hcm
        · rw [hIs] at hcm
          rcases List.mem_cons.mp hcm with rfl | h
          · decide
          · exact (tidClass_all (mem_tidComment hsia h)).2.2.2.1
    have hnone : firstSome dueTimeAt ((buildTaskLine d []).data) = none :=
      firstSome_none_of_all (P := fun c => c ≠ clockChar)
        (fun c t hq => dueTimeAt_none hq) rfl hallb
    rw [parseDueTime, hnone, hTn]
    rfl
  · have hTSx : optSeg (fun s : String => clockChar :: s.data) d.dueTime =
        ' ' :: clockChar :: [a, b, ':', m1, m2] := by
      rw [hTs]
      rfl
    rw [hTSx] at hline
    have hassoc : (if d.completed then litOf "- [x]" else litOf "- [ ]") ++
        ((' ' :: d.content.data) ++
        (labelSegOf (us.map String.data) ++
        (optSeg (fun p => '!' :: '!' :: natToChars p) d.priority ++
        (optSeg (fun s : String => calChar :: vs16Char :: s.data) d.dueDate ++
        ((' ' :: clockChar :: [a, b, ':', m1, m2]) ++
        (optSeg formatDuration d.duration ++
        ((' ' :: litOf "#tdsync") ++
        optSeg (fun s : String => tidComment s.data) d.tid))))))) =
        ((if d.completed then litOf "- [x]" else litOf "- [ ]") ++
          ((' ' :: d.content.data) ++
          (labelSegOf (us.map String.data) ++ (optSeg (fun p => '!' :: '!' :: natToChars p) d.priority ++
          (optSeg (fun s : String => calChar :: vs16Char :: s.data) d.dueDate ++ [' ']))))) ++
        (clockChar :: a :: b :: ':' :: m1 :: m2 ::
          (optSeg formatDuration d.duration ++
          ((' ' :: litOf "#tdsync") ++
          optSeg (fun s : String => tidComment s.data) d.tid))) := by
      simp [List.append_assoc]
    rw [hline, hassoc]
    have hfound : firstSome dueTimeAt
        (((if d.completed then litOf "- [x]" else litOf "- [ ]") ++
          ((' ' :: d.content.data) ++
          (labelSegOf (us.map String.data) ++ (optSeg (fun p => '!' :: '!' :: natToChars p) d.priority ++
          (optSeg (fun s : String => calChar :: vs16Char :: s.data) d.dueDate ++ [' ']))))) ++
        (clockChar :: a :: b :: ':' :: m1 :: m2 ::
          (optSeg formatDuration d.duration ++
          ((' ' :: litOf "#tdsync") ++
          optSeg (fun s : String => tidComment s.data) d.tid)))) = some [a, b, ':', m1, m2] :=
      firstSome_found (P := fun c => c ≠ clockChar)
        (fun c t hq => dueTimeAt_none hq) (by
        intro c hcm
        rcases List.mem_append.mp hcm with h | hcm
        · exact (cb_safe h).2.2.2.2.1
        rcases List.mem_cons.mp hcm with rfl | hcm
        · decide
        rcases List.mem_append.mp hcm with h | hcm
        · exact (plainChar_spec (hcp c h)).2.2.2.2.1
        rcases List.mem_append.mp hcm with h | hcm
        · exact (labelClass_safe (mem_labelSegOf huslab h)).2.2.1
        rcases List.mem_append.mp hcm with h | hcm
        · exact (prioClass_all (mem_prioSeg h)).2.2.2.1
        rcases List.mem_append.mp hcm with h | hcm
        · exact (dateClass_all (mem_dateSeg hshD h)).2.2.2.2.1
        rcases List.mem_cons.mp hcm with rfl | h
        · decide
        · cases h) (by simp)
        (dueTimeAt_genuine2 e1 e2 e3 e4 _)
    rw [parseDueTime, hfound, hTs]
    rfl
  · have hTSx : optSeg (fun s : String => clockChar :: s.data) d.dueTime =
        ' ' :: clockChar :: [a, ':', m1, m2] := by
      rw [hTs]
      rfl
    rw [hTSx] at hline
    have hassoc : (if d.completed then litOf "- [x]" else litOf "- [ ]") ++
        ((' ' :: d.content.data) ++
        (labelSegOf (us.map String.data) ++
        (optSeg (fun p => '!' :: '!' :: natToChars p) d.priority ++
        (optSeg (fun s : String => calChar :: vs16Char :: s.data) d.dueDate ++
        ((' ' :: clockChar :: [a, ':', m1, m2]) ++
        (optSeg formatDuration d.duration ++
        ((' ' :: litOf "#tdsync") ++
        optSeg (fun s : String => tidComment s.data) d.tid))))))) =
        ((if d.completed then litOf "- [x]" else litOf "- [ ]") ++
          ((' ' :: d.content.data) ++
          (labelSegOf (us.map String.data) ++ (optSeg (fun p => '!' :: '!' :: natToChars p) d.priority ++
          (optSeg (fun s : String => calChar :: vs16Char :: s.data) d.dueDate ++ [' ']))))) ++
        (clockChar :: a :: ':' :: m1 :: m2 ::
          (optSeg formatDuration d.duration ++
          ((' ' :: litOf "#tdsync") ++
          optSeg (fun s : String => tidComment s.data) d.tid))) := by
      simp [List.append_assoc]
    rw [hline, hassoc]
    have hfound : firstSome dueTimeAt
        (((if d.completed then litOf "- [x]" else litOf "- [ ]") ++
          ((' ' :: d.content.data) ++
          (labelSegOf (us.map String.data) ++ (optSeg (fun p => '!' :: '!' :: natToChars p) d.priority ++
          (optSeg (fun s : String => calChar :: vs16Char :: s.data) d.dueDate ++ [' ']))))) ++
        (clockChar :: a :: ':' :: m1 :: m2 ::
          (optSeg formatDuration d.duration ++
          ((' ' :: litOf "#tdsync") ++
          optSeg (fun s : String => tidComment s.data) d.tid)))) = some [a, ':', m1, m2] :=
      firstSome_found (P := fun c => c ≠ clockChar)
        (fun c t hq => dueTimeAt_none hq) (by
        intro c hcm
        rcases List.mem_append.mp hcm with h | hcm
        · exact (cb_safe h).2.2.2.2.1
        rcases List.mem_cons.mp hcm with rfl | hcm
        · decide
        rcases List.mem_append.mp hcm with h | hcm
        · exact (plainChar_spec (hcp c h)).2.2.2.2.1
        rcases List.mem_append.mp hcm with h | hcm
        · exact (labelClass_safe (mem_labelSegOf huslab h)).2.2.1
        rcases List.mem_append.mp hcm with h | hcm
        · exact (prioClass_all (mem_prioSeg h)).2.2.2.1
        rcases List.mem_append.mp hcm with h | hcm
        · exact (dateClass_all (mem_dateSeg hshD h)).2.2.2.2.1
        rcases List.mem_cons.mp hcm with rfl | h
        · decide
        · cases h) (by simp)
        (dueTimeAt_genuine1 e1 e2 e3 _)
    rw [parseDueTime, hfound, hTs]
    rfl


/-- The duration field parsed back from a canonical built line is the built
duration. -/
theorem parseDuration_built (d : TaskData) (hc : canonicalTaskData d) :
    parseDuration ((buildTaskLine d []).data) = d.duration := by
  obtain ⟨us, hlab, husp, hline⟩ := canonical_line d hc
  obtain ⟨hcne, hcp, hch, hcl, ⟨us2, hlab2, husp2, hustd, hnd⟩, hP, hD, hT, hDT,
    hU, hI⟩ := hc
  have hshD : ∀ s, d.dueDate = some s →
      ∀ x ∈ s.data, isDigitChar x = true ∨ x = '-' := by
    intro s hs x hx
    rcases hD with h | ⟨a1, a2, a3, a4, a5, a6, a7, a8, e1, e2, e3, e4, e5, e6,
      e7, e8, hsome⟩
    · rw [h] at hs
      exact Option.noConfusion hs
    · rw [hsome] at hs
      have hse := Option.some.inj hs
      subst hse
      rw [data_mk] at hx
      simp only [List.mem_cons, List.not_mem_nil, or_false] at hx
      rcases hx with rfl | rfl | rfl | rfl | rfl | rfl | rfl | rfl | rfl | rfl
      · exact Or.inl e1
      · exact Or.inl e2
      · exact Or.inl e3
      · exact Or.inl e4
      · exact Or.inr rfl
      · exact Or.inl e5
      · exact Or.inl e6
      · exact Or.inr rfl
      · exact Or.inl e7
      · exact Or.inl e8
  have hshT : ∀ s, d.dueTime = some s →
      ∀ x ∈ s.data, isDigitChar x = true ∨ x = ':' := by
    intro s hs x hx
    rcases hT with h | ⟨a, b, m1, m2, e1, e2, e3, e4, hsome⟩ |
      ⟨a, m1, m2, e1, e2, e3, hsome⟩
    · rw [h] at hs
      exact Option.noConfusion hs
    · rw [hsome] at hs
      have hse := Option.some.inj hs
      subst hse
      rw [data_mk] at hx
      simp only [List.mem_cons, List.not_mem_nil, or_false] at hx
      rcases hx with rfl | rfl | rfl | rfl | rfl
      · exact Or.inl e1
      · exact Or.inl e2
      · exact Or.inr rfl
      · exact Or.inl e3
      · exact Or.inl e4
    · rw [hsome] at hs
      have hse := Option.some.inj hs
      subst hse
      rw [data_mk] at hx
      simp only [List.mem_cons, List.not_mem_nil, or_false] at hx
      rcases hx with rfl | rfl | rfl | rfl
      · exact Or.inl e1
      · exact Or.inr rfl
      · exact Or.inl e2
      · exact Or.inl e3
  have huslab : ∀ u ∈ us.map String.data, ∀ x ∈ u, isLabelChar x = true := by
    intro u hu
    obtain ⟨u0, hu0, rfl⟩ := List.mem_map.mp hu
    exact (husp u0 hu0).2
  rcases hU with hUn | ⟨n, hn, h1⟩
  · rw [hUn] at hline
    rw [optSeg_none, List.nil_append] at hline
    have hallb : ∀ c ∈ (buildTaskLine d []).data, c ≠ hourglassChar := by
      intro c hcm
      rw [hline] at hcm
      rcases List.mem_append.mp hcm with h | hcm
      · exact (cb_safe h).2.2.2.1
      rcases List.mem_cons.mp hcm with rfl | hcm
      · decide
      rcases List.mem_append.mp hcm with h | hcm
      · exact (plainChar_spec (hcp c h)).2.2.2.1
      rcases List.mem_append.mp hcm with h | hcm
      · exact (labelClass_safe (mem_labelSegOf huslab h)).2.1
      rcases List.mem_append.mp hcm with h | hcm
      · exact (prioClass_all (mem_prioSeg h)).2.2.1
      rcases List.mem_append.mp hcm with h | hcm
      · exact (dateClass_all (mem_dateSeg hshD h)).2.2.2.1
      rcases List.mem_append.mp hcm with h | hcm
      · exact (timeClass_all (mem_timeSeg hshT h)).2.2.2.1
      rcases List.mem_append.mp hcm with h | hcm
      · exact (labelClass_safe (mem_ySeg h)).2.1
      · rcases hI with hIn | ⟨si, hIs, hsine, hsia⟩
        · rw [hIn] at hcm
          cases hcm
        · rw [hIs] at hcm
          rcases List.mem_cons.mp hcm with rfl | h
          · decide
          · exact (tidClass_all (mem_tidComment hsia h)).2.2.1
    have hn1 : firstSome durCombinedAt ((buildTaskLine d []).data) = none :=
      firstSome_none_of_all (P := fun c => c ≠ hourglassChar)
        (fun c t hq => durCombinedAt_none hq) rfl hallb
    have hn2 : firstSome durHoursAt ((buildTaskLine d []).data) = none :=
      firstSome_none_of_all (P := fun c => c ≠ hourglassChar)
        (fun c t hq => durHoursAt_none hq) rfl hallb
    have hn3 : firstSome durMinutesAt ((buildTaskLine d []).data) = none :=
      firstSome_none_of_all (P := fun c => c ≠ hourglassChar)
        (fun c t hq => durMinutesAt_none hq) rfl hallb
    rw [parseDuration, hn1, hn2, hn3, hUn]
  · rw [hn, optSeg_some] at hline
    have hallX : ∀ c ∈ ((if d.completed then litOf "- [x]" else litOf "- [ ]") ++ ((' ' :: d.content.data) ++ (labelSegOf (us.map String.data) ++ (optSeg (fun p => '!' :: '!' :: natToChars p) d.priority ++ (optSeg (fun s : String => calChar :: vs16Char :: s.data) d.dueDate ++ (optSeg (fun s : String => clockChar :: s.data) d.dueTime ++ [' '])))))), c ≠ hourglassChar := by
      intro c hcm
      rcases List.mem_append.mp hcm with h | hcm
      · exact (cb_safe h).2.2.2.1
      rcases List.mem_cons.mp hcm with rfl | hcm
      · decide
      rcases List.mem_append.mp hcm with h | hcm
      · exact (plainChar_spec (hcp c h)).2.2.2.1
      rcases List.mem_append.mp hcm with h | hcm
      · exact (labelClass_safe (mem_labelSegOf huslab h)).2.1
      rcases List.mem_append.mp hcm with h | hcm
      · exact (prioClass_all (mem_prioSeg h)).2.2.1
      rcases List.mem_append.mp hcm with h | hcm
      · exact (dateClass_all (mem_dateSeg hshD h)).2.2.2.1
      rcases List.mem_append.mp hcm with h | hcm
      · exact (timeClass_all (mem_timeSeg hshT h)).2.2.2.1
      rcases List.mem_cons.mp hcm with rfl | h
      · decide
      · cases h
    by_cases h60 : n < 60
    · have hfd : formatDuration n =
          hourglassChar :: (natToChars n ++ litOf "min") := by
        rw [formatDuration, if_pos h60]
      rw [hfd] at hline
      have hassoc : (if d.completed then litOf "- [x]" else litOf "- [ ]") ++
          ((' ' :: d.content.data) ++
          (labelSegOf (us.map String.data) ++
          (optSeg (fun p => '!' :: '!' :: natToChars p) d.priority ++
          (optSeg (fun s : String => calChar :: vs16Char :: s.data) d.dueDate ++
          (optSeg (fun s : String => clockChar :: s.data) d.dueTime ++
          ((' ' :: (hourglassChar :: (natToChars n ++ litOf "min"))) ++
          ((' ' :: litOf "#tdsync") ++ optSeg (fun s : String => tidComment s.data) d.tid))))))) =
          ((if d.completed then litOf "- [x]" else litOf "- [ ]") ++ ((' ' :: d.content.data) ++ (labelSegOf (us.map String.data) ++ (optSeg (fun p => '!' :: '!' :: natToChars p) d.priority ++ (optSeg (fun s : String => calChar :: vs16Char :: s.data) d.dueDate ++ (optSeg (fun s : String => clockChar :: s.data) d.dueTime ++ [' '])))))) ++
          (hourglassChar :: (natToChars n ++ (litOf "min" ++ ((' ' :: litOf "#tdsync") ++ optSeg (fun s : String => tidComment s.data) d.tid)))) := by
        simp [List.append_assoc]
      rw [hline, hassoc, hn]
      have hallR : ∀ c ∈ (natToChars n ++ (litOf "min" ++ ((' ' :: litOf "#tdsync") ++ optSeg (fun s : String => tidComment s.data) d.tid))), c ≠ hourglassChar := by
        intro c hcm
        rcases List.mem_append.mp hcm with h | hcm
        · exact (digit_safe (natToChars_digits n c h)).2.1
        rcases List.mem_append.mp hcm with h | hcm
        · fin_cases h <;> decide
        rcases List.mem_append.mp hcm with h | hcm
        · fin_cases h <;> decide
        · rcases hI with hIn | ⟨si, hIs, hsine, hsia⟩
          · rw [hIn] at hcm
            cases hcm
          · rw [hIs] at hcm
            rcases List.mem_cons.mp hcm with rfl | h
            · decide
            · exact (tidClass_all (mem_tidComment hsia h)).2.2.1
      have hc1 : firstSome durCombinedAt
          (((if d.completed then litOf "- [x]" else litOf "- [ ]") ++ ((' ' :: d.content.data) ++ (labelSegOf (us.map String.data) ++ (optSeg (fun p => '!' :: '!' :: natToChars p) d.priority ++ (optSeg (fun s : String => calChar :: vs16Char :: s.data) d.dueDate ++ (optSeg (fun s : String => clockChar :: s.data) d.dueTime ++ [' '])))))) ++
          (hourglassChar :: (natToChars n ++ (litOf "min" ++ ((' ' :: litOf "#tdsync") ++ optSeg (fun s : String => tidComment s.data) d.tid))))) = none := by
        rw [firstSome_only_at (P := fun c => c ≠ hourglassChar)
          (fun c t hq => durCombinedAt_none hq) rfl hallX hallR]
        exact durCombinedAt_min n _
      have hc2 : firstSome durHoursAt
          (((if d.completed then litOf "- [x]" else litOf "- [ ]") ++ ((' ' :: d.content.data) ++ (labelSegOf (us.map String.data) ++ (optSeg (fun p => '!' :: '!' :: natToChars p) d.priority ++ (optSeg (fun s : String => calChar :: vs16Char :: s.data) d.dueDate ++ (optSeg (fun s : String => clockChar :: s.data) d.dueTime ++ [' '])))))) ++
          (hourglassChar :: (natToChars n ++ (litOf "min" ++ ((' ' :: litOf "#tdsync") ++ optSeg (fun s : String => tidComment s.data) d.tid))))) = none := by
        rw [firstSome_only_at (P := fun c => c ≠ hourglassChar)
          (fun c t hq => durHoursAt_none hq) rfl hallX hallR]
        exact durHoursAt_min n _
      have hc3 : firstSome durMinutesAt
          (((if d.completed then litOf "- [x]" else litOf "- [ ]") ++ ((' ' :: d.content.data) ++ (labelSegOf (us.map String.data) ++ (optSeg (fun p => '!' :: '!' :: natToChars p) d.priority ++ (optSeg (fun s : String => calChar :: vs16Char :: s.data) d.dueDate ++ (optSeg (fun s : String => clockChar :: s.data) d.dueTime ++ [' '])))))) ++
          (hourglassChar :: (natToChars n ++ (litOf "min" ++ ((' ' :: litOf "#tdsync") ++ optSeg (fun s : String => tidComment s.data) d.tid))))) = some n :=
        firstSome_found (P := fun c => c ≠ hourglassChar)
          (fun c t hq => durMinutesAt_none hq) hallX (by simp)
          (durMinutesAt_min n (by rfl))
      simp only [parseDuration, hc1, hc2, hc3]
    by_cases hmod : n % 60 = 0
    · have hY2 : (' ' :: litOf "#tdsync") ++
          optSeg (fun s : String => tidComment s.data) d.tid =
          ' ' :: ('#' :: (litOf "tdsync" ++
          optSeg (fun s : String => tidComment s.data) d.tid)) := rfl
      rw [hY2] at hline
      have hfd : formatDuration n =
          hourglassChar :: (natToChars (n / 60) ++ ['h']) := by
        rw [formatDuration, if_neg h60, if_pos hmod]
        rfl
      rw [hfd] at hline
      have hassoc : (if d.completed then litOf "- [x]" else litOf "- [ ]") ++
          ((' ' :: d.content.data) ++
          (labelSegOf (us.map String.data) ++
          (optSeg (fun p => '!' :: '!' :: natToChars p) d.priority ++
          (optSeg (fun s : String => calChar :: vs16Char :: s.data) d.dueDate ++
          (optSeg (fun s : String => clockChar :: s.data) d.dueTime ++
          ((' ' :: (hourglassChar :: (natToChars (n / 60) ++ ['h']))) ++
          (' ' :: ('#' :: (litOf "tdsync" ++
          optSeg (fun s : String => tidComment s.data) d.tid))))))))) =
          ((if d.completed then litOf "- [x]" else litOf "- [ ]") ++ ((' ' :: d.content.data) ++ (labelSegOf (us.map String.data) ++ (optSeg (fun p => '!' :: '!' :: natToChars p) d.priority ++ (optSeg (fun s : String => calChar :: vs16Char :: s.data) d.dueDate ++ (optSeg (fun s : String => clockChar :: s.data) d.dueTime ++ [' '])))))) ++
          (hourglassChar :: (natToChars (n / 60) ++ ('h' :: (' ' :: ('#' :: (litOf "tdsync" ++ optSeg (fun s : String => tidComment s.data) d.tid)))))) := by
        simp [List.append_assoc]
      rw [hline, hassoc, hn]
      have hallR : ∀ c ∈ (natToChars (n / 60) ++ ('h' :: (' ' :: ('#' :: (litOf "tdsync" ++ optSeg (fun s : String => tidComment s.data) d.tid))))), c ≠ hourglassChar := by
        intro c hcm
        rcases List.mem_append.mp hcm with h | hcm
        · exact (digit_safe (natToChars_digits _ c h)).2.1
        rcases List.mem_cons.mp hcm with rfl | hcm
        · decide
        rcases List.mem_cons.mp hcm with rfl | hcm
        · decide
        rcases List.mem_cons.mp hcm with rfl | hcm
        · decide
        rcases List.mem_append.mp hcm with h | hcm
        · fin_cases h <;> decide
        · rcases hI with hIn | ⟨si, hIs, hsine, hsia⟩
          · rw [hIn] at hcm
            cases hcm
          · rw [hIs] at hcm
            rcases List.mem_cons.mp hcm with rfl | h
            · decide
            · exact (tidClass_all (mem_tidComment hsia h)).2.2.1
      have hc1 : firstSome durCombinedAt
          (((if d.completed then litOf "- [x]" else litOf "- [ ]") ++ ((' ' :: d.content.data) ++ (labelSegOf (us.map String.data) ++ (optSeg (fun p => '!' :: '!' :: natToChars p) d.priority ++ (optSeg (fun s : String => calChar :: vs16Char :: s.data) d.dueDate ++ (optSeg (fun s : String => clockChar :: s.data) d.dueTime ++ [' '])))))) ++
          (hourglassChar :: (natToChars (n / 60) ++ ('h' :: (' ' :: ('#' :: (litOf "tdsync" ++ optSeg (fun s : String => tidComment s.data) d.tid))))))) = none := by
        rw [firstSome_only_at (P := fun c => c ≠ hourglassChar)
          (fun c t hq => durCombinedAt_none hq) rfl hallX hallR]
        exact durCombinedAt_h (n / 60) _
      have hc2 : firstSome durHoursAt
          (((if d.completed then litOf "- [x]" else litOf "- [ ]") ++ ((' ' :: d.content.data) ++ (labelSegOf (us.map String.data) ++ (optSeg (fun p => '!' :: '!' :: natToChars p) d.priority ++ (optSeg (fun s : String => calChar :: vs16Char :: s.data) d.dueDate ++ (optSeg (fun s : String => clockChar :: s.data) d.dueTime ++ [' '])))))) ++
          (hourglassChar :: (natToChars (n / 60) ++ ('h' :: (' ' :: ('#' :: (litOf "tdsync" ++ optSeg (fun s : String => tidComment s.data) d.tid))))))) = some (n / 60 * 60) :=
        firstSome_found (P := fun c => c ≠ hourglassChar)
          (fun c t hq => durHoursAt_none hq) hallX (by simp)
          (durHoursAt_h (n / 60) _)
      have hval : n / 60 * 60 = n :=
        Nat.div_mul_cancel (Nat.dvd_of_mod_eq_zero hmod)
      simp only [parseDuration, hc1, hc2, hval]
    · have hfd : formatDuration n =
          hourglassChar :: (natToChars (n / 60) ++ 'h' ::
            (natToChars (n % 60) ++ ['m'])) := by
        rw [formatDuration, if_neg h60, if_neg hmod]
      rw [hfd] at hline
      have hassoc : (if d.completed then litOf "- [x]" else litOf "- [ ]") ++
          ((' ' :: d.content.data) ++
          (labelSegOf (us.map String.data) ++
          (optSeg (fun p => '!' :: '!' :: natToChars p) d.priority ++
          (optSeg (fun s : String => calChar :: vs16Char :: s.data) d.dueDate ++
          (optSeg (fun s : String => clockChar :: s.data) d.dueTime ++
          ((' ' :: (hourglassChar :: (natToChars (n / 60) ++ 'h' ::
            (natToChars (n % 60) ++ ['m'])))) ++
          ((' ' :: litOf "#tdsync") ++ optSeg (fun s : String => tidComment s.data) d.tid))))))) =
          ((if d.completed then litOf "- [x]" else litOf "- [ ]") ++ ((' ' :: d.content.data) ++ (labelSegOf (us.map String.data) ++ (optSeg (fun p => '!' :: '!' :: natToChars p) d.priority ++ (optSeg (fun s : String => calChar :: vs16Char :: s.data) d.dueDate ++ (optSeg (fun s : String => clockChar :: s.data) d.dueTime ++ [' '])))))) ++
          (hourglassChar :: (natToChars (n / 60) ++ ('h' :: (natToChars (n % 60) ++ ('m' :: ((' ' :: litOf "#tdsync") ++ optSeg (fun s : String => tidComment s.data) d.tid)))))) := by
        simp [List.append_assoc]
      rw [hline, hassoc, hn]
      have hc1 : firstSome durCombinedAt
          (((if d.completed then litOf "- [x]" else litOf "- [ ]") ++ ((' ' :: d.content.data) ++ (labelSegOf (us.map String.data) ++ (optSeg (fun p => '!' :: '!' :: natToChars p) d.priority ++ (optSeg (fun s : String => calChar :: vs16Char :: s.data) d.dueDate ++ (optSeg (fun s : String => clockChar :: s.data) d.dueTime ++ [' '])))))) ++
          (hourglassChar :: (natToChars (n / 60) ++ ('h' :: (natToChars (n % 60) ++ ('m' :: ((' ' :: litOf "#tdsync") ++ optSeg (fun s : String => tidComment s.data) d.tid))))))) = some (n / 60 * 60 + n % 60) :=
        firstSome_found (P := fun c => c ≠ hourglassChar)
          (fun c t hq => durCombinedAt_none hq) hallX (by simp)
          (durCombinedAt_comb (n / 60) (n % 60) _)
      have hval : n / 60 * 60 + n % 60 = n := by omega
      simp only [parseDuration, hc1, hval]


/-- The tid extracted back from a canonical built line is the built tid. -/
theorem extractTID_built (d : TaskData) (hc : canonicalTaskData d) :
    (extractTID ((buildTaskLine d []).data)).map String.mk = d.tid := by
  obtain ⟨us, hlab, husp, hline⟩ := canonical_line d hc
  obtain ⟨hcne, hcp, hch, hcl, ⟨us2, hlab2, husp2, hustd, hnd⟩, hP, hD, hT, hDT,
    hU, hI⟩ := hc
  have hshD : ∀ s, d.dueDate = some s →
      ∀ x ∈ s.data, isDigitChar x = true ∨ x = '-' := by
    intro s hs x hx
    rcases hD with h | ⟨a1, a2, a3, a4, a5, a6, a7, a8, e1, e2, e3, e4, e5, e6,
      e7, e8, hsome⟩
    · rw [h] at hs
      exact Option.noConfusion hs
    · rw [hsome] at hs
      have hse := Option.some.inj hs
      subst hse
      rw [data_mk] at hx
      simp only [List.mem_cons, List.not_mem_nil, or_false] at hx
      rcases hx with rfl | rfl | rfl | rfl | rfl | rfl | rfl | rfl | rfl | rfl
      · exact Or.inl e1
      · exact Or.inl e2
      · exact Or.inl e3
      · exact Or.inl e4
      · exact Or.inr rfl
      · exact Or.inl e5
      · exact Or.inl e6
      · exact Or.inr rfl
      · exact Or.inl e7
      · exact Or.inl e8
  have hshT : ∀ s, d.dueTime = some s →
      ∀ x ∈ s.data, isDigitChar x = true ∨ x = ':' := by
    intro s hs x hx
    rcases hT with h | ⟨a, b, m1, m2, e1, e2, e3, e4, hsome⟩ |
      ⟨a, m1, m2, e1, e2, e3, hsome⟩
    · rw [h] at hs
      exact Option.noConfusion hs
    · rw [hsome] at hs
      have hse := Option.some.inj hs
      subst hse
      rw [data_mk] at hx
      simp only [List.mem_cons, List.not_mem_nil, or_false] at hx
      rcases hx with rfl | rfl | rfl | rfl | rfl
      · exact Or.inl e1
      · exact Or.inl e2
      · exact Or.inr rfl
      · exact Or.inl e3
      · exact Or.inl e4
    · rw [hsome] at hs
      have hse := Option.some.inj hs
      subst hse
      rw [data_mk] at hx
      simp only [List.mem_cons, List.not_mem_nil, or_false] at hx
      rcases hx with rfl | rfl | rfl | rfl
      · exact Or.inl e1
      · exact Or.inr rfl
      · exact Or.inl e2
      · exact Or.inl e3
  have huslab : ∀ u ∈ us.map String.data, ∀ x ∈ u, isLabelChar x = true := by
    intro u hu
    obtain ⟨u0, hu0, rfl⟩ := List.mem_map.mp hu
    exact (husp u0 hu0).2
  rcases hI with hIn | ⟨si, hIs, hsine, hsia⟩
  · rw [hIn] at hline
    rw [optSeg_none, List.append_nil] at hline
    have hallb : ∀ c ∈ (buildTaskLine d []).data, c ≠ '%' := by
      intro c hcm
      rw [hline] at hcm
      rcases List.mem_append.mp hcm with h | hcm
      · exact (cb_safe h).2.1
      rcases List.mem_cons.mp hcm with rfl | hcm
      · decide
      rcases List.mem_append.mp hcm with h | hcm
      · exact (plainChar_spec (hcp c h)).2.1
      rcases List.mem_append.mp hcm with h | hcm
      · exact (labelClass_safe (mem_labelSegOf huslab h)).1
      rcases List.mem_append.mp hcm with h | hcm
      · exact (prioClass_all (mem_prioSeg h)).2.1
      rcases List.mem_append.mp hcm with h | hcm
      · exact (dateClass_all (mem_dateSeg hshD h)).2.1
      rcases List.mem_append.mp hcm with h | hcm
      · exact (timeClass_all (mem_timeSeg hshT h)).2.1
      rcases List.mem_append.mp hcm with h | hcm
      · exact (durClass_all (mem_durSeg h)).2.1
      · exact (labelClass_safe (mem_ySeg hcm)).1
    have hnone : firstSome extractTIDAt ((buildTaskLine d []).data) = none :=
      firstSome_none_of_all (P := fun c => c ≠ '%')
        (fun c t hq => extractTIDAt_none hq) rfl hallb
    rw [extractTID, hnone, hIn]
    rfl
  · have hISx : optSeg (fun s : String => tidComment s.data) d.tid =
        ' ' :: tidComment si.data := by
      rw [hIs]
      rfl
    rw [hISx] at hline
    have hassoc : (if d.completed then litOf "- [x]" else litOf "- [ ]") ++
        ((' ' :: d.content.data) ++
        (labelSegOf (us.map String.data) ++
        (optSeg (fun p => '!' :: '!' :: natToChars p) d.priority ++
        (optSeg (fun s : String => calChar :: vs16Char :: s.data) d.dueDate ++
        (optSeg (fun s : String => clockChar :: s.data) d.dueTime ++
        (optSeg formatDuration d.duration ++
        ((' ' :: litOf "#tdsync") ++
        (' ' :: tidComment si.data)))))))) =
        ((if d.completed then litOf "- [x]" else litOf "- [ ]") ++ ((' ' :: d.content.data) ++ (labelSegOf (us.map String.data) ++ (optSeg (fun p => '!' :: '!' :: natToChars p) d.priority ++ (optSeg (fun s : String => calChar :: vs16Char :: s.data) d.dueDate ++ (optSeg (fun s : String => clockChar :: s.data) d.dueTime ++ (optSeg formatDuration d.duration ++ ((' ' :: litOf "#tdsync") ++ [' '])))))))) ++
        tidComment si.data := by
      simp [List.append_assoc]
    rw [hline, hassoc]
    have hfound : firstSome extractTIDAt
        (((if d.completed then litOf "- [x]" else litOf "- [ ]") ++ ((' ' :: d.content.data) ++ (labelSegOf (us.map String.data) ++ (optSeg (fun p => '!' :: '!' :: natToChars p) d.priority ++ (optSeg (fun s : String => calChar :: vs16Char :: s.data) d.dueDate ++ (optSeg (fun s : String => clockChar :: s.data) d.dueTime ++ (optSeg formatDuration d.duration ++ ((' ' :: litOf "#tdsync") ++ [' '])))))))) ++
        tidComment si.data) = some si.data :=
      firstSome_found (P := fun c => c ≠ '%')
        (fun c t hq => extractTIDAt_none hq) (by
        intro c hcm
        rcases List.mem_append.mp hcm with h | hcm
        · exact (cb_safe h).2.1
        rcases List.mem_cons.mp hcm with rfl | hcm
        · decide
        rcases List.mem_append.mp hcm with h | hcm
        · exact (plainChar_spec (hcp c h)).2.1
        rcases List.mem_append.mp hcm with h | hcm
        · exact (labelClass_safe (mem_labelSegOf huslab h)).1
        rcases List.mem_append.mp hcm with h | hcm
        · exact (prioClass_all (mem_prioSeg h)).2.1
        rcases List.mem_append.mp hcm with h | hcm
        · exact (dateClass_all (mem_dateSeg hshD h)).2.1
        rcases List.mem_append.mp hcm with h | hcm
        · exact (timeClass_all (mem_timeSeg hshT h)).2.1
        rcases List.mem_append.mp hcm with h | hcm
        · exact (durClass_all (mem_durSeg h)).2.1
        rcases List.mem_append.mp hcm with h | hcm
        · exact (labelClass_safe (mem_ySeg h)).1
        rcases List.mem_cons.mp hcm with rfl | h
        · decide
        · cases h) (tidComment_ne_nil _)
        (extractTIDAt_genuine hsine hsia)
    rw [extractTID, hfound, hIs]
    rfl


/-- C9: for every canonical task-fields value (one the system itself produces:
nonempty plain content, labels ending in the `tdsync` tag, priority among
2-4, `YYYY-MM-DD` date, `H:MM`/`HH:MM` time, datetime the combination of the
two, positive duration, alphanumeric tid), building a task line and parsing
it back yields exactly the same fields. -/
theorem C9_roundtrip_canonical (d : TaskData) (hc : canonicalTaskData d) :
    parseTaskLine (buildTaskLine d []) = some d := by
  obtain ⟨us, hlab, husp, hline⟩ := canonical_line d hc
  have hcontent := parseTaskContent_built d hc
  have hlabels := parseLabels_built d hc
  have hprio := parsePriority_built d hc
  have hdd := parseDueDate_built d hc
  have hdt := parseDueTime_built d hc
  have hdur := parseDuration_built d hc
  have htid := extractTID_built d hc
  obtain ⟨hcne, hcp, hch, hcl, hlb, hP, hD, hT, hDT, hU, hI⟩ := hc
  have hsh : (buildTaskLine d []).data =
      '-' :: ' ' :: '[' :: (if d.completed then 'x' else ' ') :: ']' ::
        ((' ' :: d.content.data) ++ (labelSegOf (us.map String.data) ++ (optSeg (fun p => '!' :: '!' :: natToChars p) d.priority ++ (optSeg (fun s : String => calChar :: vs16Char :: s.data) d.dueDate ++ (optSeg (fun s : String => clockChar :: s.data) d.dueTime ++ (optSeg formatDuration d.duration ++ ((' ' :: litOf "#tdsync") ++ optSeg (fun s : String => tidComment s.data) d.tid))))))) := by
    rw [hline]
    cases d.completed <;> rfl
  have hMD : isMarkdownTask ((buildTaskLine d []).data) = true := by
    rw [hsh]
    exact isMarkdownTask_line (by
      cases d.completed
      · exact Or.inr rfl
      · exact Or.inl rfl) _
  have hcompl : isTaskCompleted ((buildTaskLine d []).data) = d.completed := by
    cases hb : d.completed with
    | true =>
      have hsh2 : (buildTaskLine d []).data = '-' :: ' ' :: '[' :: 'x' :: ']' ::
          ((' ' :: d.content.data) ++ (labelSegOf (us.map String.data) ++ (optSeg (fun p => '!' :: '!' :: natToChars p) d.priority ++ (optSeg (fun s : String => calChar :: vs16Char :: s.data) d.dueDate ++ (optSeg (fun s : String => clockChar :: s.data) d.dueTime ++ (optSeg formatDuration d.duration ++ ((' ' :: litOf "#tdsync") ++ optSeg (fun s : String => tidComment s.data) d.tid))))))) := by
        rw [hsh, hb]
        rfl
      rw [hsh2, isTaskCompleted_line]
      exact Or.inl rfl
    | false =>
      have hsh2 : (buildTaskLine d []).data = '-' :: ' ' :: '[' :: ' ' :: ']' ::
          ((' ' :: d.content.data) ++ (labelSegOf (us.map String.data) ++ (optSeg (fun p => '!' :: '!' :: natToChars p) d.priority ++ (optSeg (fun s : String => calChar :: vs16Char :: s.data) d.dueDate ++ (optSeg (fun s : String => clockChar :: s.data) d.dueTime ++ (optSeg formatDuration d.duration ++ ((' ' :: litOf "#tdsync") ++ optSeg (fun s : String => tidComment s.data) d.tid))))))) := by
        rw [hsh, hb]
        rfl
      have h2 := isTaskCompleted_line ' '
        ((' ' :: d.content.data) ++ (labelSegOf (us.map String.data) ++ (optSeg (fun p => '!' :: '!' :: natToChars p) d.priority ++ (optSeg (fun s : String => calChar :: vs16Char :: s.data) d.dueDate ++ (optSeg (fun s : String => clockChar :: s.data) d.dueTime ++ (optSeg formatDuration d.duration ++ ((' ' :: litOf "#tdsync") ++ optSeg (fun s : String => tidComment s.data) d.tid)))))))
      rw [hsh2]
      cases hq : isTaskCompleted ('-' :: ' ' :: '[' :: ' ' :: ']' ::
          ((' ' :: d.content.data) ++ (labelSegOf (us.map String.data) ++ (optSeg (fun p => '!' :: '!' :: natToChars p) d.priority ++ (optSeg (fun s : String => calChar :: vs16Char :: s.data) d.dueDate ++ (optSeg (fun s : String => clockChar :: s.data) d.dueTime ++ (optSeg formatDuration d.duration ++ ((' ' :: litOf "#tdsync") ++ optSeg (fun s : String => tidComment s.data) d.tid)))))))) with
      | false => rfl
      | true =>
        rw [hq] at h2
        exact absurd (h2 ▸ rfl) (by decide)
  have hcontne : (parseTaskContent ((buildTaskLine d []).data)).isEmpty = false := by
    rw [hcontent]
    cases hcd : d.content.data with
    | nil => exact absurd hcd hcne
    | cons a l => rfl
  have hddt : (parseDueDatetime ((buildTaskLine d []).data)).map String.mk =
      d.dueDatetime := by
    cases hpd : parseDueDate ((buildTaskLine d []).data) with
    | none =>
      have hdd2 : d.dueDate = none := by
        rw [← hdd, hpd]
        rfl
      cases hpt : parseDueTime ((buildTaskLine d []).data) with
      | none =>
        have hdt2 : d.dueTime = none := by
          rw [← hdt, hpt]
          rfl
        rw [parseDueDatetime, hpd, hpt, hDT, hdd2, hdt2]
        rfl
      | some ts =>
        have hdt2 : d.dueTime = some (String.mk ts) := by
          rw [← hdt, hpt]
          rfl
        rw [parseDueDatetime, hpd, hpt, hDT, hdd2, hdt2]
        rfl
    | some ds =>
      have hdd2 : d.dueDate = some (String.mk ds) := by
        rw [← hdd, hpd]
        rfl
      cases hpt : parseDueTime ((buildTaskLine d []).data) with
      | none =>
        have hdt2 : d.dueTime = none := by
          rw [← hdt, hpt]
          rfl
        rw [parseDueDatetime, hpd, hpt, hDT, hdd2, hdt2]
        rfl
      | some ts =>
        have hdt2 : d.dueTime = some (String.mk ts) := by
          rw [← hdt, hpt]
          rfl
        rw [parseDueDatetime, hpd, hpt, hDT, hdd2, hdt2]
        rfl
  rw [parseTaskLine, if_neg (not_not_intro hMD)]
  show (if (parseTaskContent ((buildTaskLine d []).data)).isEmpty then none
      else some
        ({ content := String.mk (parseTaskContent ((buildTaskLine d []).data)),
           completed := isTaskCompleted ((buildTaskLine d []).data),
           labels := (parseLabels ((buildTaskLine d []).data)).map String.mk,
           dueDate := (parseDueDate ((buildTaskLine d []).data)).map String.mk,
           dueTime := (parseDueTime ((buildTaskLine d []).data)).map String.mk,
           dueDatetime :=
             (parseDueDatetime ((buildTaskLine d []).data)).map String.mk,
           priority := parsePriority ((buildTaskLine d []).data),
           duration := parseDuration ((buildTaskLine d []).data),
           tid := (extractTID ((buildTaskLine d []).data)).map String.mk } :
          TaskData)) = some d
  rw [if_neg (by rw [hcontne]; exact Bool.false_ne_true)]
  rw [hcontent, hcompl, hlabels, hprio, hdd, hdt, hddt, hdur, htid, mk_data]

/-- C9 counterexample: a task-fields value with priority 1 (a value the
Todoist API itself produces for default-priority tasks) does not round-trip:
the builder omits the `!!1` marker, so parsing the built line loses the
priority. -/
theorem C9_counterexample_priority_one :
    parseTaskLine (buildTaskLine
      ⟨"A", false, ["tdsync"], none, none, none, some 1, none, none⟩ []) ≠
      some ⟨"A", false, ["tdsync"], none, none, none, some 1, none, none⟩ := by
  decide

/-- C9 witness: a concrete canonical value round-trips. -/
theorem C9_roundtrip_canonical_witness :
    canonicalTaskData
      ⟨"A", false, ["tdsync"], none, none, none, none, none, none⟩ ∧
    parseTaskLine (buildTaskLine
      ⟨"A", false, ["tdsync"], none, none, none, none, none, none⟩ []) =
      some ⟨"A", false, ["tdsync"], none, none, none, none, none, none⟩ := by
  have hc : canonicalTaskData
      ⟨"A", false, ["tdsync"], none, none, none, none, none, none⟩ :=
    ⟨by decide, by decide, by decide, by decide,
     ⟨[], rfl, by decide, by decide, by decide⟩,
     Or.inl rfl, Or.inl rfl, Or.inl rfl, rfl, Or.inl rfl, Or.inl rfl⟩
  exact ⟨hc, C9_roundtrip_canonical _ hc⟩

end TodoistSync
